import Mathlib

/-!
Version histories (common/persistence/versionhistory)

A shallow embedding of `version_history.go`.  A version history is a branch
token plus a slice of `(EventId, Version)` items.  Go's `int64` fields are
modelled by `Int`: the functions below only compare them, apart from the one
remainder in `SplitVersionHistoryByLastLocalGeneratedItem`, which Go computes
truncated towards zero (`Int.tmod`) and which cannot overflow.

Go mutates `*VersionHistory` in place; here a mutating function returns the
history after the call together with the optional error.  The functions copy
items with `CopyVersionHistoryItem`, which is declared outside the given
sources and panics on an item with a negative event ID or version; a panic is
the constructor `Error.panic`.
-/

namespace versionhistory

/-- The proto message `VersionHistoryItem`. -/
structure VersionHistoryItem where
  EventId : Int
  Version : Int
deriving DecidableEq, Repr

/-- The proto message `VersionHistory`. -/
structure VersionHistory where
  BranchToken : List Nat
  Items : List VersionHistoryItem
deriving DecidableEq, Repr

/-- The `serviceerror.Internal` values built in `version_history.go`, one
constructor per message. -/
inductive Error where
  | lowerVersion      -- "cannot update version history with a lower version"
  | lowerEventId      -- "cannot add version history with a lower event id"
  | notFound          -- "version history does not contains the LCA item."
  | malformed         -- "version history is malformed. No joint point found."
  | empty             -- "version history is empty."
  | notInRange        -- "input event ID is not in range"
  | panic             -- a run-time panic; it is not an error value
deriving DecidableEq, Repr

deriving instance DecidableEq for Except

/-- The constant `common.FirstEventID`. -/
def FirstEventID : Int := 1

/-- The items that `NewVersionHistoryItem` builds: neither the event ID nor the
version is negative. -/
def ValidItem (item : VersionHistoryItem) : Prop :=
  0 ≤ item.EventId ∧ 0 ≤ item.Version

instance (item : VersionHistoryItem) : Decidable (ValidItem item) :=
  inferInstanceAs (Decidable (0 ≤ item.EventId ∧ 0 ≤ item.Version))

/-- Modelled from the spec: `NewVersionHistoryItem(eventID, version)` is
declared outside the given sources.  It panics on a negative event ID or a
negative version and builds the item otherwise. -/
def NewVersionHistoryItem (eventID version : Int) : Except Error VersionHistoryItem :=
  if eventID < 0 ∨ version < 0 then .error .panic
  else .ok { EventId := eventID, Version := version }

/-- Modelled from the spec: `CopyVersionHistoryItem` is declared outside the
given sources.  It builds a new item from the event ID and the version of the
given one, so it panics on an item with a negative event ID or version. -/
def CopyVersionHistoryItem (item : VersionHistoryItem) : Except Error VersionHistoryItem :=
  NewVersionHistoryItem item.EventId item.Version

/-- Go `NewVersionHistory`. -/
def NewVersionHistory (branchToken : List Nat) (items : List VersionHistoryItem) :
    VersionHistory :=
  { BranchToken := branchToken, Items := items }

/-- Go `getLastVersionHistoryItem`. -/
def getLastVersionHistoryItem (v : List VersionHistoryItem) :
    Except Error VersionHistoryItem :=
  match v.getLast? with
  | none => .error .empty
  | some last => CopyVersionHistoryItem last

/-- Go `GetLastVersionHistoryItem`. -/
def GetLastVersionHistoryItem (v : VersionHistory) : Except Error VersionHistoryItem :=
  getLastVersionHistoryItem v.Items

/-- Go `AddOrUpdateVersionHistoryItem`: the history after the call and the
returned error (`none` for `nil`); when the copy of the item panics the
history is as before and the second component is `some .panic`. -/
def AddOrUpdateVersionHistoryItem (v : VersionHistory) (item : VersionHistoryItem) :
    VersionHistory × Option Error :=
  match v.Items.getLast? with
  | none =>
    match CopyVersionHistoryItem item with
    | .error err => (v, some err)
    | .ok copy => ({ v with Items := [copy] }, none)
  | some lastItem =>
    if item.Version < lastItem.Version then (v, some .lowerVersion)
    else if item.EventId ≤ lastItem.EventId then (v, some .lowerEventId)
    else if item.Version > lastItem.Version then
      -- Add a new history
      match CopyVersionHistoryItem item with
      | .error err => (v, some err)
      | .ok copy => ({ v with Items := v.Items ++ [copy] }, none)
    else
      ({ v with Items := v.Items.dropLast ++ [{ lastItem with EventId := item.EventId }] },
        none)

/-- The loop of `ContainsVersionHistoryItem`, with the running `prevEventID`. -/
def containsLoop (item : VersionHistoryItem) : Int → List VersionHistoryItem → Bool
  | _, [] => false
  | prevEventID, currentItem :: rest =>
    if item.Version = currentItem.Version then
      if prevEventID < item.EventId ∧ item.EventId ≤ currentItem.EventId then true
      else containsLoop item currentItem.EventId rest
    else if item.Version < currentItem.Version then false
    else containsLoop item currentItem.EventId rest

/-- Go `ContainsVersionHistoryItem`. -/
def ContainsVersionHistoryItem (v : VersionHistory) (item : VersionHistoryItem) : Bool :=
  containsLoop item (FirstEventID - 1) v.Items

/-- One pass of the loop of `FindLCAVersionHistoryItemFromItemSlice` with the
`A` cursor fixed on `a`: `bs` is the part of `B` up to `bIndex`, last element
first, and `recA` continues after `aIndex--`. -/
def lcaInner (a : VersionHistoryItem)
    (recA : List VersionHistoryItem → Except Error VersionHistoryItem) :
    List VersionHistoryItem → Except Error VersionHistoryItem
  | [] => .error .malformed
  | b :: bs =>
    if a.Version = b.Version then
      if a.EventId > b.EventId then CopyVersionHistoryItem b else .ok a
    else if a.Version > b.Version then recA (b :: bs)
    else lcaInner a recA bs

/-- The loop of `FindLCAVersionHistoryItemFromItemSlice`.  Both cursors start
at the last index and only move down, so the state is the two prefixes
`A[0..aIndex]`, `B[0..bIndex]`, kept here last element first. -/
def lcaLoop : List VersionHistoryItem → List VersionHistoryItem →
    Except Error VersionHistoryItem
  | [], _ => .error .malformed
  | a :: as, bs => lcaInner a (lcaLoop as) bs

/-- Go `FindLCAVersionHistoryItemFromItemSlice`. -/
def FindLCAVersionHistoryItemFromItemSlice (versionHistoryItemsA versionHistoryItemsB :
    List VersionHistoryItem) : Except Error VersionHistoryItem :=
  lcaLoop versionHistoryItemsA.reverse versionHistoryItemsB.reverse

/-- Go `FindLCAVersionHistoryItem`. -/
def FindLCAVersionHistoryItem (v remote : VersionHistory) :
    Except Error VersionHistoryItem :=
  FindLCAVersionHistoryItemFromItemSlice v.Items remote.Items

/-- Go `IsVersionHistoryItemsInSameBranch`: the returned flag, or
`.error .panic` when a copy panics (a panic is not an error value, so the
tests `err != nil` do not catch it). -/
def IsVersionHistoryItemsInSameBranch (versionHistoryItemsA versionHistoryItemsB :
    List VersionHistoryItem) : Except Error Bool :=
  match FindLCAVersionHistoryItemFromItemSlice versionHistoryItemsA versionHistoryItemsB with
  | .error .panic => .error .panic
  | .error _ => .ok false
  | .ok lowestCommonAncestor =>
    match getLastVersionHistoryItem versionHistoryItemsA with
    | .error .panic => .error .panic
    | .error _ => .ok false
    | .ok aLastItem =>
      match getLastVersionHistoryItem versionHistoryItemsB with
      | .error .panic => .error .panic
      | .error _ => .ok false
      | .ok bLastItem =>
        .ok (decide (lowestCommonAncestor = aLastItem) ||
          decide (lowestCommonAncestor = bLastItem))

/-- The loop of `CopyVersionHistoryUntilLCAVersionHistoryItem` over the
remaining items, with the history built so far. -/
def copyLoop (lcaItem : VersionHistoryItem) :
    VersionHistory → List VersionHistoryItem → Except Error VersionHistory
  | _, [] => .error .notFound
  | versionHistory, item :: rest =>
    if item.Version < lcaItem.Version then
      match AddOrUpdateVersionHistoryItem versionHistory item with
      | (_, some err) => .error err
      | (versionHistory', none) => copyLoop lcaItem versionHistory' rest
    else if item.Version = lcaItem.Version then
      if lcaItem.EventId > item.EventId then .error .notFound
      else
        match AddOrUpdateVersionHistoryItem versionHistory lcaItem with
        | (_, some err) => .error err
        | (versionHistory', none) => .ok versionHistory'
    else .error .notFound

/-- Go `CopyVersionHistoryUntilLCAVersionHistoryItem`. -/
def CopyVersionHistoryUntilLCAVersionHistoryItem (v : VersionHistory)
    (lcaItem : VersionHistoryItem) : Except Error VersionHistory :=
  copyLoop lcaItem { BranchToken := [], Items := [] } v.Items

/-- The final loop of `GetVersionHistoryEventVersion`. -/
def eventVersionLoop (eventID : Int) : List VersionHistoryItem → Except Error Int
  | [] => .error .notInRange
  | currentItem :: rest =>
    if eventID ≤ currentItem.EventId then .ok currentItem.Version
    else eventVersionLoop eventID rest

/-- Go `GetVersionHistoryEventVersion`. -/
def GetVersionHistoryEventVersion (v : VersionHistory) (eventID : Int) : Except Error Int :=
  match GetLastVersionHistoryItem v with
  | .error err => .error err
  | .ok lastItem =>
    if eventID < FirstEventID ∨ eventID > lastItem.EventId then .error .notInRange
    else eventVersionLoop eventID v.Items

/-- The loop of `SplitVersionHistoryByLastLocalGeneratedItem`; the argument is
`i + 1` for the loop index `i`, so `0` is the exit `i < 0`.  `none` is the
run-time panic of an integer remainder by zero. -/
def splitLoop (versionHistoryItems : List VersionHistoryItem)
    (initialFailoverVersion failoverVersionIncrement : Int) :
    Nat → Option (List VersionHistoryItem × List VersionHistoryItem)
  | 0 => some ([], versionHistoryItems)
  | i + 1 =>
    match versionHistoryItems[i]? with
    | none => none
    | some item =>
      if failoverVersionIncrement = 0 then none
      else if item.Version.tmod failoverVersionIncrement = initialFailoverVersion then
        some (versionHistoryItems.take (i + 1), versionHistoryItems.drop (i + 1))
      else splitLoop versionHistoryItems initialFailoverVersion failoverVersionIncrement i

/-- Go `SplitVersionHistoryByLastLocalGeneratedItem`. -/
def SplitVersionHistoryByLastLocalGeneratedItem (versionHistoryItems : List VersionHistoryItem)
    (initialFailoverVersion failoverVersionIncrement : Int) :
    Option (List VersionHistoryItem × List VersionHistoryItem) :=
  splitLoop versionHistoryItems initialFailoverVersion failoverVersionIncrement
    versionHistoryItems.length

/-- The invariant of a version history: along the items versions never
decrease and event IDs strictly increase. -/
def Monotonic (items : List VersionHistoryItem) : Prop :=
  List.Chain' (fun x y => x.Version ≤ y.Version ∧ x.EventId < y.EventId) items

/-- Versions and event IDs both strictly increase along the items. -/
def StrictlyIncreasing (items : List VersionHistoryItem) : Prop :=
  List.Chain' (fun x y => x.Version < y.Version ∧ x.EventId < y.EventId) items

/-- Versions strictly increase along the items. -/
def VersionsIncreasing (items : List VersionHistoryItem) : Prop :=
  List.Chain' (fun x y => x.Version < y.Version) items

/-- The value of `prevEventID` when the loop of `ContainsVersionHistoryItem`
reaches index `i`: `first` at index `0`, otherwise the event ID of the item
at index `i - 1`. -/
def prevEventIDAt (first : Int) (items : List VersionHistoryItem) : Nat → Int
  | 0 => first
  | i + 1 =>
    match items[i]? with
    | some p => p.EventId
    | none => first

/-- The largest version that occurs in both lists, if there is one. -/
def largestCommonVersion (a b : List VersionHistoryItem) : Option Int :=
  ((a.map (fun x => x.Version)).filter
    (fun v => b.any (fun y => decide (y.Version = v)))).max?

/-- Reference definition of the lowest common ancestor: with `v` the largest
version common to both lists and `eA`, `eB` the event IDs recorded for `v` in
each list, the item `(v, min eA eB)`; an error when no version is common. -/
def lcaReference (a b : List VersionHistoryItem) : Except Error VersionHistoryItem :=
  match largestCommonVersion a b with
  | none => .error .malformed
  | some v =>
    match a.find? (fun x => decide (x.Version = v)),
        b.find? (fun y => decide (y.Version = v)) with
    | some x, some y => .ok { EventId := min x.EventId y.EventId, Version := v }
    | _, _ => .error .malformed

/-- The effect of `AddOrUpdateVersionHistoryItem` with the copy read as the
identity: what the call does when the copy does not panic. -/
def addOrUpdateCore (v : VersionHistory) (item : VersionHistoryItem) :
    VersionHistory × Option Error :=
  match v.Items.getLast? with
  | none => ({ v with Items := [item] }, none)
  | some lastItem =>
    if item.Version < lastItem.Version then (v, some .lowerVersion)
    else if item.EventId ≤ lastItem.EventId then (v, some .lowerEventId)
    else if item.Version > lastItem.Version then
      ({ v with Items := v.Items ++ [item] }, none)
    else
      ({ v with Items := v.Items.dropLast ++ [{ lastItem with EventId := item.EventId }] },
        none)

/-- The pass `lcaInner` with the copy read as the identity: what the pass
computes when no copy panics. -/
def lcaInnerCore (a : VersionHistoryItem)
    (recA : List VersionHistoryItem → Except Error VersionHistoryItem) :
    List VersionHistoryItem → Except Error VersionHistoryItem
  | [] => .error .malformed
  | b :: bs =>
    if a.Version = b.Version then
      if a.EventId > b.EventId then .ok b else .ok a
    else if a.Version > b.Version then recA (b :: bs)
    else lcaInnerCore a recA bs

/-- The loop `lcaLoop` with the copy read as the identity.  It agrees with
`lcaLoop` on every successful search and whenever the items of the second
list are valid. -/
def lcaLoopCore : List VersionHistoryItem → List VersionHistoryItem →
    Except Error VersionHistoryItem
  | [], _ => .error .malformed
  | a :: as, bs => lcaInnerCore a (lcaLoopCore as) bs

/-- The search of `FindLCAVersionHistoryItemFromItemSlice` with the copy read
as the identity. -/
def findLCACore (a b : List VersionHistoryItem) : Except Error VersionHistoryItem :=
  lcaLoopCore a.reverse b.reverse


end versionhistory

/-!
The indexed take list (common/collection/indexedtakelist.go)

The list is a slice of `(key, value, removed)` entries.  `Take` and
`TakeRemaining` mutate the list in place; here they return the list after the
call together with the Go results.  Go's zero value of `V` is `default`.
-/

namespace collection

/-- The struct `kv[K, V]`. -/
structure kv (K V : Type) where
  key : K
  value : V
  removed : Bool
deriving DecidableEq, Repr

/-- The struct `IndexedTakeList[K, V]`. -/
structure IndexedTakeList (K V : Type) where
  values : List (kv K V)
deriving DecidableEq, Repr

/-- Go `NewIndexedTakeList`: one entry per value, keyed by the indexer, none
removed. -/
def NewIndexedTakeList {K V : Type} (values : List V) (indexer : V → K) :
    IndexedTakeList K V :=
  { values := values.map (fun v => { key := indexer v, value := v, removed := false }) }

/-- The loop of `Take` over the entries from index `i` on: the entries after
the call, the returned value and the returned flag. -/
def takeLoop {K V : Type} [DecidableEq K] [Inhabited V] (key : K) :
    List (kv K V) → List (kv K V) × V × Bool
  | [] => ([], default, false)
  | e :: rest =>
    if e.key ≠ key then
      let r := takeLoop key rest
      (e :: r.1, r.2.1, r.2.2)
    else if e.removed then (e :: rest, default, false)
    else ({ e with removed := true } :: rest, e.value, true)

/-- Go `IndexedTakeList.Take`: the list after the call and the pair returned. -/
def IndexedTakeList.Take {K V : Type} [DecidableEq K] [Inhabited V]
    (itl : IndexedTakeList K V) (key : K) : IndexedTakeList K V × V × Bool :=
  let r := takeLoop key itl.values
  ({ values := r.1 }, r.2.1, r.2.2)

/-- The loop of `TakeRemaining`: the values of the entries not removed. -/
def takeRemainingLoop {K V : Type} : List (kv K V) → List V
  | [] => []
  | e :: rest =>
    if !e.removed then e.value :: takeRemainingLoop rest
    else takeRemainingLoop rest

/-- Go `IndexedTakeList.TakeRemaining`: the list after the call (`values` is
set to `nil`) and the returned slice. -/
def IndexedTakeList.TakeRemaining {K V : Type} (itl : IndexedTakeList K V) :
    IndexedTakeList K V × List V :=
  ({ values := [] }, takeRemainingLoop itl.values)

/-- The operations a caller can apply to a list. -/
inductive Op (K : Type) where
  | take (key : K)
  | takeRemaining
deriving Repr

/-- The list after one operation. -/
def applyOp {K V : Type} [DecidableEq K] [Inhabited V]
    (itl : IndexedTakeList K V) : Op K → IndexedTakeList K V
  | .take key => (itl.Take key).1
  | .takeRemaining => itl.TakeRemaining.1

/-- The list after a sequence of operations. -/
def applyOps {K V : Type} [DecidableEq K] [Inhabited V]
    (itl : IndexedTakeList K V) (ops : List (Op K)) : IndexedTakeList K V :=
  ops.foldl applyOp itl

/-- A sequence of `Take` calls: the list afterwards and the values that the
successful calls returned, in call order. -/
def takeAll {K V : Type} [DecidableEq K] [Inhabited V] :
    IndexedTakeList K V → List K → IndexedTakeList K V × List V
  | itl, [] => (itl, [])
  | itl, key :: keys =>
    let r := itl.Take key
    let rest := takeAll r.1 keys
    (rest.1, if r.2.2 then r.2.1 :: rest.2 else rest.2)

/-- The first entry with the key, if any, has been removed. -/
def Blocked {K V : Type} [DecidableEq K] (key : K) (vals : List (kv K V)) : Prop :=
  ∀ e, vals.find? (fun e => decide (e.key = key)) = some e → e.removed = true

end collection


/-!
History-node rows of the SQL plugins (sqlplugin/postgresql/events.go and
sqlplugin/sqlite/events.go)

The database connection is external: it is a record of the two calls the
functions make.  `int64` columns are `Int` values, and the unary minus of Go
wraps modulo `2^64`.
-/

namespace sqlplugin

/-- Wrap an integer into the range of `int64`. -/
def wrap64 (x : Int) : Int :=
  (x + 9223372036854775808) % 18446744073709551616 - 9223372036854775808

/-- Go's unary minus on an `int64`. -/
def neg64 (x : Int) : Int := wrap64 (-x)

/-- The values of `int64`. -/
def IsInt64 (x : Int) : Prop :=
  -9223372036854775808 ≤ x ∧ x < 9223372036854775808

instance (x : Int) : Decidable (IsInt64 x) :=
  inferInstanceAs (Decidable (-9223372036854775808 ≤ x ∧ x < 9223372036854775808))

/-- Modelled from the spec: the struct `sqlplugin.HistoryNodeRow` is declared
outside the given sources; its fields are the columns that the history-node
queries name. -/
structure HistoryNodeRow where
  ShardID : Int
  TreeID : List Nat
  BranchID : List Nat
  NodeID : Int
  PrevTxnID : Int
  TxnID : Int
  Data : List Nat
  DataEncoding : String
deriving DecidableEq, Repr

/-- Modelled from the spec: the struct `sqlplugin.HistoryNodeSelectFilter` is
declared outside the given sources; its fields are those that
`RangeSelectFromHistoryNode` reads. -/
structure HistoryNodeSelectFilter where
  ShardID : Int
  TreeID : List Nat
  BranchID : List Nat
  MinNodeID : Int
  MinTxnID : Int
  MaxNodeID : Int
  MaxTxnID : Int
  PageSize : Int
  MetadataOnly : Bool
  ReverseOrder : Bool
deriving DecidableEq, Repr

/-- A positional query argument. -/
inductive Arg where
  | int (n : Int)
  | bytes (b : List Nat)
deriving DecidableEq, Repr

/-- The history-node statements of a plugin. -/
inductive Query where
  | addHistoryNodes           -- `addHistoryNodesQuery` / `replaceHistoryNodesQuery`
  | getHistoryNodes
  | getHistoryNodesReverse
  | getHistoryNodeMetadata
deriving DecidableEq, Repr

/-- The database handle: the result of `NamedExecContext` for a statement and
a row, and of `SelectContext` for a statement and its arguments (`none` is an
error). -/
structure Conn where
  namedExec : Query → HistoryNodeRow → Option Nat
  select : Query → List Arg → Option (List HistoryNodeRow)

/-- The statement that `RangeSelectFromHistoryNode` chooses. -/
def selectQuery (filter : HistoryNodeSelectFilter) : Query :=
  if filter.MetadataOnly then .getHistoryNodeMetadata
  else if filter.ReverseOrder then .getHistoryNodesReverse
  else .getHistoryNodes

/-- The arguments that `RangeSelectFromHistoryNode` passes. -/
def selectArgs (filter : HistoryNodeSelectFilter) : List Arg :=
  if filter.ReverseOrder then
    [.int filter.ShardID, .bytes filter.TreeID, .bytes filter.BranchID,
      .int filter.MinNodeID, .int filter.MaxTxnID, .int (neg64 filter.MaxTxnID),
      .int filter.MaxNodeID, .int filter.PageSize]
  else
    [.int filter.ShardID, .bytes filter.TreeID, .bytes filter.BranchID,
      .int filter.MinNodeID, .int (neg64 filter.MinTxnID), .int filter.MinNodeID,
      .int filter.MaxNodeID, .int filter.PageSize]

end sqlplugin

namespace postgresql

open sqlplugin

/-- Go `InsertIntoHistoryNode` of the PostgreSQL plugin: the row as sent to
the database (the caller's row after `row.TxnID = -row.TxnID`) and the result
of the statement. -/
def InsertIntoHistoryNode (pdb : Conn) (row : HistoryNodeRow) :
    HistoryNodeRow × Option Nat :=
  let row := { row with TxnID := neg64 row.TxnID }
  (row, pdb.namedExec .addHistoryNodes row)

/-- Go `RangeSelectFromHistoryNode` of the PostgreSQL plugin (`none` is the
error of `SelectContext`). -/
def RangeSelectFromHistoryNode (pdb : Conn) (filter : HistoryNodeSelectFilter) :
    Option (List HistoryNodeRow) :=
  match pdb.select (selectQuery filter) (selectArgs filter) with
  | none => none
  | some rows => some (rows.map (fun r => { r with TxnID := neg64 r.TxnID }))

end postgresql

namespace sqlite

open sqlplugin

/-- Go `InsertIntoHistoryNode` of the SQLite plugin: the row as sent to the
database and the result of the statement. -/
def InsertIntoHistoryNode (mdb : Conn) (row : HistoryNodeRow) :
    HistoryNodeRow × Option Nat :=
  let row := { row with TxnID := neg64 row.TxnID }
  (row, mdb.namedExec .addHistoryNodes row)

/-- Go `RangeSelectFromHistoryNode` of the SQLite plugin (`none` is the error
of `SelectContext`). -/
def RangeSelectFromHistoryNode (mdb : Conn) (filter : HistoryNodeSelectFilter) :
    Option (List HistoryNodeRow) :=
  match mdb.select (selectQuery filter) (selectArgs filter) with
  | none => none
  | some rows => some (rows.map (fun r => { r with TxnID := neg64 r.TxnID }))

end sqlite


/-!
Outbound queue task executors (service/history/outbound_queue_active_task_executor.go
and outbound_queue_standby_task_executor.go)

The shard context, the registries and the state-machine environment are
external: an executor run is a function of the results of the calls it makes,
and it returns, next to the Go result, the list of the calls it made.
-/

namespace history

/-- The error values the executors return or test for; `wrapped` is an error
that wraps another one (`Unwrap`), `destinationDown` is
`queues.NewDestinationDownError(message, inner)`. -/
inductive Error where
  | namespaceHandover   -- `consts.ErrNamespaceHandover`
  | staleReference      -- `consts.ErrStaleReference`
  | taskDiscarded       -- `consts.ErrTaskDiscarded`
  | taskRetry           -- `consts.ErrTaskRetry`
  | other (code : Nat)
  | wrapped (inner : Error)
  | destinationDown (message : String) (inner : Error)
deriving DecidableEq, Repr

/-- Go `errors.Is(err, target)` for the errors above: `err` or an error in its
`Unwrap` chain equals `target`. -/
def errorsIs : Error → Error → Bool
  | .wrapped inner, target =>
    decide (Error.wrapped inner = target) || errorsIs inner target
  | .destinationDown message inner, target =>
    decide (Error.destinationDown message inner = target) || errorsIs inner target
  | err, target => decide (err = target)

/-- The replication states of a namespace. -/
inductive ReplicationState where
  | unspecified
  | normal
  | handover
deriving DecidableEq, Repr

/-- The external calls an executor makes. -/
inductive Call where
  | getNamespaceByID
  | stateMachineTask
  | validateTaskByClock
  | access
  | executeImmediateTask
deriving DecidableEq, Repr

/-- The metric tags of a response. -/
inductive Tag where
  | namespace (name : String)
  | taskType (value : String)
  | operation (value : String)
deriving DecidableEq, Repr

/-- The struct `queues.ExecuteResponse`. -/
structure ExecuteResponse where
  ExecutionMetricTags : List Tag
  ExecutedAsActive : Bool
  ExecutionErr : Option Error
deriving DecidableEq, Repr

/-- What the active executor obtains from its environment for one task: the
tag and the replication state of the namespace, the task type tag, the result of
`StateMachineTask` (a reference and a task, or an error), of
`validateTaskByClock` and of `ExecuteImmediateTask`. -/
structure ActiveEnv where
  namespaceTag : String
  replicationState : ReplicationState
  taskType : String
  stateMachineTask : Except Error (Nat × Nat)
  validateTaskByClock : Option Error
  executeImmediateTask : Nat → Nat → Option Error

/-- The closure `respond` of `outboundQueueActiveTaskExecutor.Execute`. -/
def activeRespond (env : ActiveEnv) (err : Option Error) : ExecuteResponse :=
  { ExecutionMetricTags :=
      [.namespace env.namespaceTag, .taskType env.taskType, .operation env.taskType],
    ExecutedAsActive := true,
    ExecutionErr := err }

/-- Go `outboundQueueActiveTaskExecutor.Execute`: the response and the calls
made. -/
def outboundQueueActiveTaskExecutor.Execute (env : ActiveEnv) :
    ExecuteResponse × List Call :=
  match env.stateMachineTask with
  | .error err => (activeRespond env (some err), [.stateMachineTask])
  | .ok (ref, smt) =>
    if env.replicationState = .handover then
      (activeRespond env (some .namespaceHandover), [.stateMachineTask])
    else
      match env.validateTaskByClock with
      | some err => (activeRespond env (some err), [.stateMachineTask, .validateTaskByClock])
      | none =>
        (activeRespond env (env.executeImmediateTask ref smt),
          [.stateMachineTask, .validateTaskByClock, .executeImmediateTask])

/-- A namespace record, as far as the standby executor reads it. -/
structure NamespaceRecord where
  name : String
  isOnCluster : String → Bool

/-- What the standby executor obtains from its environment for one task.
Times and durations are integers (nanoseconds); `destination` is `none` when
the task has no destination. -/
structure StandbyEnv where
  clusterName : String
  getNamespaceByID : Except Error NamespaceRecord
  validateTaskByClock : Option Error
  stateMachineTask : Except Error (Nat × Nat)
  access : Option Error
  destination : Option String
  visibilityTime : Int
  now : Int
  discardDelay : String → String → Int
  destinationDownErr : String → String → Bool

/-- Go `outboundQueueStandbyTaskExecutor.processTask`: the returned error
(`none` for `nil`) and the calls made. -/
def outboundQueueStandbyTaskExecutor.processTask (env : StandbyEnv) :
    Option Error × List Call :=
  match env.getNamespaceByID with
  | .error err => (some err, [.getNamespaceByID])
  | .ok nsRecord =>
    if !nsRecord.isOnCluster env.clusterName then (none, [.getNamespaceByID])
    else
      match env.validateTaskByClock with
      | some err => (some err, [.getNamespaceByID, .validateTaskByClock])
      | none =>
        match env.stateMachineTask with
        | .error err =>
          (some err, [.getNamespaceByID, .validateTaskByClock, .stateMachineTask])
        | .ok _ =>
          let calls := [Call.getNamespaceByID, .validateTaskByClock, .stateMachineTask, .access]
          match env.access with
          | some err =>
            if errorsIs err .staleReference then (none, calls) else (some err, calls)
          | none =>
            let destination := env.destination.getD ""
            let discardTime := env.visibilityTime + env.discardDelay nsRecord.name destination
            if env.now > discardTime then (some .taskDiscarded, calls)
            else if env.destinationDownErr nsRecord.name destination then
              (some (.destinationDown "standby task executor returned retryable error"
                .taskRetry), calls)
            else (some .taskRetry, calls)

end history


/-!
The worker-deployment workflow (service/worker/workerdeployment/workflow.go)

The deployment state is `d.State`; handlers mutate it in place and call
activities, the workflow lock, the clock and the memo.  Here a handler is a
function of the runner, its arguments and an environment `Env` that holds the
result of every external call; it returns the runner after the call and the
Go result.  The runner records the external calls it made in `calls`.
`State.Versions` is a Go map, kept here as an association list.  Instants are
integers; `timestamppb.New` and `AsTime` are the identity on them.
-/

namespace workerdeployment

/-- An instant. -/
abbrev Time := Int

/-- A `float32` percentage.  The code only compares percentages with `==` and
writes the constant `0`, so a value is either not-a-number or a number, kept
as an integer code of its value. -/
structure Float32 where
  isNaN : Bool
  value : Int
deriving DecidableEq, Repr

/-- Go's `==` on `float32`: not-a-number differs from everything. -/
def Float32.eq (a b : Float32) : Bool :=
  !a.isNaN && !b.isNaN && decide (a.value = b.value)

/-- The constant `0` of `float32`. -/
def Float32.zero : Float32 := { isNaN := false, value := 0 }

/-- The enum `enumspb.VersionDrainageStatus`. -/
inductive VersionDrainageStatus where
  | unspecified
  | draining
  | drained
deriving DecidableEq, Repr

/-- The proto message `VersionDrainageInfo`. -/
structure VersionDrainageInfo where
  Status : VersionDrainageStatus
  LastChangedTime : Option Time
  LastCheckedTime : Option Time
deriving DecidableEq, Repr

/-- The proto message `WorkerDeploymentVersionSummary`. -/
structure WorkerDeploymentVersionSummary where
  Version : String
  CreateTime : Option Time := none
  DrainageStatus : VersionDrainageStatus := .unspecified
  DrainageInfo : Option VersionDrainageInfo := none
  RoutingUpdateTime : Option Time := none
  CurrentSinceTime : Option Time := none
  RampingSinceTime : Option Time := none
  FirstActivationTime : Option Time := none
  LastDeactivationTime : Option Time := none
deriving DecidableEq, Repr

/-- The proto message `RoutingConfig`, with the fields the workflow uses. -/
structure RoutingConfig where
  CurrentVersion : String
  RampingVersion : String := ""
  RampingVersionPercentage : Float32 := Float32.zero
  CurrentVersionChangedTime : Option Time := none
  RampingVersionChangedTime : Option Time := none
deriving DecidableEq, Repr

/-- The proto message `WorkerDeploymentLocalState`. -/
structure WorkerDeploymentLocalState where
  CreateTime : Option Time
  RoutingConfig : RoutingConfig
  Versions : List (String × WorkerDeploymentVersionSummary)
  ConflictToken : List Nat
  LastModifierIdentity : String
  SyncBatchSize : Int
deriving DecidableEq, Repr

/-- The proto message `SyncVersionStateUpdateArgs`. -/
structure SyncVersionStateUpdateArgs where
  RoutingUpdateTime : Option Time
  CurrentSinceTime : Option Time := none
  RampingSinceTime : Option Time := none
  RampPercentage : Float32 := Float32.zero
deriving DecidableEq, Repr

/-- The proto message `SetCurrentVersionArgs`; a `nil` token is `none`. -/
structure SetCurrentVersionArgs where
  Identity : String
  Version : String
  IgnoreMissingTaskQueues : Bool
  ConflictToken : Option (List Nat)
deriving DecidableEq, Repr

/-- The proto message `SetRampingVersionArgs`; a `nil` token is `none`. -/
structure SetRampingVersionArgs where
  Identity : String
  Version : String
  Percentage : Float32
  IgnoreMissingTaskQueues : Bool
  ConflictToken : Option (List Nat)
deriving DecidableEq, Repr

/-- The proto message `SetCurrentVersionResponse`. -/
structure SetCurrentVersionResponse where
  PreviousVersion : String
  ConflictToken : List Nat
deriving DecidableEq, Repr

/-- The proto message `SetRampingVersionResponse`. -/
structure SetRampingVersionResponse where
  PreviousVersion : String
  PreviousPercentage : Float32
  ConflictToken : List Nat
deriving DecidableEq, Repr

/-- The proto message `AddVersionUpdateArgs`. -/
structure AddVersionUpdateArgs where
  Version : String
  CreateTime : Option Time
deriving DecidableEq, Repr

/-- The proto message `DeleteVersionArgs`. -/
structure DeleteVersionArgs where
  Identity : String
  Version : String
  SkipDrainage : Bool := false
deriving DecidableEq, Repr

/-- The types of the application errors the workflow builds. -/
inductive ErrorType where
  | errNoChangeType
  | errConflictTokenMismatchType
  | errVersionAlreadyCurrentType
  | errVersionNotFound
  | errTooManyVersions
deriving DecidableEq, Repr

/-- The messages of the failed-precondition errors the workflow builds. -/
inductive Precondition where
  | ErrCurrentVersionDoesNotHaveAllTaskQueues
  | ErrRampingVersionDoesNotHaveAllTaskQueues
  | noneEligibleForDeletion
deriving DecidableEq, Repr

/-- The errors of the workflow: the ones it builds and, as `external`, the
ones an external call returns. -/
inductive Error where
  | deadlineExceeded
  | application (type : ErrorType) (details : Option (List Nat))
  | failedPrecondition (message : Precondition)
  | external (code : Nat)
deriving DecidableEq, Repr

/-- The proto message `WorkerDeploymentWorkflowMemo` that `updateMemo` writes,
without the deployment name, which is fixed for a run. -/
structure WorkerDeploymentWorkflowMemo where
  CreateTime : Option Time
  RoutingConfig : RoutingConfig
deriving DecidableEq, Repr

/-- The external calls of the workflow. -/
inductive Call where
  | lock
  | isVersionMissingTaskQueues (prevCurrentVersion newCurrentVersion : String)
  | syncVersion (targetVersion : String) (activated : Bool)
  | syncUnversionedRamp
  | deleteVersion (version : String)
  | updateMemo
deriving DecidableEq, Repr

/-- The results of the external calls during one handler run: the workflow
lock, `workflow.Now`, `MarshalBinary` of an instant, the activities, the memo
upsert (which sees the memo it is given), the max-versions side effect,
`workflow.DeterministicKeys` and `slices.SortFunc`. -/
structure Env where
  lock : Option Error
  now : Time
  marshalBinary : Time → List Nat
  isVersionMissingTaskQueues : String → String → Bool × Option Error
  syncVersion : String → SyncVersionStateUpdateArgs → Bool → Option Error
  syncUnversionedRamp : SyncVersionStateUpdateArgs → Option Error
  deleteVersion : DeleteVersionArgs → Option Error
  updateMemo : WorkerDeploymentWorkflowMemo → Option Error
  maxVersions : Int
  deterministicKeys : List (String × WorkerDeploymentVersionSummary) → List String
  sortFunc : (WorkerDeploymentVersionSummary → WorkerDeploymentVersionSummary → Int) →
    List WorkerDeploymentVersionSummary → List WorkerDeploymentVersionSummary

/-- The struct `WorkflowRunner`: the deployment state, the `stateChanged`
flag, and the external calls made so far. -/
structure WorkflowRunner where
  State : WorkerDeploymentLocalState
  stateChanged : Bool
  calls : List Call

/-- A map read `m[key]` with its `ok` flag. -/
def lookup (m : List (String × WorkerDeploymentVersionSummary)) (key : String) :
    Option WorkerDeploymentVersionSummary :=
  (m.find? (fun kv => decide (kv.1 = key))).map (fun kv => kv.2)

/-- A map write `m[key] = summary`. -/
def store (m : List (String × WorkerDeploymentVersionSummary)) (key : String)
    (summary : WorkerDeploymentVersionSummary) :
    List (String × WorkerDeploymentVersionSummary) :=
  if (lookup m key).isSome then
    m.map (fun kv => if kv.1 = key then (key, summary) else kv)
  else m ++ [(key, summary)]

/-- The map after `delete(m, key)`. -/
def erase (m : List (String × WorkerDeploymentVersionSummary)) (key : String) :
    List (String × WorkerDeploymentVersionSummary) :=
  m.filter (fun kv => !decide (kv.1 = key))

/-- The test `args.ConflictToken != nil && !bytes.Equal(args.ConflictToken, token)`. -/
def conflictTokenMismatch (argsToken : Option (List Nat)) (token : List Nat) : Bool :=
  match argsToken with
  | none => false
  | some t => !decide (t = token)

/-- Go `setStateChanged`. -/
def WorkflowRunner.setStateChanged (d : WorkflowRunner) : WorkflowRunner :=
  { d with stateChanged := true }

/-- The runner after an external call is recorded. -/
def WorkflowRunner.record (d : WorkflowRunner) (call : Call) : WorkflowRunner :=
  { d with calls := d.calls ++ [call] }

/-- The runner with `d.State.Versions` replaced. -/
def WorkflowRunner.withVersions (d : WorkflowRunner)
    (versions : List (String × WorkerDeploymentVersionSummary)) : WorkflowRunner :=
  { d with State := { d.State with Versions := versions } }

/-- Go `updateVersionSummary`. -/
def WorkflowRunner.updateVersionSummary (d : WorkflowRunner)
    (summary : WorkerDeploymentVersionSummary) : WorkflowRunner :=
  match lookup d.State.Versions summary.Version with
  | none => d
  | some existingSummary =>
    let summary :=
      if existingSummary.CreateTime.isSome then
        let summary := { summary with CreateTime := existingSummary.CreateTime }
        if existingSummary.FirstActivationTime.isSome then
          { summary with FirstActivationTime := existingSummary.FirstActivationTime }
        else summary
      else summary
    d.withVersions (store d.State.Versions summary.Version summary)

/-- Go `setDrainageStatus`. -/
def WorkflowRunner.setDrainageStatus (d : WorkflowRunner) (version : String)
    (status : VersionDrainageStatus) (routingUpdateTime : Option Time) : WorkflowRunner :=
  match lookup d.State.Versions version with
  | none => d
  | some summary =>
    d.withVersions (store d.State.Versions version
      { summary with
        DrainageStatus := status,
        DrainageInfo := some
          { Status := status, LastChangedTime := routingUpdateTime,
            LastCheckedTime := routingUpdateTime } })

/-- Go `syncVersion`: the runner afterwards and the error of the activity. -/
def WorkflowRunner.syncVersion (d : WorkflowRunner) (env : Env) (targetVersion : String)
    (versionUpdateArgs : SyncVersionStateUpdateArgs) (activated : Bool) :
    WorkflowRunner × Option Error :=
  let d := d.record (.syncVersion targetVersion activated)
  match env.syncVersion targetVersion versionUpdateArgs activated with
  | some err => (d, some err)
  | none =>
    let summary : WorkerDeploymentVersionSummary :=
      { Version := targetVersion,
        RoutingUpdateTime := versionUpdateArgs.RoutingUpdateTime,
        CurrentSinceTime := versionUpdateArgs.CurrentSinceTime,
        RampingSinceTime := versionUpdateArgs.RampingSinceTime }
    let summary :=
      if activated then
        { summary with FirstActivationTime := versionUpdateArgs.RoutingUpdateTime }
      else { summary with LastDeactivationTime := versionUpdateArgs.RoutingUpdateTime }
    (d.updateVersionSummary summary, none)

/-- Go `syncUnversionedRamp`, as the single external result it amounts to. -/
def WorkflowRunner.syncUnversionedRamp (d : WorkflowRunner) (env : Env)
    (versionUpdateArgs : SyncVersionStateUpdateArgs) : WorkflowRunner × Option Error :=
  (d.record .syncUnversionedRamp, env.syncUnversionedRamp versionUpdateArgs)

/-- The memo that `updateMemo` builds from the state. -/
def WorkflowRunner.memo (d : WorkflowRunner) : WorkerDeploymentWorkflowMemo :=
  { CreateTime := d.State.CreateTime, RoutingConfig := d.State.RoutingConfig }

/-- Go `updateMemo`: the upsert of the memo built from the deployment name, the
create time and the routing configuration. -/
def WorkflowRunner.updateMemo (d : WorkflowRunner) (env : Env) :
    WorkflowRunner × Option Error :=
  (d.record .updateMemo, env.updateMemo d.memo)

/-- Go `isVersionMissingTaskQueues`. -/
def WorkflowRunner.isVersionMissingTaskQueues (d : WorkflowRunner) (env : Env)
    (prevCurrentVersion newCurrentVersion : String) : WorkflowRunner × Bool × Option Error :=
  (d.record (.isVersionMissingTaskQueues prevCurrentVersion newCurrentVersion),
    env.isVersionMissingTaskQueues prevCurrentVersion newCurrentVersion)


/-- Go `validateStateBeforeAcceptingSetCurrent` (`none` for `nil`).  The
sentinel `worker_versioning.UnversionedVersionId` is declared outside the
given sources and is a parameter. -/
def WorkflowRunner.validateStateBeforeAcceptingSetCurrent (UnversionedVersionId : String)
    (d : WorkflowRunner) (args : SetCurrentVersionArgs) : Option Error :=
  if d.State.RoutingConfig.CurrentVersion = args.Version ∧
      d.State.LastModifierIdentity = args.Identity then
    some (.application .errNoChangeType (some d.State.ConflictToken))
  else if conflictTokenMismatch args.ConflictToken d.State.ConflictToken then
    some (.application .errConflictTokenMismatchType none)
  else if (lookup d.State.Versions args.Version).isNone ∧
      args.Version ≠ UnversionedVersionId then
    some (.application .errVersionNotFound none)
  else none

/-- Go `validateSetCurrent`. -/
def WorkflowRunner.validateSetCurrent (UnversionedVersionId : String)
    (d : WorkflowRunner) (args : SetCurrentVersionArgs) : Option Error :=
  d.validateStateBeforeAcceptingSetCurrent UnversionedVersionId args

/-- Go `validateStateBeforeAcceptingRampingUpdate` (`none` for `nil`). -/
def WorkflowRunner.validateStateBeforeAcceptingRampingUpdate (UnversionedVersionId : String)
    (d : WorkflowRunner) (args : SetRampingVersionArgs) : Option Error :=
  if args.Version = d.State.RoutingConfig.RampingVersion ∧
      args.Percentage.eq d.State.RoutingConfig.RampingVersionPercentage = true ∧
      args.Identity = d.State.LastModifierIdentity then
    some (.application .errNoChangeType (some d.State.ConflictToken))
  else if conflictTokenMismatch args.ConflictToken d.State.ConflictToken then
    some (.application .errConflictTokenMismatchType none)
  else if args.Version = d.State.RoutingConfig.CurrentVersion then
    some (.application .errVersionAlreadyCurrentType none)
  else if (lookup d.State.Versions args.Version).isNone ∧ args.Version ≠ "" ∧
      args.Version ≠ UnversionedVersionId then
    some (.application .errVersionNotFound none)
  else none

/-- Go `validateSetRampingVersion`. -/
def WorkflowRunner.validateSetRampingVersion (UnversionedVersionId : String)
    (d : WorkflowRunner) (args : SetRampingVersionArgs) : Option Error :=
  d.validateStateBeforeAcceptingRampingUpdate UnversionedVersionId args

/-- The tail of `handleSetCurrent` from the comment "update local state" on. -/
def WorkflowRunner.finishSetCurrent (d : WorkflowRunner) (env : Env)
    (args : SetCurrentVersionArgs) (prevCurrentVersion : String) (updateTime : Time) :
    WorkflowRunner × Except Error SetCurrentVersionResponse :=
  let routing :=
    { d.State.RoutingConfig with
      CurrentVersion := args.Version, CurrentVersionChangedTime := some updateTime }
  -- unset ramping version if it was set to current version
  let routing :=
    if routing.CurrentVersion = routing.RampingVersion then
      { routing with
        RampingVersion := "", RampingVersionPercentage := Float32.zero,
        RampingVersionChangedTime := some updateTime }
    else routing
  let d : WorkflowRunner :=
    { d with State :=
        { d.State with
          RoutingConfig := routing, ConflictToken := env.marshalBinary updateTime,
          LastModifierIdentity := args.Identity } }
  match d.updateMemo env with
  | (d, some err) => (d, .error err)
  | (d, none) =>
    (d.setStateChanged,
      .ok { PreviousVersion := prevCurrentVersion, ConflictToken := d.State.ConflictToken })

/-- The part of `handleSetCurrent` that tells the previous current version
that it is no longer current, and what follows. -/
def WorkflowRunner.syncPrevCurrent (UnversionedVersionId : String)
    (d : WorkflowRunner) (env : Env)
    (args : SetCurrentVersionArgs) (prevCurrentVersion : String) (updateTime : Time) :
    WorkflowRunner × Except Error SetCurrentVersionResponse :=
  if prevCurrentVersion ≠ UnversionedVersionId then
    match d.syncVersion env prevCurrentVersion
        { RoutingUpdateTime := some updateTime, CurrentSinceTime := none,
          RampingSinceTime := none, RampPercentage := Float32.zero } false with
    | (d, some err) => (d, .error err)
    | (d, none) =>
      (d.setDrainageStatus prevCurrentVersion .draining (some updateTime)).finishSetCurrent
        env args prevCurrentVersion updateTime
  else d.finishSetCurrent env args prevCurrentVersion updateTime

/-- The part of `handleSetCurrent` after the missing-task-queue check. -/
def WorkflowRunner.syncNewCurrent (UnversionedVersionId : String)
    (d : WorkflowRunner) (env : Env)
    (args : SetCurrentVersionArgs) (prevCurrentVersion : String) (updateTime : Time) :
    WorkflowRunner × Except Error SetCurrentVersionResponse :=
  let newCurrentVersion := args.Version
  if newCurrentVersion ≠ UnversionedVersionId then
    match d.syncVersion env newCurrentVersion
        { RoutingUpdateTime := some updateTime, CurrentSinceTime := some updateTime,
          RampingSinceTime := none, RampPercentage := Float32.zero } true with
    | (d, some err) => (d, .error err)
    | (d, none) =>
      (d.setDrainageStatus newCurrentVersion .unspecified (some updateTime)).syncPrevCurrent
        UnversionedVersionId env args prevCurrentVersion updateTime
  else if d.State.RoutingConfig.RampingVersion = UnversionedVersionId then
    match d.syncUnversionedRamp env
        { RoutingUpdateTime := some updateTime, RampingSinceTime := none,
          RampPercentage := Float32.zero } with
    | (d, some err) => (d, .error err)
    | (d, none) => d.syncPrevCurrent UnversionedVersionId env args prevCurrentVersion updateTime
  else d.syncPrevCurrent UnversionedVersionId env args prevCurrentVersion updateTime

/-- Go `handleSetCurrent`: the runner afterwards and the response or error. -/
def WorkflowRunner.handleSetCurrent (UnversionedVersionId : String)
    (d : WorkflowRunner) (env : Env) (args : SetCurrentVersionArgs) :
    WorkflowRunner × Except Error SetCurrentVersionResponse :=
  let d := d.record .lock
  match env.lock with
  | some _ => (d, .error .deadlineExceeded)
  | none =>
    match d.validateStateBeforeAcceptingSetCurrent UnversionedVersionId args with
    | some err => (d, .error err)
    | none =>
      let prevCurrentVersion := d.State.RoutingConfig.CurrentVersion
      let newCurrentVersion := args.Version
      let updateTime := env.now
      if !args.IgnoreMissingTaskQueues ∧ prevCurrentVersion ≠ UnversionedVersionId ∧
          newCurrentVersion ≠ UnversionedVersionId then
        match d.isVersionMissingTaskQueues env prevCurrentVersion newCurrentVersion with
        | (d, _, some err) => (d, .error err)
        | (d, true, none) =>
          (d, .error (.failedPrecondition .ErrCurrentVersionDoesNotHaveAllTaskQueues))
        | (d, false, none) =>
          d.syncNewCurrent UnversionedVersionId env args prevCurrentVersion updateTime
      else d.syncNewCurrent UnversionedVersionId env args prevCurrentVersion updateTime


/-- The tail of `handleSetRampingVersion` from the comment "update local
state" on. -/
def WorkflowRunner.finishSetRamping (d : WorkflowRunner) (env : Env)
    (args : SetRampingVersionArgs) (prevRampingVersion : String)
    (prevRampingVersionPercentage : Float32) (routingUpdateTime : Time)
    (rampingVersionUpdateTime : Option Time) :
    WorkflowRunner × Except Error SetRampingVersionResponse :=
  let d : WorkflowRunner :=
    { d with State :=
        { d.State with
          RoutingConfig :=
            { d.State.RoutingConfig with
              RampingVersion := args.Version,
              RampingVersionPercentage := args.Percentage,
              RampingVersionChangedTime := rampingVersionUpdateTime },
          ConflictToken := env.marshalBinary routingUpdateTime,
          LastModifierIdentity := args.Identity } }
  match d.updateMemo env with
  | (d, some err) => (d, .error err)
  | (d, none) =>
    (d.setStateChanged,
      .ok { PreviousVersion := prevRampingVersion,
            PreviousPercentage := prevRampingVersionPercentage,
            ConflictToken := d.State.ConflictToken })

/-- The call that removes the ramp from the previous ramping version: the
version workflow when it is versioned, the unversioned ramp otherwise. -/
def WorkflowRunner.unsetRamp (UnversionedVersionId : String) (d : WorkflowRunner) (env : Env)
    (prevRampingVersion : String) (routingUpdateTime : Time) :
    WorkflowRunner × Option Error :=
  let unsetRampUpdateArgs : SyncVersionStateUpdateArgs :=
    { RoutingUpdateTime := some routingUpdateTime, RampingSinceTime := none,
      RampPercentage := Float32.zero }
  if prevRampingVersion ≠ UnversionedVersionId then
    d.syncVersion env prevRampingVersion unsetRampUpdateArgs false
  else d.syncUnversionedRamp env unsetRampUpdateArgs

/-- The part of the branch "setting ramp" of `handleSetRampingVersion` that
syncs the new ramping version and tells the previous one, and what follows. -/
def WorkflowRunner.setRamp (UnversionedVersionId : String) (d : WorkflowRunner) (env : Env)
    (args : SetRampingVersionArgs) (prevRampingVersion : String)
    (prevRampingVersionPercentage : Float32) (routingUpdateTime : Time)
    (rampingSinceTime rampingVersionUpdateTime : Option Time) :
    WorkflowRunner × Except Error SetRampingVersionResponse :=
  let newRampingVersion := args.Version
  let setRampUpdateArgs : SyncVersionStateUpdateArgs :=
    { RoutingUpdateTime := some routingUpdateTime, RampingSinceTime := rampingSinceTime,
      RampPercentage := args.Percentage }
  let synced :=
    if newRampingVersion ≠ UnversionedVersionId then
      d.syncVersion env newRampingVersion setRampUpdateArgs true
    else d.syncUnversionedRamp env setRampUpdateArgs
  match synced with
  | (d, some err) => (d, .error err)
  | (d, none) =>
    -- tell previous ramping version, if present, that it's no longer ramping
    if prevRampingVersion ≠ "" ∧ prevRampingVersion ≠ newRampingVersion then
      match d.unsetRamp UnversionedVersionId env prevRampingVersion routingUpdateTime with
      | (d, some err) => (d, .error err)
      | (d, none) =>
        (d.setDrainageStatus prevRampingVersion .draining
            (some routingUpdateTime)).finishSetRamping
          env args prevRampingVersion prevRampingVersionPercentage routingUpdateTime
          rampingVersionUpdateTime
    else
      d.finishSetRamping env args prevRampingVersion prevRampingVersionPercentage
        routingUpdateTime rampingVersionUpdateTime

/-- Go `handleSetRampingVersion`: the runner afterwards and the response or
error. -/
def WorkflowRunner.handleSetRampingVersion (UnversionedVersionId : String)
    (d : WorkflowRunner) (env : Env) (args : SetRampingVersionArgs) :
    WorkflowRunner × Except Error SetRampingVersionResponse :=
  let d := d.record .lock
  match env.lock with
  | some _ => (d, .error .deadlineExceeded)
  | none =>
    match d.validateStateBeforeAcceptingRampingUpdate UnversionedVersionId args with
    | some err => (d, .error err)
    | none =>
      let prevRampingVersion := d.State.RoutingConfig.RampingVersion
      let prevRampingVersionPercentage := d.State.RoutingConfig.RampingVersionPercentage
      let newRampingVersion := args.Version
      let routingUpdateTime := env.now
      if newRampingVersion = "" then
        -- unsetting ramp
        match d.unsetRamp UnversionedVersionId env prevRampingVersion routingUpdateTime with
        | (d, some err) => (d, .error err)
        | (d, none) =>
          (d.setDrainageStatus prevRampingVersion .draining
              (some routingUpdateTime)).finishSetRamping
            env args prevRampingVersion prevRampingVersionPercentage routingUpdateTime
            (some routingUpdateTime)
      else if prevRampingVersion = newRampingVersion then
        -- the version was already ramping, user changing ramp %
        d.setRamp UnversionedVersionId env args prevRampingVersion
          prevRampingVersionPercentage routingUpdateTime
          d.State.RoutingConfig.RampingVersionChangedTime
          d.State.RoutingConfig.RampingVersionChangedTime
      else
        -- version ramping for the first time
        let currentVersion := d.State.RoutingConfig.CurrentVersion
        let first := fun (d : WorkflowRunner) =>
          (d.setDrainageStatus newRampingVersion .unspecified
              (some routingUpdateTime)).setRamp
            UnversionedVersionId env args prevRampingVersion prevRampingVersionPercentage
            routingUpdateTime (some routingUpdateTime) (some routingUpdateTime)
        if !args.IgnoreMissingTaskQueues ∧ currentVersion ≠ UnversionedVersionId ∧
            newRampingVersion ≠ UnversionedVersionId then
          match d.isVersionMissingTaskQueues env currentVersion newRampingVersion with
          | (d, _, some err) => (d, .error err)
          | (d, true, none) =>
            (d, .error (.failedPrecondition .ErrRampingVersionDoesNotHaveAllTaskQueues))
          | (d, false, none) => first d
        else first d

/-- Go `deleteVersion`: the runner afterwards and the returned error. -/
def WorkflowRunner.deleteVersion (d : WorkflowRunner) (env : Env) (args : DeleteVersionArgs) :
    WorkflowRunner × Option Error :=
  let d := d.record (.deleteVersion args.Version)
  match env.deleteVersion args with
  | some err => (d, some err)
  | none =>
    let d : WorkflowRunner :=
      { d with State :=
          { d.State with
            Versions := erase d.State.Versions args.Version,
            LastModifierIdentity := args.Identity } }
    d.updateMemo env

/-- The comparison function that `tryDeleteVersion` passes to
`slices.SortFunc`; the time of a `nil` create time is the epoch. -/
def compareCreateTime (a b : WorkerDeploymentVersionSummary) : Int :=
  if a.CreateTime.getD 0 > b.CreateTime.getD 0 then 1
  else if a.CreateTime.getD 0 < b.CreateTime.getD 0 then -1
  else 0

/-- The summaries of the map in the order of `workflow.DeterministicKeys`. -/
def summariesInKeyOrder (env : Env) (versions : List (String × WorkerDeploymentVersionSummary)) :
    List WorkerDeploymentVersionSummary :=
  (env.deterministicKeys versions).filterMap (lookup versions)

/-- The deletion loop of `tryDeleteVersion` over the sorted summaries. -/
def WorkflowRunner.tryDeleteLoop (d : WorkflowRunner) (env : Env) :
    List WorkerDeploymentVersionSummary → WorkflowRunner × Option Error
  | [] => (d, some (.failedPrecondition .noneEligibleForDeletion))
  | v :: rest =>
    match d.deleteVersion env
        { Identity := "try-delete-for-add-version", Version := v.Version } with
    | (d, none) => (d, none)
    | (d, some _) => d.tryDeleteLoop env rest

/-- Go `tryDeleteVersion`. -/
def WorkflowRunner.tryDeleteVersion (d : WorkflowRunner) (env : Env) :
    WorkflowRunner × Option Error :=
  d.tryDeleteLoop env
    (env.sortFunc compareCreateTime (summariesInKeyOrder env d.State.Versions))

/-- Go `addVersionToWorkerDeployment`.  `run` makes `d.State.Versions`
non-nil before any handler is registered, so the map is never `nil` here. -/
def WorkflowRunner.addVersionToWorkerDeployment (d : WorkflowRunner) (env : Env)
    (args : AddVersionUpdateArgs) : WorkflowRunner × Option Error :=
  if (summariesInKeyOrder env d.State.Versions).any
      (fun v => decide (v.Version = args.Version)) then (d, none)
  else
    let add := fun (d : WorkflowRunner) =>
      d.withVersions (store d.State.Versions args.Version
        { Version := args.Version, CreateTime := args.CreateTime })
    if (d.State.Versions.length : Int) ≥ env.maxVersions then
      match d.tryDeleteVersion env with
      | (d, some _) => (d, some (.application .errTooManyVersions none))
      | (d, none) => (add d, none)
    else (add d, none)

/-- The state that `run` creates when the workflow starts without one. -/
def initialState (UnversionedVersionId : String) (env : Env) : WorkerDeploymentLocalState :=
  { CreateTime := some env.now,
    RoutingConfig := { CurrentVersion := UnversionedVersionId },
    Versions := [],
    ConflictToken := env.marshalBinary env.now,
    LastModifierIdentity := "",
    SyncBatchSize := 0 }


/-- The external calls made between two runners. -/
def newCalls (d d' : WorkflowRunner) : List Call :=
  d'.calls.drop d.calls.length

/-- The keys of the version map. -/
def keys (m : List (String × WorkerDeploymentVersionSummary)) : List String :=
  m.map (fun kv => kv.1)

/-- The second runner differs from the first at most in the version
summaries (the keys of the map are the same) and in further recorded calls,
none of them the missing-task-queue check. -/
def Frame (d d' : WorkflowRunner) : Prop :=
  d'.State = { d.State with Versions := d'.State.Versions } ∧
  keys d'.State.Versions = keys d.State.Versions ∧
  d'.stateChanged = d.stateChanged ∧
  ∃ extra, d'.calls = d.calls ++ extra ∧
    ∀ p n, Call.isVersionMissingTaskQueues p n ∉ extra

/-- The runners reachable from a runner in the state `init` by calls of
`handleSetCurrent` and `handleSetRampingVersion`, with any arguments and any
results of the external calls. -/
inductive Reachable (UnversionedVersionId : String) (init : WorkerDeploymentLocalState) :
    WorkflowRunner → Prop where
  | start (d : WorkflowRunner) (h : d.State = init) : Reachable UnversionedVersionId init d
  | setCurrent (d : WorkflowRunner) (env : Env) (args : SetCurrentVersionArgs)
      (h : Reachable UnversionedVersionId init d) :
      Reachable UnversionedVersionId init (d.handleSetCurrent UnversionedVersionId env args).1
  | setRamping (d : WorkflowRunner) (env : Env) (args : SetRampingVersionArgs)
      (h : Reachable UnversionedVersionId init d) :
      Reachable UnversionedVersionId init
        (d.handleSetRampingVersion UnversionedVersionId env args).1

/-- The well-formedness of the version map: keys are distinct and every
summary is stored under its own version. -/
def WellFormed (m : List (String × WorkerDeploymentVersionSummary)) : Prop :=
  (keys m).Nodup ∧ ∀ kv ∈ m, kv.2.Version = kv.1

/-- The arguments with which `tryDeleteVersion` calls `deleteVersion`. -/
def tryDeleteArgs (v : WorkerDeploymentVersionSummary) : DeleteVersionArgs :=
  { Identity := "try-delete-for-add-version", Version := v.Version }


/-- The second runner has the state of the first except for the version
summaries; the keys of the version map are the same. -/
def StateFrame (d d' : WorkflowRunner) : Prop :=
  d'.State = { d.State with Versions := d'.State.Versions } ∧
  keys d'.State.Versions = keys d.State.Versions

/-- The second runner differs from the first at most in the summaries of the
versions in `vs`: the rest of the state and the set of versions are the same,
and the summary of every version outside `vs` is the same. -/
def SummariesKept (vs : List String) (d d' : WorkflowRunner) : Prop :=
  d'.State = { d.State with Versions := d'.State.Versions } ∧
  keys d'.State.Versions = keys d.State.Versions ∧
  ∀ v, v ∉ vs → lookup d'.State.Versions v = lookup d.State.Versions v

/-- The second runner has made the calls of the first and then further ones,
none of them the missing-task-queue check. -/
def NoCheck (d d' : WorkflowRunner) : Prop :=
  ∃ extra, d'.calls = d.calls ++ extra ∧
    ∀ p n, Call.isVersionMissingTaskQueues p n ∉ extra

/-- The routing configuration that `handleSetCurrent` writes. -/
def routingAfterSetCurrent (routing : RoutingConfig) (version : String) (updateTime : Time) :
    RoutingConfig :=
  if version = routing.RampingVersion then
    { routing with
      CurrentVersion := version, CurrentVersionChangedTime := some updateTime,
      RampingVersion := "", RampingVersionPercentage := Float32.zero,
      RampingVersionChangedTime := some updateTime }
  else
    { routing with
      CurrentVersion := version, CurrentVersionChangedTime := some updateTime }


/-- An environment in which every external call succeeds, the clock shows
`100`, no task queue is missing, at most two versions are allowed, the
deterministic keys are the keys in map order and the sort keeps its input. -/
def sampleEnv : Env :=
  { lock := none,
    now := 100,
    marshalBinary := fun t => [t.toNat],
    isVersionMissingTaskQueues := fun _ _ => (false, none),
    syncVersion := fun _ _ _ => none,
    syncUnversionedRamp := fun _ => none,
    deleteVersion := fun _ => none,
    updateMemo := fun _ => none,
    maxVersions := 2,
    deterministicKeys := fun m => m.map (fun kv => kv.1),
    sortFunc := fun _ l => l }

/-- A deployment with the versions `a` (created at `1`) and `b` (created at
`2`), no current and no ramping version, and the conflict token `[1]`. -/
def sampleState : WorkerDeploymentLocalState :=
  { CreateTime := some 1,
    RoutingConfig := { CurrentVersion := "__unversioned__" },
    Versions :=
      [("a", { Version := "a", CreateTime := some 1 }),
       ("b", { Version := "b", CreateTime := some 2 })],
    ConflictToken := [1],
    LastModifierIdentity := "",
    SyncBatchSize := 0 }

/-- A runner in the sample state. -/
def sampleRunner : WorkflowRunner :=
  { State := sampleState, stateChanged := false, calls := [] }


/-- The sample environment, except that the missing-task-queue check reports
`true`. -/
def sampleEnvMissing : Env :=
  { sampleEnv with isVersionMissingTaskQueues := fun _ _ => (true, none) }

/-- The sample state with version `a` current. -/
def sampleStateCurrentA : WorkerDeploymentLocalState :=
  { sampleState with RoutingConfig := { CurrentVersion := "a" } }

/-- A runner in the sample state with version `a` current. -/
def sampleRunnerCurrentA : WorkflowRunner :=
  { State := sampleStateCurrentA, stateChanged := false, calls := [] }


/-- The sample environment, except that version `a` cannot be deleted. -/
def sampleEnvKeepA : Env :=
  { sampleEnv with
    deleteVersion := fun args => if args.Version = "a" then some (.external 2) else none }

end workerdeployment


/-!
The choice among local histories (`FindLCAVersionHistoryItemFromItems` of
version_history.go)

The loop keeps an index, a length and an item; the `int32` conversions of the
index and of the length wrap.
-/

namespace versionhistory

/-- Go conversion `int32(n)` of an `int`: two's-complement wrap-around. -/
def toInt32 (n : Int) : Int := (n + 2 ^ 31) % 2 ^ 32 - 2 ^ 31

/-- The loop of `FindLCAVersionHistoryItemFromItems` over the local histories
from position `index` on.  The state is `versionHistoryIndex`,
`versionHistoryLength` and `versionHistoryItem` (`none` for `nil`); the result
is the item and the index held when the loop ends. -/
def fromItemsLoop (versionHistoryItemsB : List VersionHistoryItem) :
    List (List VersionHistoryItem) → Nat → Int → Int → Option VersionHistoryItem →
    Except Error (Option VersionHistoryItem × Int)
  | [], _, versionHistoryIndex, _, versionHistoryItem =>
    .ok (versionHistoryItem, versionHistoryIndex)
  | localHistory :: rest, index, versionHistoryIndex, versionHistoryLength,
      versionHistoryItem =>
    match FindLCAVersionHistoryItemFromItemSlice localHistory versionHistoryItemsB with
    | .error err => .error err
    | .ok item =>
      let better : Bool :=
        match versionHistoryItem with
        | none => true
        | some best =>
          decide (item.EventId > best.EventId) ||
            (decide (item.EventId = best.EventId) &&
              decide (toInt32 localHistory.length < versionHistoryLength))
      if better then
        fromItemsLoop versionHistoryItemsB rest (index + 1) (toInt32 index)
          (toInt32 localHistory.length) (some item)
      else
        fromItemsLoop versionHistoryItemsB rest (index + 1) versionHistoryIndex
          versionHistoryLength versionHistoryItem

/-- Go `FindLCAVersionHistoryItemFromItems`: the returned item and index, or
the error.  The item returned is `CopyVersionHistoryItem(versionHistoryItem)`,
which panics when there is no local history (the item is `nil`) and on an
invalid item. -/
def FindLCAVersionHistoryItemFromItems (versionHistoryItemsA : List (List VersionHistoryItem))
    (versionHistoryItemsB : List VersionHistoryItem) :
    Except Error (VersionHistoryItem × Int) :=
  match fromItemsLoop versionHistoryItemsB versionHistoryItemsA 0 0 0 none with
  | .error err => .error err
  | .ok (none, _) => .error .panic
  | .ok (some versionHistoryItem, versionHistoryIndex) =>
    match CopyVersionHistoryItem versionHistoryItem with
    | .error err => .error err
    | .ok copy => .ok (copy, versionHistoryIndex)

/-- The state of the loop of `FindLCAVersionHistoryItemFromItems` after the
local histories `pre`: nothing chosen when `pre` is empty, otherwise the first
of the shortest histories among those whose LCA with `B` has the largest
event ID. -/
def BestSoFar (B : List VersionHistoryItem) (pre : List (List VersionHistoryItem))
    (vIdx vLen : Int) : Option VersionHistoryItem → Prop
  | none => pre = []
  | some item => ∃ (i : Nat) (l : List VersionHistoryItem),
      vIdx = i ∧ pre[i]? = some l ∧ vLen = l.length ∧
      FindLCAVersionHistoryItemFromItemSlice l B = .ok item ∧
      ∀ (j : Nat) (lj : List VersionHistoryItem) (x : VersionHistoryItem),
        pre[j]? = some lj → FindLCAVersionHistoryItemFromItemSlice lj B = .ok x →
        x.EventId ≤ item.EventId ∧
        (x.EventId = item.EventId → l.length ≤ lj.length ∧ (lj.length = l.length → i ≤ j))

end versionhistory

/-!
Further sample states and environments of the worker-deployment workflow
-/

namespace workerdeployment

/-- A runner whose only version `a` has no create time and was first
activated at `5`. -/
def sampleRunnerActivated : WorkflowRunner :=
  { State :=
      { sampleState with
        Versions := [("a", { Version := "a", FirstActivationTime := some 5 })] },
    stateChanged := false, calls := [] }

/-- The sample environment, except that the memo upsert fails. -/
def sampleEnvMemoDown : Env :=
  { sampleEnv with updateMemo := fun _ => some (.external 3) }

/-- The sample environment, except that version `a` cannot be synced. -/
def sampleEnvSyncAFails : Env :=
  { sampleEnv with
    syncVersion := fun v _ _ => if v = "a" then some (.external 4) else none }

end workerdeployment

/-!
The `WHERE` clauses of the history-node select statements

The statement texts of `events.go` are evaluated on a stored row with the
arguments of `RangeSelectFromHistoryNode` bound in order.
-/

namespace sqlplugin

/-- A comparison of an integer column with a bound argument; an argument of
another type matches nothing. -/
def Arg.cmpInt (op : Int → Int → Bool) (column : Int) : Arg → Bool
  | .int n => op column n
  | .bytes _ => false

/-- The test `column = argument` for a binary column. -/
def Arg.eqBytes (column : List Nat) : Arg → Bool
  | .bytes b => decide (column = b)
  | .int _ => false

/-- The `WHERE` clause of the history-node select statements, on a stored row
with the arguments bound in order to `$1 .. $8` (PostgreSQL) or the successive
`?` (SQLite).  The forward and the metadata statement have
`shard_id = $1 AND tree_id = $2 AND branch_id = $3 AND
((node_id = $4 AND txn_id > $5) OR node_id > $6) AND node_id < $7`, the reverse
statement has `shard_id = $1 AND tree_id = $2 AND branch_id = $3 AND
node_id >= $4 AND ((node_id = $5 AND txn_id < $6) OR node_id < $7)`. -/
def whereClause (query : Query) (args : List Arg) (row : HistoryNodeRow) : Bool :=
  match args with
  | [a1, a2, a3, a4, a5, a6, a7, _] =>
    match query with
    | .getHistoryNodes | .getHistoryNodeMetadata =>
      a1.cmpInt (fun c n => decide (c = n)) row.ShardID && a2.eqBytes row.TreeID &&
        a3.eqBytes row.BranchID &&
        ((a4.cmpInt (fun c n => decide (c = n)) row.NodeID &&
            a5.cmpInt (fun c n => decide (c > n)) row.TxnID) ||
          a6.cmpInt (fun c n => decide (c > n)) row.NodeID) &&
        a7.cmpInt (fun c n => decide (c < n)) row.NodeID
    | .getHistoryNodesReverse =>
      a1.cmpInt (fun c n => decide (c = n)) row.ShardID && a2.eqBytes row.TreeID &&
        a3.eqBytes row.BranchID &&
        a4.cmpInt (fun c n => decide (c ≥ n)) row.NodeID &&
        ((a5.cmpInt (fun c n => decide (c = n)) row.NodeID &&
            a6.cmpInt (fun c n => decide (c < n)) row.TxnID) ||
          a7.cmpInt (fun c n => decide (c < n)) row.NodeID)
    | .addHistoryNodes => false
  | _ => false

/-- A reverse-order read of the nodes `1 ≤ node_id < 5` of a branch, up to the
transaction ID `7`. -/
def sampleReverseFilter : HistoryNodeSelectFilter :=
  { ShardID := 1, TreeID := [1], BranchID := [2], MinNodeID := 1, MinTxnID := 0,
    MaxNodeID := 5, MaxTxnID := 7, PageSize := 10, MetadataOnly := false,
    ReverseOrder := true }

/-- A stored row of the same branch with the node ID `7` and the transaction
ID `8`, stored as `-8`. -/
def sampleRowBeyondMax : HistoryNodeRow :=
  { ShardID := 1, TreeID := [1], BranchID := [2], NodeID := 7, PrevTxnID := 0,
    TxnID := -8, Data := [], DataEncoding := "" }

end sqlplugin

/-!
The default authorizer (common/authorization/default_authorizer.go)

The role constants, the claims and call-target structs and the API metadata
are declared outside the given sources: the structs are modelled with the
fields `Authorize` reads, the functions and constants are the fields of `Api`.
An `int16` role is an `Int`; the bitwise or of Go is `Int.lor`.
-/

namespace authorization

/-- Modelled from the spec: the type `Role` (an `int16` bit mask) is declared
outside the given sources. -/
abbrev Role := Int

/-- Modelled from the spec: the enum `api.Scope` is declared outside the given
sources; `Authorize` names two of its values. -/
inductive Scope where
  | ScopeCluster
  | ScopeNamespace
  | other
deriving DecidableEq, Repr

/-- Modelled from the spec: the enum `api.Access` is declared outside the
given sources; `getRequiredRole` names two of its values. -/
inductive Access where
  | AccessReadOnly
  | AccessWrite
  | other
deriving DecidableEq, Repr

/-- Modelled from the spec: the struct `api.MethodMetadata` is declared
outside the given sources; `Authorize` reads these fields. -/
structure MethodMetadata where
  Scope : Scope
  Access : Access
deriving DecidableEq, Repr

/-- Modelled from the spec: the struct `Claims` is declared outside the given
sources; `Authorize` reads these fields.  The map `Namespaces` is a list of
entries. -/
structure Claims where
  System : Role
  Namespaces : List (String × Role)
deriving DecidableEq, Repr

/-- Modelled from the spec: the struct `CallTarget` is declared outside the
given sources; `Authorize` reads these fields. -/
structure CallTarget where
  APIName : String
  Namespace : String
deriving DecidableEq, Repr

/-- Modelled from the spec: the enum `Decision` is declared outside the given
sources. -/
inductive Decision where
  | DecisionDeny
  | DecisionAllow
deriving DecidableEq, Repr

/-- Modelled from the spec: the struct `Result` is declared outside the given
sources. -/
structure Result where
  Decision : Decision
deriving DecidableEq, Repr

/-- The declarations that `default_authorizer.go` uses from outside the given
sources: `IsHealthCheckAPI`, `api.GetMethodMetadata` and the role constants. -/
structure Api where
  IsHealthCheckAPI : String → Bool
  GetMethodMetadata : String → MethodMetadata
  RoleReader : Role
  RoleWriter : Role
  RoleAdmin : Role

/-- A map read `claims.Namespaces[namespace]`: zero when the key is absent. -/
def lookupRole (m : List (String × Role)) (key : String) : Role :=
  match m.find? (fun kv => decide (kv.1 = key)) with
  | some kv => kv.2
  | none => 0

/-- The variable `resultAllow`. -/
def resultAllow : Result := { Decision := .DecisionAllow }

/-- The variable `resultDeny`. -/
def resultDeny : Result := { Decision := .DecisionDeny }

/-- Go `getRequiredRole`. -/
def getRequiredRole (api : Api) (access : Access) : Role :=
  match access with
  | .AccessReadOnly => api.RoleReader
  | .AccessWrite => api.RoleWriter
  | _ => api.RoleAdmin

/-- Go `defaultAuthorizer.Authorize`: the result and the error (`none` for
`nil`); `claims` is `none` for a `nil` pointer. -/
def Authorize (api : Api) (claims : Option Claims) (target : CallTarget) :
    Result × Option String :=
  if api.IsHealthCheckAPI target.APIName then (resultAllow, none)
  else
    match claims with
    | none => (resultDeny, none)
    | some claims =>
      let metadata := api.GetMethodMetadata target.APIName
      let hasRole : Option Role :=
        match metadata.Scope with
        | .ScopeCluster => some claims.System
        | .ScopeNamespace =>
          some (Int.lor claims.System (lookupRole claims.Namespaces target.Namespace))
        | _ => none
      match hasRole with
      | none => (resultDeny, none)
      | some hasRole =>
        if hasRole ≥ getRequiredRole api metadata.Access then (resultAllow, none)
        else (resultDeny, none)

/-- A sample of the outside declarations: `Health` is the health check,
`Describe` a read-only namespace API, `Signal` a namespace write API,
`AddNode` a cluster write API; the roles are the bits `2`, `4` and `8`. -/
def sampleApi : Api :=
  { IsHealthCheckAPI := fun name => decide (name = "Health"),
    GetMethodMetadata := fun name =>
      if name = "Describe" then { Scope := .ScopeNamespace, Access := .AccessReadOnly }
      else if name = "Signal" then { Scope := .ScopeNamespace, Access := .AccessWrite }
      else if name = "AddNode" then { Scope := .ScopeCluster, Access := .AccessWrite }
      else { Scope := .other, Access := .other },
    RoleReader := 2, RoleWriter := 4, RoleAdmin := 8 }

end authorization

/-!
The history iterator of the archiver (common/archiver/history_iterator.go)

The persistence read and the size estimator are external.  An index out of
range is the error `indexOutOfRange`.  The loop `for size < targetSize` has no
bound in Go; here it takes a bound on its iterations and returns `none` when
the bound is reached.
-/

namespace archiver

/-- The proto message `historypb.HistoryEvent`, with the fields `Next` reads. -/
structure HistoryEvent where
  EventId : Int
  Version : Int
deriving DecidableEq, Repr

/-- The proto message `historypb.History`: one batch of events. -/
structure History where
  Events : List HistoryEvent
deriving DecidableEq, Repr

/-- The outcomes other than a result: the errors the iterator returns and the
run-time panic of an index out of range. -/
inductive Error where
  | errIteratorDepleted
  | notFound            -- a `*serviceerror.NotFound`
  | other (code : Nat)  -- any other error of the persistence layer or the estimator
  | indexOutOfRange     -- run-time panic
deriving DecidableEq, Repr

/-- The struct `historyIteratorState`. -/
structure historyIteratorState where
  NextEventID : Int
  FinishedIteration : Bool
deriving DecidableEq, Repr

/-- The fields of `ArchiveHistoryRequest` that `Next` copies into the header. -/
structure ArchiveHistoryRequest where
  Namespace : String
  NamespaceID : String
  WorkflowID : String
  RunID : String
deriving DecidableEq, Repr

/-- The persistence read behind `readHistory` (by first event ID) and the size
estimator. -/
structure Env where
  readHistory : Int → Except Error (List History)
  EstimateSize : History → Except Error Int

/-- The struct `historyIterator`. -/
structure historyIterator where
  state : historyIteratorState
  request : ArchiveHistoryRequest
  targetHistoryBlobSize : Int
deriving DecidableEq, Repr

/-- The proto message `archiverspb.HistoryBlobHeader`. -/
structure HistoryBlobHeader where
  Namespace : String
  NamespaceId : String
  WorkflowId : String
  RunId : String
  IsLast : Bool
  FirstFailoverVersion : Int
  LastFailoverVersion : Int
  FirstEventId : Int
  LastEventId : Int
  EventCount : Int
deriving DecidableEq, Repr

/-- The proto message `archiverspb.HistoryBlob`. -/
structure HistoryBlob where
  Header : HistoryBlobHeader
  Body : List History
deriving DecidableEq, Repr

/-- The constant `common.FirstEventID`. -/
def FirstEventID : Int := 1

/-- Go `HasNext`. -/
def historyIterator.HasNext (i : historyIterator) : Bool := !i.state.FinishedIteration

/-- The variables of the outer loop of `readHistoryBatches`. -/
structure loopState where
  size : Int
  historyBatches : List History
  firstEventID : Int
deriving DecidableEq, Repr

/-- The inner loop of `readHistoryBatches` over the batches just read, from
index `idx` on; `n` is `len(currHistoryBatches)`.  The result is either the
values returned from inside the loop or the variables after the loop. -/
def batchLoop (env : Env) (targetSize : Int) (n : Nat) :
    List History → Nat → loopState →
    Except Error (Sum (List History × historyIteratorState) loopState)
  | [], _, s => .ok (.inr s)
  | batch :: rest, idx, s =>
    match env.EstimateSize batch with
    | .error err => .error err
    | .ok historyBatchSize =>
      match batch.Events.getLast? with
      | none => .error .indexOutOfRange
      | some last =>
        let s : loopState :=
          { size := s.size + historyBatchSize,
            historyBatches := s.historyBatches ++ [batch],
            firstEventID := last.EventId + 1 }
        if s.size ≥ targetSize ∧ idx ≠ n - 1 then
          .ok (.inl (s.historyBatches,
            { FinishedIteration := false, NextEventID := s.firstEventID }))
        else batchLoop env targetSize n rest (idx + 1) s

/-- The outer loop `for size < targetSize` of `readHistoryBatches` and what
follows it, with a bound on the number of iterations (`none` when the bound is
reached). -/
def readLoop (env : Env) (targetSize : Int) :
    Nat → loopState → Option (Except Error (List History × historyIteratorState))
  | fuel, s =>
    if s.size < targetSize then
      match fuel with
      | 0 => none
      | fuel + 1 =>
        match env.readHistory s.firstEventID with
        | .error err =>
          if err = .notFound ∧ s.firstEventID ≠ FirstEventID then
            some (.ok (s.historyBatches, { NextEventID := 0, FinishedIteration := true }))
          else some (.error err)
        | .ok currHistoryBatches =>
          match batchLoop env targetSize currHistoryBatches.length currHistoryBatches 0 s with
          | .error err => some (.error err)
          | .ok (.inl result) => some (.ok result)
          | .ok (.inr s) => readLoop env targetSize fuel s
    else
      match env.readHistory s.firstEventID with
      | .error err =>
        if err = .notFound ∧ s.firstEventID ≠ FirstEventID then
          some (.ok (s.historyBatches, { NextEventID := 0, FinishedIteration := true }))
        else some (.error err)
      | .ok _ =>
        some (.ok (s.historyBatches,
          { FinishedIteration := false, NextEventID := s.firstEventID }))

/-- Go `readHistoryBatches`. -/
def historyIterator.readHistoryBatches (i : historyIterator) (env : Env) (fuel : Nat)
    (firstEventID : Int) : Option (Except Error (List History × historyIteratorState)) :=
  readLoop env i.targetHistoryBlobSize fuel
    { size := 0, historyBatches := [], firstEventID := firstEventID }

/-- Go `Next`: the iterator afterwards and the blob, an error, or the panic of
an index out of range. -/
def historyIterator.Next (i : historyIterator) (env : Env) (fuel : Nat) :
    Option (historyIterator × Except Error HistoryBlob) :=
  if !i.HasNext then some (i, .error .errIteratorDepleted)
  else
    match i.readHistoryBatches env fuel i.state.NextEventID with
    | none => none
    | some (.error err) => some (i, .error err)
    | some (.ok (historyBatches, newIterState)) =>
      let i := { i with state := newIterState }
      match historyBatches.head? with
      | none => some (i, .error .indexOutOfRange)
      | some firstBatch =>
        match firstBatch.Events.head? with
        | none => some (i, .error .indexOutOfRange)
        | some firstEvent =>
          match historyBatches.getLast? with
          | none => some (i, .error .indexOutOfRange)
          | some lastBatch =>
            match lastBatch.Events.getLast? with
            | none => some (i, .error .indexOutOfRange)
            | some lastEvent =>
              let eventCount := (historyBatches.map (fun b => (b.Events.length : Int))).sum
              some (i, .ok
                { Header :=
                    { Namespace := i.request.Namespace,
                      NamespaceId := i.request.NamespaceID,
                      WorkflowId := i.request.WorkflowID,
                      RunId := i.request.RunID,
                      IsLast := i.state.FinishedIteration,
                      FirstFailoverVersion := firstEvent.Version,
                      LastFailoverVersion := lastEvent.Version,
                      FirstEventId := firstEvent.EventId,
                      LastEventId := lastEvent.EventId,
                      EventCount := eventCount },
                  Body := historyBatches })

/-- A persistence layer holding the events `1 .. 4` in two batches: a read from
`firstEventID ≤ 4` returns the batches from that event on, a later read is not
found.  Every batch has the estimated size `10`. -/
def sampleEnv : Env :=
  { readHistory := fun firstEventID =>
      if firstEventID ≤ 2 then .ok [⟨[⟨1, 1⟩, ⟨2, 1⟩]⟩, ⟨[⟨3, 1⟩, ⟨4, 1⟩]⟩]
      else if firstEventID ≤ 4 then .ok [⟨[⟨3, 1⟩, ⟨4, 1⟩]⟩]
      else .error .notFound,
    EstimateSize := fun _ => .ok 10 }

/-- A new iterator with the target blob size `0`. -/
def sampleIteratorZeroTarget : historyIterator :=
  { state := { NextEventID := 1, FinishedIteration := false },
    request := { Namespace := "ns", NamespaceID := "id", WorkflowID := "wf", RunID := "run" },
    targetHistoryBlobSize := 0 }

/-- An iterator restored from the state `NextEventID = 5`, with the target
blob size `15`. -/
def sampleIteratorPastEnd : historyIterator :=
  { state := { NextEventID := 5, FinishedIteration := false },
    request := { Namespace := "ns", NamespaceID := "id", WorkflowID := "wf", RunID := "run" },
    targetHistoryBlobSize := 15 }

end archiver

/-!
The connection attributes of the MySQL session
(common/persistence/sql/sqlplugin/mysql/session/session.go)

A Go map is an association list; `cfg.ConnectAttributes` is given in the order
of the iteration.  An index out of range is the error `indexOutOfRange`.
-/

namespace session

/-- Modelled from the spec: the enum `sqlplugin.DbKind` is declared outside
the given sources. -/
inductive DbKind where
  | DbKindUnknown
  | DbKindMain
  | DbKindVisibility
deriving DecidableEq, Repr

/-- The outcomes of `buildDSNAttrs` other than a map: its error and the
run-time panic of an index out of range. -/
inductive Error where
  | errVisInterpolateParamsNotSupported
  | indexOutOfRange
deriving DecidableEq, Repr

/-- The constant `isolationLevelAttrName`. -/
def isolationLevelAttrName : String := "transaction_isolation"

/-- The constant `isolationLevelAttrNameLegacy`. -/
def isolationLevelAttrNameLegacy : String := "tx_isolation"

/-- The constant `defaultIsolationLevel`. -/
def defaultIsolationLevel : String := "'READ-COMMITTED'"

/-- The constant `interpolateParamsAttr`. -/
def interpolateParamsAttr : String := "interpolateParams"

/-- The variable `dsnAttrOverrides`. -/
def dsnAttrOverrides : List (String × String) :=
  [("parseTime", "true"), ("clientFoundRows", "true")]

/-- Go `strings.TrimSpace`, for the white space of ASCII. -/
def TrimSpace (s : String) : String :=
  ⟨((s.data.dropWhile Char.isWhitespace).reverse.dropWhile Char.isWhitespace).reverse⟩

/-- Go `strings.ToLower`, for the letters of ASCII. -/
def ToLower (s : String) : String := ⟨s.data.map Char.toLower⟩

/-- A map read `attrs[key]` with its `ok` flag. -/
def getAttr (attrs : List (String × String)) (key : String) : Option String :=
  (attrs.find? (fun kv => decide (kv.1 = key))).map (fun kv => kv.2)

/-- A map write `attrs[key] = value`. -/
def setAttr (attrs : List (String × String)) (key value : String) :
    List (String × String) :=
  if (getAttr attrs key).isSome then
    attrs.map (fun kv => if kv.1 = key then (key, value) else kv)
  else attrs ++ [(key, value)]

/-- Go `paramInterpolationAllowed`. -/
def paramInterpolationAllowed (dbKind : DbKind) : Bool :=
  decide (dbKind ≠ .DbKindVisibility)

/-- Go `hasAttr`. -/
def hasAttr (attrs : List (String × String)) (key : String) : Bool :=
  (getAttr attrs key).isSome

/-- Go `sanitizeAttr`; the index expression `value[0]` panics on an empty
value. -/
def sanitizeAttr (inkey invalue : String) : Except Error (String × String) :=
  let key := ToLower (TrimSpace inkey)
  let value := ToLower (TrimSpace invalue)
  if key = isolationLevelAttrName ∨ key = isolationLevelAttrNameLegacy then
    match value.data.head? with
    | none => .error .indexOutOfRange
    | some c =>
      -- mysql sys variable values must be enclosed in single quotes
      if c ≠ '\'' then .ok (key, "'" ++ value ++ "'")
      else .ok (key, value)
  else .ok (inkey, invalue)

/-- The loop of `buildDSNAttrs` over `cfg.ConnectAttributes`, in the order of
the iteration. -/
def sanitizeLoop : List (String × String) → List (String × String) →
    Except Error (List (String × String))
  | attrs, [] => .ok attrs
  | attrs, (k, v) :: rest =>
    match sanitizeAttr k v with
    | .error err => .error err
    | .ok (k1, v1) => sanitizeLoop (setAttr attrs k1 v1) rest

/-- Go `buildDSNAttrs`, on `cfg.ConnectAttributes`. -/
def buildDSNAttrs (dbKind : DbKind) (ConnectAttributes : List (String × String)) :
    Except Error (List (String × String)) :=
  let attrs : List (String × String) := []
  -- Enable interpolation by default unless this is a mysql8 visibility store
  let attrs :=
    if paramInterpolationAllowed dbKind then setAttr attrs interpolateParamsAttr "true"
    else attrs
  match sanitizeLoop attrs ConnectAttributes with
  | .error err => .error err
  | .ok attrs =>
    -- only override isolation level if not specified
    let attrs :=
      if !hasAttr attrs isolationLevelAttrName ∧ !hasAttr attrs isolationLevelAttrNameLegacy then
        setAttr attrs isolationLevelAttrName defaultIsolationLevel
      else attrs
    -- these attrs are always overriden
    let attrs := dsnAttrOverrides.foldl (fun attrs kv => setAttr attrs kv.1 kv.2) attrs
    if !paramInterpolationAllowed dbKind ∧ (getAttr attrs interpolateParamsAttr).isSome then
      .error .errVisInterpolateParamsNotSupported
    else .ok attrs

end session

/-!
Redirect rules of the version-rules engine (service/matching)

Only the tests of the redirect-rule functions are among the given sources
(version_rule_test.go); the functions are modelled from the specification of
the version-rules engine.
-/

namespace matching

/-- Modelled from the spec: the redirect rule `(sourceBuildID, targetBuildID,
createTs, optional deleteTs)` of the versioning data; the rule type and the
functions on it are declared outside the given sources.  The hybrid logical
clock is a number. -/
structure RedirectRule where
  SourceBuildId : String
  TargetBuildId : String
  CreateTimestamp : Nat := 0
  DeleteTimestamp : Option Nat := none
deriving DecidableEq, Repr

/-- Modelled from the spec: the versioning-data document, with the build IDs
of its version sets and its redirect rules. -/
structure VersioningData where
  VersionSets : List (List String) := []
  RedirectRules : List RedirectRule := []
deriving DecidableEq, Repr

/-- Modelled from the spec: the errors of the redirect-rule operations, named
as the tests name them. -/
inductive Error where
  | errSourceIsVersionSetMember
  | errTargetIsVersionSetMember
  | errSourceAlreadyExists (source target : String)
  | errSourceNotFound (source : String)
  | errUnversionedRedirectRuleTarget
  | errIsCyclic
  | errExceedsMaxUpstreamBuildIDs (cnt max : Nat)
deriving DecidableEq, Repr

/-- Modelled from the spec: the active (undeleted) redirect rules. -/
def getActiveRedirectRules (rules : List RedirectRule) : List RedirectRule :=
  rules.filter (fun r => r.DeleteTimestamp.isNone)

/-- Modelled from the spec: membership of a build ID in a version set. -/
def isInVersionSets (id : String) (sets : List (List String)) : Bool :=
  sets.any (fun s => decide (id ∈ s))

/-- Modelled from the spec: the depth-first search of the cycle detection.
`stack` holds the build IDs on the current path; a build ID met again on its
own path closes a cycle.  `fuel` bounds the depth, and a path longer than the
bound counts as a cycle. -/
def dfs (rules : List RedirectRule) : Nat → List String → String → Bool
  | 0, _, _ => true
  | fuel + 1, stack, v =>
    if v ∈ stack then true
    else
      (rules.filter (fun r => decide (r.SourceBuildId = v))).any
        (fun r => dfs rules fuel (v :: stack) r.TargetBuildId)

/-- Modelled from the spec: `isCyclic`, "a classic DFS over the active edges",
started from the source of every rule. -/
def isCyclic (rules : List RedirectRule) : Bool :=
  rules.any (fun r => dfs rules (rules.length + 1) [] r.SourceBuildId)

/-- Modelled from the spec: the length of the longest path without a repeated
build ID that ends at `v`, over at most `fuel` edges. -/
def longestPathTo (rules : List RedirectRule) : Nat → List String → String → Nat
  | 0, _, _ => 0
  | fuel + 1, visited, v =>
    ((rules.filter (fun r =>
        decide (r.TargetBuildId = v) && !decide (r.SourceBuildId ∈ v :: visited))).map
      (fun r => longestPathTo rules fuel (v :: visited) r.SourceBuildId + 1)).foldl max 0

/-- Modelled from the spec: the upstream chain length, "the length of the
longest acyclic path ending at a node", as the maximum over the targets of the
rules. -/
def upstreamChainLength (rules : List RedirectRule) : Nat :=
  (rules.map (fun r => longestPathTo rules rules.length [] r.TargetBuildId)).foldl max 0

/-- Modelled from the spec: the checks of a candidate rule set, "cycle-free and
chain-length checks against candidate graph". -/
def checkRedirectConditions (rules : List RedirectRule) (maxUpstreamBuildIDs : Nat) :
    Option Error :=
  let activeRules := getActiveRedirectRules rules
  if isCyclic activeRules then some .errIsCyclic
  else if upstreamChainLength activeRules > maxUpstreamBuildIDs then
    some (.errExceedsMaxUpstreamBuildIDs (upstreamChainLength activeRules) maxUpstreamBuildIDs)
  else none

/-- Modelled from the spec: `AddCompatibleRedirectRule`, the row `add(rule)`:
"both source and target not in version sets; source not already an active
source; target non-empty; adding the rule keeps the active set acyclic;
resulting upstream chain length ≤ max", effect "append new active rule". -/
def AddCompatibleRedirectRule (timestamp : Nat) (data : VersioningData)
    (source target : String) (maxUpstreamBuildIDs : Nat) : Except Error VersioningData :=
  if isInVersionSets source data.VersionSets then .error .errSourceIsVersionSetMember
  else if isInVersionSets target data.VersionSets then .error .errTargetIsVersionSetMember
  else
    match (getActiveRedirectRules data.RedirectRules).find?
        (fun r => decide (r.SourceBuildId = source)) with
    | some r => .error (.errSourceAlreadyExists source r.TargetBuildId)
    | none =>
      if target = "" then .error .errUnversionedRedirectRuleTarget
      else
        let rules := data.RedirectRules ++
          [{ SourceBuildId := source, TargetBuildId := target, CreateTimestamp := timestamp }]
        match checkRedirectConditions rules maxUpstreamBuildIDs with
        | some err => .error err
        | none => .ok { data with RedirectRules := rules }

/-- Modelled from the spec: the rules with the active rule of the given source
tombstoned. -/
def tombstone (timestamp : Nat) (source : String) (rules : List RedirectRule) :
    List RedirectRule :=
  rules.map (fun r =>
    if r.DeleteTimestamp.isNone ∧ r.SourceBuildId = source then
      { r with DeleteTimestamp := some timestamp }
    else r)

/-- Modelled from the spec: `ReplaceCompatibleRedirectRule`, the row
`replace(rule)`: "active rule with given source exists; cycle-free and
chain-length checks against candidate graph", effect "tombstone old; append
new".  The target is checked as for `add`, which the tests expect. -/
def ReplaceCompatibleRedirectRule (timestamp : Nat) (data : VersioningData)
    (source target : String) (maxUpstreamBuildIDs : Nat) : Except Error VersioningData :=
  if isInVersionSets target data.VersionSets then .error .errTargetIsVersionSetMember
  else
    match (getActiveRedirectRules data.RedirectRules).find?
        (fun r => decide (r.SourceBuildId = source)) with
    | none => .error (.errSourceNotFound source)
    | some _ =>
      if target = "" then .error .errUnversionedRedirectRuleTarget
      else
        let rules := tombstone timestamp source data.RedirectRules ++
          [{ SourceBuildId := source, TargetBuildId := target, CreateTimestamp := timestamp }]
        match checkRedirectConditions rules maxUpstreamBuildIDs with
        | some err => .error err
        | none => .ok { data with RedirectRules := rules }

/-- Modelled from the spec: `DeleteCompatibleRedirectRule`, the row
`delete(source)`: "active rule with given source exists", effect "tombstone". -/
def DeleteCompatibleRedirectRule (timestamp : Nat) (data : VersioningData)
    (source : String) : Except Error VersioningData :=
  match (getActiveRedirectRules data.RedirectRules).find?
      (fun r => decide (r.SourceBuildId = source)) with
  | none => .error (.errSourceNotFound source)
  | some _ => .ok { data with RedirectRules := tombstone timestamp source data.RedirectRules }

/-- The redirect-rule requests. -/
inductive Op where
  | add (timestamp : Nat) (source target : String) (maxUpstreamBuildIDs : Nat)
  | replace (timestamp : Nat) (source target : String) (maxUpstreamBuildIDs : Nat)
  | delete (timestamp : Nat) (source : String)
deriving DecidableEq, Repr

/-- The result of one request. -/
def applyOp (data : VersioningData) : Op → Except Error VersioningData
  | .add ts source target max => AddCompatibleRedirectRule ts data source target max
  | .replace ts source target max => ReplaceCompatibleRedirectRule ts data source target max
  | .delete ts source => DeleteCompatibleRedirectRule ts data source

/-- The data after a sequence of requests that each return no error; the
error of the first request that fails otherwise. -/
def applyOps : VersioningData → List Op → Except Error VersioningData
  | data, [] => .ok data
  | data, op :: ops =>
    match applyOp data op with
    | .error err => .error err
    | .ok data => applyOps data ops

/-- The edge `source -> target` of a rule of the list. -/
def Edge (rules : List RedirectRule) (a b : String) : Prop :=
  ∃ r ∈ rules, r.SourceBuildId = a ∧ r.TargetBuildId = b

/-- The rules form a directed acyclic graph: no build ID reaches itself along
one or more edges. -/
def Acyclic (rules : List RedirectRule) : Prop :=
  ∀ v, ¬ Relation.TransGen (Edge rules) v v

/-- The rules of `TestIsCyclic`: `1 -> 2 -> 3 -> 4` and `3 -> 5 -> 1`. -/
def sampleCyclicRules : List RedirectRule :=
  [{ SourceBuildId := "1", TargetBuildId := "2" },
   { SourceBuildId := "5", TargetBuildId := "1" },
   { SourceBuildId := "3", TargetBuildId := "4" },
   { SourceBuildId := "3", TargetBuildId := "5" },
   { SourceBuildId := "2", TargetBuildId := "3" }]

/-- The data of `TestReplaceRedirectRuleCreateCycle`: `0 -> 1 -> 2 -> 3`. -/
def sampleChain : VersioningData :=
  { RedirectRules :=
      [{ SourceBuildId := "0", TargetBuildId := "1" },
       { SourceBuildId := "1", TargetBuildId := "2" },
       { SourceBuildId := "2", TargetBuildId := "3" }] }

/-- The sample chain after the rule of `1` is deleted at `5` and the rule
`3 -> 1` is added at `6`. -/
def sampleChainAfter : VersioningData :=
  { RedirectRules :=
      [{ SourceBuildId := "0", TargetBuildId := "1" },
       { SourceBuildId := "1", TargetBuildId := "2", DeleteTimestamp := some 5 },
       { SourceBuildId := "2", TargetBuildId := "3" },
       { SourceBuildId := "3", TargetBuildId := "1", CreateTimestamp := 6 }] }

end matching

namespace versionhistory

/-! ## Auxiliary lemmas -/

theorem getLast?_concat_item (init : List VersionHistoryItem) (last : VersionHistoryItem) :
    (init ++ [last]).getLast? = some last := by
  simp

theorem items_nil_or_concat (items : List VersionHistoryItem) :
    items = [] ∨ ∃ init last, items = init ++ [last] := by
  rcases List.eq_nil_or_concat items with h | ⟨init, last, h⟩
  · exact Or.inl h
  · exact Or.inr ⟨init, last, by simpa using h⟩

theorem copy_ok (item : VersionHistoryItem) (h : ValidItem item) :
    CopyVersionHistoryItem item = .ok item := by
  unfold CopyVersionHistoryItem NewVersionHistoryItem
  unfold ValidItem at h
  rw [if_neg (by omega)]

theorem copy_error (item : VersionHistoryItem) (h : ¬ ValidItem item) :
    CopyVersionHistoryItem item = .error .panic := by
  unfold CopyVersionHistoryItem NewVersionHistoryItem
  unfold ValidItem at h
  rw [if_pos (by omega)]

theorem copy_eq_ok (item copy : VersionHistoryItem)
    (h : CopyVersionHistoryItem item = .ok copy) : copy = item ∧ ValidItem item := by
  by_cases hv : ValidItem item
  · rw [copy_ok item hv] at h
    cases h
    exact ⟨rfl, hv⟩
  · rw [copy_error item hv] at h
    cases h

/-- The call either does what `addOrUpdateCore` does, or the copy panics: then
the item is invalid, the history is as before, and the call would have
stored the item. -/
theorem addOrUpdate_cases (v : VersionHistory) (item : VersionHistoryItem) :
    (ValidItem item ∨ (addOrUpdateCore v item).2 ≠ none ∨
        (∃ last, v.Items.getLast? = some last ∧ item.Version = last.Version)) ∧
      AddOrUpdateVersionHistoryItem v item = addOrUpdateCore v item ∨
    ¬ ValidItem item ∧ (addOrUpdateCore v item).2 = none ∧
      (v.Items = [] ∨ ∃ last, v.Items.getLast? = some last ∧ item.Version > last.Version ∧
        item.EventId > last.EventId) ∧
      AddOrUpdateVersionHistoryItem v item = (v, some .panic) := by
  unfold AddOrUpdateVersionHistoryItem addOrUpdateCore
  cases hl : v.Items.getLast? with
  | none =>
    have hnil : v.Items = [] := by simpa using hl
    by_cases hv : ValidItem item
    · left
      simp only [copy_ok item hv]
      exact ⟨Or.inl hv, trivial⟩
    · right
      simp only [copy_error item hv]
      exact ⟨hv, trivial, Or.inl hnil, trivial⟩
  | some last =>
    simp only
    by_cases h1 : item.Version < last.Version
    · left
      simp only [if_pos h1]
      exact ⟨Or.inr (Or.inl (by simp)), trivial⟩
    · by_cases h2 : item.EventId ≤ last.EventId
      · left
        simp only [if_neg h1, if_pos h2]
        exact ⟨Or.inr (Or.inl (by simp)), trivial⟩
      · by_cases h3 : item.Version > last.Version
        · simp only [if_neg h1, if_neg h2, if_pos h3]
          by_cases hv : ValidItem item
          · left
            simp only [copy_ok item hv]
            exact ⟨Or.inl hv, trivial⟩
          · right
            simp only [copy_error item hv]
            exact ⟨hv, trivial, Or.inr ⟨last, rfl, h3, by omega⟩, trivial⟩
        · left
          simp only [if_neg h1, if_neg h2, if_neg h3]
          exact ⟨Or.inr (Or.inr ⟨last, rfl, by omega⟩), trivial⟩

theorem addOrUpdate_eq_core_of_valid (v : VersionHistory) (item : VersionHistoryItem)
    (hv : ValidItem item) : AddOrUpdateVersionHistoryItem v item = addOrUpdateCore v item := by
  rcases addOrUpdate_cases v item with ⟨_, h⟩ | ⟨hn, _⟩
  · exact h
  · exact absurd hv hn

theorem addOrUpdate_eq_core_of_ok (v : VersionHistory) (item : VersionHistoryItem)
    (hok : (AddOrUpdateVersionHistoryItem v item).2 = none) :
    AddOrUpdateVersionHistoryItem v item = addOrUpdateCore v item := by
  rcases addOrUpdate_cases v item with ⟨_, h⟩ | ⟨_, _, _, h⟩
  · exact h
  · rw [h] at hok
    cases hok

theorem addOrUpdateCore_nil (v : VersionHistory) (item : VersionHistoryItem)
    (h : v.Items = []) :
    addOrUpdateCore v item = ({ v with Items := [item] }, none) := by
  simp [addOrUpdateCore, h]

theorem addOrUpdateCore_concat (v : VersionHistory) (item : VersionHistoryItem)
    (init : List VersionHistoryItem) (last : VersionHistoryItem)
    (h : v.Items = init ++ [last]) :
    addOrUpdateCore v item =
      if item.Version < last.Version then (v, some .lowerVersion)
      else if item.EventId ≤ last.EventId then (v, some .lowerEventId)
      else if item.Version > last.Version then
        ({ v with Items := init ++ [last] ++ [item] }, none)
      else ({ v with Items := init ++ [{ last with EventId := item.EventId }] }, none) := by
  simp [addOrUpdateCore, h]

theorem chain_concat_iff (R : VersionHistoryItem → VersionHistoryItem → Prop)
    (init : List VersionHistoryItem) (last : VersionHistoryItem) :
    List.Chain' R (init ++ [last]) ↔
      List.Chain' R init ∧ ∀ x ∈ init.getLast?, R x last := by
  simp [List.chain'_append]

theorem strictlyIncreasing_pairwise {l : List VersionHistoryItem}
    (h : StrictlyIncreasing l) :
    l.Pairwise (fun x y => x.Version < y.Version ∧ x.EventId < y.EventId) := by
  haveI : IsTrans VersionHistoryItem
      (fun x y => x.Version < y.Version ∧ x.EventId < y.EventId) :=
    ⟨fun a b c h1 h2 => ⟨by omega, by omega⟩⟩
  exact List.chain'_iff_pairwise.mp h

theorem containsLoop_sound (item : VersionHistoryItem) :
    ∀ (l : List VersionHistoryItem) (p : Int), containsLoop item p l = true →
      ∃ i cur, l[i]? = some cur ∧ cur.Version = item.Version ∧
        prevEventIDAt p l i < item.EventId ∧ item.EventId ≤ cur.EventId := by
  intro l
  induction l with
  | nil => intro p h; simp [containsLoop] at h
  | cons c rest ih =>
    intro p h
    have step : containsLoop item c.EventId rest = true →
        ∃ i cur, (c :: rest)[i]? = some cur ∧ cur.Version = item.Version ∧
          prevEventIDAt p (c :: rest) i < item.EventId ∧ item.EventId ≤ cur.EventId := by
      intro h'
      obtain ⟨i, cur, hi, hv, hp, he⟩ := ih c.EventId h'
      refine ⟨i + 1, cur, by simpa using hi, hv, ?_, he⟩
      cases i with
      | zero => simpa [prevEventIDAt] using hp
      | succ k =>
        cases hk : rest[k]? with
        | none =>
          have hlen : rest.length ≤ k := by simpa using hk
          have : rest[k + 1]? = none := by simp; omega
          rw [this] at hi; cases hi
        | some q => simpa [prevEventIDAt, hk] using hp
    unfold containsLoop at h
    split_ifs at h with h1 h2 h3
    · exact ⟨0, c, by simp, h1.symm, by simpa [prevEventIDAt] using h2.1, h2.2⟩
    · exact step h
    · exact step h

theorem containsLoop_complete (item : VersionHistoryItem) :
    ∀ (l : List VersionHistoryItem) (p : Int),
      l.Pairwise (fun x y => x.Version < y.Version ∧ x.EventId < y.EventId) →
      ∀ i cur, l[i]? = some cur → cur.Version = item.Version →
        prevEventIDAt p l i < item.EventId → item.EventId ≤ cur.EventId →
        containsLoop item p l = true := by
  intro l
  induction l with
  | nil => intro p _ i cur hi; simp at hi
  | cons c rest ih =>
    intro p hs i cur hi hv hp he
    rw [List.pairwise_cons] at hs
    cases i with
    | zero =>
      simp at hi
      subst hi
      simp only [prevEventIDAt] at hp
      simp [containsLoop, hv, hp, he]
    | succ k =>
      simp only [List.getElem?_cons_succ] at hi
      have hmem : cur ∈ rest := List.getElem?_mem hi
      have hlt := (hs.1 cur hmem).1
      have hp' : prevEventIDAt c.EventId rest k < item.EventId := by
        cases k with
        | zero => simpa [prevEventIDAt] using hp
        | succ j =>
          have hj : j < rest.length := by
            have := (List.getElem?_eq_some.mp hi).1
            omega
          simpa [prevEventIDAt, List.getElem?_eq_getElem hj] using hp
      have := ih c.EventId hs.2 k cur hi hv hp' he
      unfold containsLoop
      rw [if_neg (by omega), if_neg (by omega)]
      exact this

theorem eventVersionLoop_eq_find (eventID : Int) (l : List VersionHistoryItem) :
    eventVersionLoop eventID l =
      match l.find? (fun it => decide (eventID ≤ it.EventId)) with
      | some it => .ok it.Version
      | none => .error .notInRange := by
  induction l with
  | nil => simp [eventVersionLoop]
  | cons c rest ih =>
    unfold eventVersionLoop
    by_cases hc : eventID ≤ c.EventId
    · simp [hc]
    · simp [hc, ih]

theorem find_isSome_of_le_last (eventID : Int) (l : List VersionHistoryItem)
    (last : VersionHistoryItem) (hl : l.getLast? = some last)
    (hle : eventID ≤ last.EventId) :
    ∃ it, l.find? (fun it => decide (eventID ≤ it.EventId)) = some it := by
  have hmem : last ∈ l := List.mem_of_getLast?_eq_some hl
  cases hf : l.find? (fun it => decide (eventID ≤ it.EventId)) with
  | some it => exact ⟨it, rfl⟩
  | none =>
    rw [List.find?_eq_none] at hf
    have := hf last hmem
    simp at this
    omega

theorem splitLoop_spec (items : List VersionHistoryItem) (init inc : Int) (hinc : inc ≠ 0) :
    ∀ n, n ≤ items.length → (∀ x ∈ items.drop n, x.Version.tmod inc ≠ init) →
      ∃ localItems remoteItems,
        splitLoop items init inc n = some (localItems, remoteItems) ∧
        localItems ++ remoteItems = items ∧
        (∀ x ∈ remoteItems, x.Version.tmod inc ≠ init) ∧
        (localItems = [] ∨
          ∃ last, localItems.getLast? = some last ∧ last.Version.tmod inc = init) := by
  intro n
  induction n with
  | zero =>
    intro _ hdrop
    exact ⟨[], items, rfl, rfl, by simpa using hdrop, Or.inl rfl⟩
  | succ k ih =>
    intro hk hdrop
    have hlt : k < items.length := hk
    have hget : items[k]? = some items[k] := List.getElem?_eq_getElem hlt
    unfold splitLoop
    rw [hget]
    simp only [if_neg hinc]
    by_cases hp : (items[k]).Version.tmod inc = init
    · rw [if_pos hp]
      refine ⟨_, _, rfl, List.take_append_drop _ _, hdrop, Or.inr ⟨items[k], ?_, hp⟩⟩
      rw [List.take_succ, hget]
      exact getLast?_concat_item _ _
    · rw [if_neg hp]
      apply ih (Nat.le_of_lt hlt)
      intro x hx
      rw [List.drop_eq_getElem_cons hlt] at hx
      rcases List.mem_cons.mp hx with rfl | hx
      · exact hp
      · exact hdrop x hx

theorem containsLoop_false_of_head (item : VersionHistoryItem) (q : Int)
    (rest : List VersionHistoryItem)
    (h : ∀ x ∈ rest, item.Version < x.Version) :
    containsLoop item q rest = false := by
  cases rest with
  | nil => rfl
  | cons c rest =>
    have hc := h c (List.mem_cons_self _ _)
    unfold containsLoop
    rw [if_neg (by omega), if_pos hc]

theorem copyLoop_error_iff (lcaItem : VersionHistoryItem) (hvl : ValidItem lcaItem) :
    ∀ (rest : List VersionHistoryItem) (vh : VersionHistory) (p : Int),
      rest.Pairwise (fun x y => x.Version < y.Version ∧ x.EventId < y.EventId) →
      (∀ x ∈ rest, ValidItem x) →
      ((vh.Items = [] ∧ p < lcaItem.EventId) ∨
        ∃ init last, vh.Items = init ++ [last] ∧ last.EventId = p ∧
          last.Version < lcaItem.Version ∧
          ∀ x ∈ rest, last.Version < x.Version ∧ last.EventId < x.EventId) →
      ((∃ err, copyLoop lcaItem vh rest = .error err) ↔
        containsLoop lcaItem p rest = false) := by
  intro rest
  induction rest with
  | nil =>
    intro vh p _ _ _
    simp [copyLoop, containsLoop]
  | cons c rest ih =>
    intro vh p hs hvalid hinv
    have hvc : ValidItem c := hvalid c (List.mem_cons_self _ _)
    have hvrest : ∀ x ∈ rest, ValidItem x := fun x hx => hvalid x (List.mem_cons_of_mem _ hx)
    rw [List.pairwise_cons] at hs
    obtain ⟨hc, hrest⟩ := hs
    unfold copyLoop containsLoop
    by_cases hlt : c.Version < lcaItem.Version
    · -- the item is copied and the loop goes on
      rw [if_pos hlt, if_neg (by omega), if_neg (by omega)]
      have hnext : ∀ init, ∃ init2 last, init ++ [c] = init2 ++ [last] ∧
          last.EventId = c.EventId ∧ last.Version < lcaItem.Version ∧
          ∀ x ∈ rest, last.Version < x.Version ∧ last.EventId < x.EventId :=
        fun init => ⟨init, c, rfl, rfl, hlt, hc⟩
      rcases hinv with ⟨hnil, _⟩ | ⟨init, last, hitems, _, _, hall⟩
      · rw [addOrUpdate_eq_core_of_valid vh c hvc, addOrUpdateCore_nil vh c hnil]
        exact ih _ c.EventId hrest hvrest (Or.inr (hnext []))
      · have hcl := hall c (List.mem_cons_self _ _)
        rw [addOrUpdate_eq_core_of_valid vh c hvc, addOrUpdateCore_concat vh c init last hitems,
          if_neg (by omega), if_neg (by omega), if_pos (by omega)]
        exact ih _ c.EventId hrest hvrest (Or.inr (hnext (init ++ [last])))
    · rw [if_neg hlt]
      by_cases heq : c.Version = lcaItem.Version
      · rw [if_pos heq, if_pos heq.symm]
        have hfalse : containsLoop lcaItem c.EventId rest = false :=
          containsLoop_false_of_head lcaItem c.EventId rest
            (fun x hx => by have := (hc x hx).1; omega)
        by_cases hgt : lcaItem.EventId > c.EventId
        · rw [if_pos hgt, if_neg (by omega), hfalse]
          simp
        · rw [if_neg hgt]
          rcases hinv with ⟨hnil, hp⟩ | ⟨init, last, hitems, hlast, hlv, _⟩
          · rw [addOrUpdate_eq_core_of_valid vh lcaItem hvl, addOrUpdateCore_nil vh lcaItem hnil,
              if_pos ⟨hp, by omega⟩]
            simp
          · rw [addOrUpdate_eq_core_of_valid vh lcaItem hvl,
              addOrUpdateCore_concat vh lcaItem init last hitems, if_neg (by omega)]
            by_cases hle : lcaItem.EventId ≤ last.EventId
            · rw [if_pos hle, if_neg (by omega), hfalse]
              simp
            · rw [if_neg hle, if_pos (by omega), if_pos ⟨by omega, by omega⟩]
              simp
      · rw [if_neg heq, if_neg (fun h => heq h.symm), if_pos (by omega)]
        simp

theorem lcaLoopCore_nil_left (bs : List VersionHistoryItem) :
    lcaLoopCore [] bs = .error .malformed := rfl

theorem lcaLoopCore_nil_right (as : List VersionHistoryItem) :
    lcaLoopCore as [] = .error .malformed := by
  cases as <;> rfl

theorem lcaLoopCore_cons_cons (a b : VersionHistoryItem) (as bs : List VersionHistoryItem) :
    lcaLoopCore (a :: as) (b :: bs) =
      if a.Version = b.Version then
        if a.EventId > b.EventId then .ok b else .ok a
      else if a.Version > b.Version then lcaLoopCore as (b :: bs)
      else lcaLoopCore (a :: as) bs := rfl

theorem lcaLoop_nil_left (bs : List VersionHistoryItem) :
    lcaLoop [] bs = .error .malformed := rfl

theorem lcaLoop_nil_right (as : List VersionHistoryItem) :
    lcaLoop as [] = .error .malformed := by
  cases as <;> rfl

theorem lcaLoop_cons_cons (a b : VersionHistoryItem) (as bs : List VersionHistoryItem) :
    lcaLoop (a :: as) (b :: bs) =
      if a.Version = b.Version then
        if a.EventId > b.EventId then CopyVersionHistoryItem b else .ok a
      else if a.Version > b.Version then lcaLoop as (b :: bs)
      else lcaLoop (a :: as) bs := rfl

/-- The search agrees with `lcaLoopCore` when the items of the second list,
the only ones copied, are valid. -/
theorem lcaLoop_eq_core : ∀ (as bs : List VersionHistoryItem),
    (∀ y ∈ bs, ValidItem y) → lcaLoop as bs = lcaLoopCore as bs := by
  intro as
  induction as with
  | nil => intro bs _; rfl
  | cons a as iha =>
    intro bs
    induction bs with
    | nil => intro _; rfl
    | cons b bs ihb =>
      intro hv
      rw [lcaLoop_cons_cons, lcaLoopCore_cons_cons,
        copy_ok b (hv b (List.mem_cons_self _ _)), iha (b :: bs) hv,
        ihb (fun y hy => hv y (List.mem_cons_of_mem _ hy))]

/-- A successful search returns what `lcaLoopCore` returns. -/
theorem lcaLoop_ok_core : ∀ (as bs : List VersionHistoryItem) (l : VersionHistoryItem),
    lcaLoop as bs = .ok l → lcaLoopCore as bs = .ok l := by
  intro as
  induction as with
  | nil => intro bs l h; cases h
  | cons a as iha =>
    intro bs
    induction bs with
    | nil => intro l h; cases h
    | cons b bs ihb =>
      intro l h
      rw [lcaLoop_cons_cons] at h
      rw [lcaLoopCore_cons_cons]
      by_cases hv : a.Version = b.Version
      · rw [if_pos hv] at h ⊢
        by_cases he : a.EventId > b.EventId
        · rw [if_pos he] at h ⊢
          rw [(copy_eq_ok b l h).1]
        · rw [if_neg he] at h ⊢
          exact h
      · rw [if_neg hv] at h ⊢
        by_cases hgt : a.Version > b.Version
        · rw [if_pos hgt] at h ⊢
          exact iha (b :: bs) l h
        · rw [if_neg hgt] at h ⊢
          exact ihb l h

/-- An error of the search other than a panic is the error of `lcaLoopCore`. -/
theorem lcaLoop_error_core : ∀ (as bs : List VersionHistoryItem) (e : Error),
    lcaLoop as bs = .error e → e = .panic ∨ lcaLoopCore as bs = .error e := by
  intro as
  induction as with
  | nil => intro bs e h; exact Or.inr h
  | cons a as iha =>
    intro bs
    induction bs with
    | nil => intro e h; exact Or.inr h
    | cons b bs ihb =>
      intro e h
      rw [lcaLoop_cons_cons] at h
      rw [lcaLoopCore_cons_cons]
      by_cases hv : a.Version = b.Version
      · rw [if_pos hv] at h ⊢
        by_cases he : a.EventId > b.EventId
        · rw [if_pos he] at h
          by_cases hb : ValidItem b
          · rw [copy_ok b hb] at h; cases h
          · rw [copy_error b hb] at h; cases h; exact Or.inl rfl
        · rw [if_neg he] at h
          cases h
      · rw [if_neg hv] at h ⊢
        by_cases hgt : a.Version > b.Version
        · rw [if_pos hgt] at h ⊢
          exact iha (b :: bs) e h
        · rw [if_neg hgt] at h ⊢
          exact ihb e h

theorem findLCA_eq_core (a b : List VersionHistoryItem) (hv : ∀ y ∈ b, ValidItem y) :
    FindLCAVersionHistoryItemFromItemSlice a b = findLCACore a b :=
  lcaLoop_eq_core a.reverse b.reverse (fun y hy => hv y (List.mem_reverse.mp hy))

theorem findLCA_ok_core (a b : List VersionHistoryItem) (l : VersionHistoryItem)
    (h : FindLCAVersionHistoryItemFromItemSlice a b = .ok l) : findLCACore a b = .ok l :=
  lcaLoop_ok_core a.reverse b.reverse l h

theorem lcaLoopCore_comm : ∀ (as bs : List VersionHistoryItem),
    lcaLoopCore as bs = lcaLoopCore bs as := by
  intro as
  induction as with
  | nil => intro bs; rw [lcaLoopCore_nil_left, lcaLoopCore_nil_right]
  | cons a as iha =>
    intro bs
    induction bs with
    | nil => rw [lcaLoopCore_nil_left, lcaLoopCore_nil_right]
    | cons b bs ihb =>
      rw [lcaLoopCore_cons_cons, lcaLoopCore_cons_cons]
      by_cases hv : a.Version = b.Version
      · rw [if_pos hv, if_pos hv.symm]
        by_cases h1 : a.EventId > b.EventId
        · rw [if_pos h1, if_neg (by omega)]
        · rw [if_neg h1]
          by_cases h2 : b.EventId > a.EventId
          · rw [if_pos h2]
          · rw [if_neg h2]
            have he : a.EventId = b.EventId := by omega
            cases a; cases b
            simp_all
      · rw [if_neg hv, if_neg (Ne.symm hv)]
        by_cases hgt : a.Version > b.Version
        · rw [if_pos hgt, if_neg (by omega)]
          exact iha (b :: bs)
        · rw [if_neg hgt, if_pos (by omega)]
          exact ihb

theorem findLCACore_comm (a b : List VersionHistoryItem) :
    findLCACore a b =
      findLCACore b a :=
  lcaLoopCore_comm a.reverse b.reverse

/-- A successful LCA search returns `(v, min eA eB)` for two matched items of
the same version `v`. -/
theorem lcaLoopCore_ok_mem : ∀ (as bs : List VersionHistoryItem) (l : VersionHistoryItem),
    lcaLoopCore as bs = .ok l →
    ∃ x ∈ as, ∃ y ∈ bs, x.Version = y.Version ∧
      l = { EventId := min x.EventId y.EventId, Version := x.Version } := by
  intro as
  induction as with
  | nil => intro bs l h; rw [lcaLoopCore_nil_left] at h; cases h
  | cons a as iha =>
    intro bs
    induction bs with
    | nil => intro l h; rw [lcaLoopCore_nil_right] at h; cases h
    | cons b bs ihb =>
      intro l h
      rw [lcaLoopCore_cons_cons] at h
      by_cases hv : a.Version = b.Version
      · rw [if_pos hv] at h
        refine ⟨a, List.mem_cons_self _ _, b, List.mem_cons_self _ _, hv, ?_⟩
        by_cases he : a.EventId > b.EventId
        · rw [if_pos he] at h
          cases h
          rw [min_eq_right (by omega), hv]
        · rw [if_neg he] at h
          cases h
          rw [min_eq_left (by omega)]
      · rw [if_neg hv] at h
        by_cases hgt : a.Version > b.Version
        · rw [if_pos hgt] at h
          obtain ⟨x, hx, y, hy, hxy⟩ := iha (b :: bs) l h
          exact ⟨x, List.mem_cons_of_mem _ hx, y, hy, hxy⟩
        · rw [if_neg hgt] at h
          obtain ⟨x, hx, y, hy, hxy⟩ := ihb l h
          exact ⟨x, hx, y, List.mem_cons_of_mem _ hy, hxy⟩

/-- The only error of the LCA search is "no joint point found". -/
theorem lcaLoopCore_error : ∀ (as bs : List VersionHistoryItem) (e : Error),
    lcaLoopCore as bs = .error e → e = .malformed := by
  intro as
  induction as with
  | nil => intro bs e h; rw [lcaLoopCore_nil_left] at h; cases h; rfl
  | cons a as iha =>
    intro bs
    induction bs with
    | nil => intro e h; rw [lcaLoopCore_nil_right] at h; cases h; rfl
    | cons b bs ihb =>
      intro e h
      rw [lcaLoopCore_cons_cons] at h
      split_ifs at h
      · exact iha _ e h
      · exact ihb e h

/-- On lists whose versions never increase (the reversed histories), a common
version makes the LCA search succeed. -/
theorem lcaLoopCore_ok_of_common : ∀ (as bs : List VersionHistoryItem),
    as.Pairwise (fun x y => y.Version ≤ x.Version) →
    bs.Pairwise (fun x y => y.Version ≤ x.Version) →
    (∃ x ∈ as, ∃ y ∈ bs, x.Version = y.Version) →
    ∃ l, lcaLoopCore as bs = .ok l := by
  intro as
  induction as with
  | nil => intro bs _ _ h; obtain ⟨x, hx, _⟩ := h; cases hx
  | cons a as iha =>
    intro bs
    induction bs with
    | nil => intro _ _ h; obtain ⟨x, _, y, hy, _⟩ := h; cases hy
    | cons b bs ihb =>
      intro ha hb hcommon
      obtain ⟨x, hx, y, hy, hxy⟩ := hcommon
      rw [lcaLoopCore_cons_cons]
      have ha' := List.pairwise_cons.mp ha
      have hb' := List.pairwise_cons.mp hb
      by_cases hv : a.Version = b.Version
      · rw [if_pos hv]
        split_ifs <;> exact ⟨_, rfl⟩
      · rw [if_neg hv]
        have hyb : y.Version ≤ b.Version := by
          rcases List.mem_cons.mp hy with rfl | hy'
          · exact le_refl _
          · exact hb'.1 y hy'
        have hxa : x.Version ≤ a.Version := by
          rcases List.mem_cons.mp hx with rfl | hx'
          · exact le_refl _
          · exact ha'.1 x hx'
        by_cases hgt : a.Version > b.Version
        · rw [if_pos hgt]
          apply iha (b :: bs) ha'.2 hb
          rcases List.mem_cons.mp hx with rfl | hx'
          · omega
          · exact ⟨x, hx', y, hy, hxy⟩
        · rw [if_neg hgt]
          apply ihb ha hb'.2
          rcases List.mem_cons.mp hy with rfl | hy'
          · omega
          · exact ⟨x, hx, y, hy', hxy⟩

/-- On lists whose versions never increase, the version found by the LCA
search is the largest common one. -/
theorem lcaLoopCore_ok_max : ∀ (as bs : List VersionHistoryItem) (l : VersionHistoryItem),
    as.Pairwise (fun x y => y.Version ≤ x.Version) →
    bs.Pairwise (fun x y => y.Version ≤ x.Version) →
    lcaLoopCore as bs = .ok l →
    ∀ x ∈ as, ∀ y ∈ bs, x.Version = y.Version → x.Version ≤ l.Version := by
  intro as
  induction as with
  | nil => intro bs l _ _ _ x hx; cases hx
  | cons a as iha =>
    intro bs
    induction bs with
    | nil => intro l _ _ _ x _ y hy; cases hy
    | cons b bs ihb =>
      intro l ha hb h x hx y hy hxy
      rw [lcaLoopCore_cons_cons] at h
      have ha' := List.pairwise_cons.mp ha
      have hb' := List.pairwise_cons.mp hb
      have hyb : y.Version ≤ b.Version := by
        rcases List.mem_cons.mp hy with rfl | hy'
        · exact le_refl _
        · exact hb'.1 y hy'
      have hxa : x.Version ≤ a.Version := by
        rcases List.mem_cons.mp hx with rfl | hx'
        · exact le_refl _
        · exact ha'.1 x hx'
      by_cases hv : a.Version = b.Version
      · rw [if_pos hv] at h
        have hl : l.Version = a.Version := by
          split_ifs at h <;> cases h
          · exact hv.symm
          · rfl
        omega
      · rw [if_neg hv] at h
        by_cases hgt : a.Version > b.Version
        · rw [if_pos hgt] at h
          rcases List.mem_cons.mp hx with rfl | hx'
          · omega
          · exact iha (b :: bs) l ha'.2 hb h x hx' y hy hxy
        · rw [if_neg hgt] at h
          rcases List.mem_cons.mp hy with rfl | hy'
          · omega
          · exact ihb l ha hb'.2 h x hx y hy' hxy

theorem versionsIncreasing_pairwise {l : List VersionHistoryItem}
    (h : VersionsIncreasing l) : l.Pairwise (fun x y => x.Version < y.Version) := by
  haveI : IsTrans VersionHistoryItem (fun x y => x.Version < y.Version) :=
    ⟨fun a b c h1 h2 => lt_trans h1 h2⟩
  exact List.chain'_iff_pairwise.mp h

theorem reverse_versions_desc {l : List VersionHistoryItem}
    (h : l.Pairwise (fun x y => x.Version ≤ y.Version)) :
    l.reverse.Pairwise (fun x y => y.Version ≤ x.Version) :=
  List.pairwise_reverse.mpr h

theorem version_unique {l : List VersionHistoryItem}
    (h : l.Pairwise (fun x y => x.Version < y.Version)) {x y : VersionHistoryItem}
    (hx : x ∈ l) (hy : y ∈ l) (hxy : x.Version = y.Version) : x = y := by
  induction l with
  | nil => cases hx
  | cons c rest ih =>
    have h' := List.pairwise_cons.mp h
    rcases List.mem_cons.mp hx with rfl | hx' <;> rcases List.mem_cons.mp hy with rfl | hy'
    · rfl
    · have := h'.1 y hy'; omega
    · have := h'.1 x hx'; omega
    · exact ih h'.2 hx' hy'

theorem find_version_of_mem {l : List VersionHistoryItem}
    (h : l.Pairwise (fun x y => x.Version < y.Version)) {x : VersionHistoryItem}
    (hx : x ∈ l) :
    l.find? (fun z => decide (z.Version = x.Version)) = some x := by
  cases hf : l.find? (fun z => decide (z.Version = x.Version)) with
  | none =>
    rw [List.find?_eq_none] at hf
    have := hf x hx
    simp at this
  | some z =>
    have hz := List.find?_some hf
    have hmem := List.mem_of_find?_eq_some hf
    simp only [decide_eq_true_eq] at hz
    rw [version_unique h hmem hx hz]

theorem largestCommonVersion_of_largest (a b : List VersionHistoryItem)
    (x y : VersionHistoryItem) (hx : x ∈ a) (hy : y ∈ b) (hxy : x.Version = y.Version)
    (hmax : ∀ x2 ∈ a, ∀ y2 ∈ b, x2.Version = y2.Version → x2.Version ≤ x.Version) :
    largestCommonVersion a b = some x.Version := by
  haveI : Std.Antisymm (fun (p q : Int) => p ≤ q) := ⟨fun h1 h2 => Int.le_antisymm h1 h2⟩
  unfold largestCommonVersion
  rw [List.max?_eq_some_iff (fun p => Int.le_refl p) (fun p q => by omega)
    (fun p q r => by omega)]
  constructor
  · rw [List.mem_filter]
    refine ⟨List.mem_map.mpr ⟨x, hx, rfl⟩, ?_⟩
    rw [List.any_eq_true]
    exact ⟨y, hy, by simp [hxy]⟩
  · intro w hw
    rw [List.mem_filter, List.any_eq_true] at hw
    obtain ⟨hwa, y2, hy2, hyw⟩ := hw
    obtain ⟨x2, hx2, rfl⟩ := List.mem_map.mp hwa
    simp only [decide_eq_true_eq] at hyw
    exact hmax x2 hx2 y2 hy2 hyw.symm

theorem largestCommonVersion_of_no_common (a b : List VersionHistoryItem)
    (h : ∀ x ∈ a, ∀ y ∈ b, x.Version ≠ y.Version) :
    largestCommonVersion a b = none := by
  unfold largestCommonVersion
  have : (a.map (fun x => x.Version)).filter
      (fun v => b.any (fun y => decide (y.Version = v))) = [] := by
    rw [List.filter_eq_nil_iff]
    intro w hw hany
    obtain ⟨x, hx, rfl⟩ := List.mem_map.mp hw
    rw [List.any_eq_true] at hany
    obtain ⟨y, hy, hyx⟩ := hany
    simp only [decide_eq_true_eq] at hyx
    exact h x hx y hy hyx.symm
  rw [this]
  rfl

theorem lcaReference_of_largest (a b : List VersionHistoryItem)
    (ha : VersionsIncreasing a) (hb : VersionsIncreasing b)
    (x y : VersionHistoryItem) (hx : x ∈ a) (hy : y ∈ b) (hxy : x.Version = y.Version)
    (hmax : ∀ x2 ∈ a, ∀ y2 ∈ b, x2.Version = y2.Version → x2.Version ≤ x.Version) :
    lcaReference a b = .ok { EventId := min x.EventId y.EventId, Version := x.Version } := by
  unfold lcaReference
  rw [largestCommonVersion_of_largest a b x y hx hy hxy hmax]
  have h1 := find_version_of_mem (versionsIncreasing_pairwise ha) hx
  have h2 := find_version_of_mem (versionsIncreasing_pairwise hb) hy
  rw [← hxy] at h2
  simp only [h1, h2]

theorem findLCACore_of_no_common (a b : List VersionHistoryItem)
    (h : ∀ x ∈ a, ∀ y ∈ b, x.Version ≠ y.Version) :
    findLCACore a b = .error .malformed := by
  unfold findLCACore
  cases hl : lcaLoopCore a.reverse b.reverse with
  | error e => rw [lcaLoopCore_error _ _ e hl]
  | ok l =>
    obtain ⟨x, hx, y, hy, hxy, _⟩ := lcaLoopCore_ok_mem _ _ l hl
    exact absurd hxy (h x (List.mem_reverse.mp hx) y (List.mem_reverse.mp hy))

theorem findLCACore_of_largest (a b : List VersionHistoryItem)
    (ha : VersionsIncreasing a) (hb : VersionsIncreasing b)
    (x y : VersionHistoryItem) (hx : x ∈ a) (hy : y ∈ b) (hxy : x.Version = y.Version)
    (hmax : ∀ x2 ∈ a, ∀ y2 ∈ b, x2.Version = y2.Version → x2.Version ≤ x.Version) :
    findLCACore a b
      = .ok { EventId := min x.EventId y.EventId, Version := x.Version } := by
  have hpa := versionsIncreasing_pairwise ha
  have hpb := versionsIncreasing_pairwise hb
  have hda := reverse_versions_desc (hpa.imp (fun h => le_of_lt h))
  have hdb := reverse_versions_desc (hpb.imp (fun h => le_of_lt h))
  unfold findLCACore
  obtain ⟨l, hl⟩ := lcaLoopCore_ok_of_common a.reverse b.reverse hda hdb
    ⟨x, List.mem_reverse.mpr hx, y, List.mem_reverse.mpr hy, hxy⟩
  obtain ⟨x0, hx0, y0, hy0, hxy0, hl0⟩ := lcaLoopCore_ok_mem _ _ l hl
  have hx0' := List.mem_reverse.mp hx0
  have hy0' := List.mem_reverse.mp hy0
  have h1 := lcaLoopCore_ok_max _ _ l hda hdb hl x (List.mem_reverse.mpr hx)
    y (List.mem_reverse.mpr hy) hxy
  have h2 := hmax x0 hx0' y0 hy0' hxy0
  have hlv : l.Version = x0.Version := by rw [hl0]
  have hxv : x0.Version = x.Version := by omega
  have hxe : x0 = x := version_unique hpa hx0' hx hxv
  have hye : y0 = y := version_unique hpb hy0' hy (by omega)
  rw [hl, hl0, hxe, hye]

theorem monotonic_pairwise {l : List VersionHistoryItem} (h : Monotonic l) :
    l.Pairwise (fun x y => x.Version ≤ y.Version ∧ x.EventId < y.EventId) := by
  haveI : IsTrans VersionHistoryItem
      (fun x y => x.Version ≤ y.Version ∧ x.EventId < y.EventId) :=
    ⟨fun a b c h1 h2 => ⟨by omega, by omega⟩⟩
  exact List.chain'_iff_pairwise.mp h

/-- On lists whose versions and event IDs never increase (the reversed
histories), every pair of items with a common version has one event ID that
does not exceed the event ID of the LCA item. -/
theorem lcaLoopCore_ok_event : ∀ (as bs : List VersionHistoryItem) (l : VersionHistoryItem),
    as.Pairwise (fun x y => y.Version ≤ x.Version ∧ y.EventId ≤ x.EventId) →
    bs.Pairwise (fun x y => y.Version ≤ x.Version ∧ y.EventId ≤ x.EventId) →
    lcaLoopCore as bs = .ok l →
    ∀ x ∈ as, ∀ y ∈ bs, x.Version = y.Version →
      x.EventId ≤ l.EventId ∨ y.EventId ≤ l.EventId := by
  intro as
  induction as with
  | nil => intro bs l _ _ _ x hx; cases hx
  | cons a as iha =>
    intro bs
    induction bs with
    | nil => intro l _ _ _ x _ y hy; cases hy
    | cons b bs ihb =>
      intro l ha hb h x hx y hy hxy
      rw [lcaLoopCore_cons_cons] at h
      have ha' := List.pairwise_cons.mp ha
      have hb' := List.pairwise_cons.mp hb
      have hyb : y.Version ≤ b.Version ∧ y.EventId ≤ b.EventId := by
        rcases List.mem_cons.mp hy with rfl | hy'
        · exact ⟨le_refl _, le_refl _⟩
        · exact hb'.1 y hy'
      have hxa : x.Version ≤ a.Version ∧ x.EventId ≤ a.EventId := by
        rcases List.mem_cons.mp hx with rfl | hx'
        · exact ⟨le_refl _, le_refl _⟩
        · exact ha'.1 x hx'
      by_cases hv : a.Version = b.Version
      · rw [if_pos hv] at h
        by_cases he : a.EventId > b.EventId
        · rw [if_pos he] at h
          cases h
          exact Or.inr hyb.2
        · rw [if_neg he] at h
          cases h
          exact Or.inl hxa.2
      · rw [if_neg hv] at h
        by_cases hgt : a.Version > b.Version
        · rw [if_pos hgt] at h
          rcases List.mem_cons.mp hx with rfl | hx'
          · omega
          · exact iha (b :: bs) l ha'.2 hb h x hx' y hy hxy
        · rw [if_neg hgt] at h
          rcases List.mem_cons.mp hy with rfl | hy'
          · omega
          · exact ihb l ha hb'.2 h x hx y hy' hxy

/-- The containment loop finds an item whose version is present with an event
ID at least as large, once the running `prevEventID` and the event IDs of the
items of lower versions are below the event ID of the item. -/
theorem containsLoop_of_matched (item : VersionHistoryItem) :
    ∀ (l : List VersionHistoryItem) (p : Int),
      l.Pairwise (fun x y => x.Version ≤ y.Version ∧ x.EventId < y.EventId) →
      (∃ x ∈ l, x.Version = item.Version ∧ item.EventId ≤ x.EventId) →
      p < item.EventId →
      (∀ z ∈ l, z.Version < item.Version → z.EventId < item.EventId) →
      containsLoop item p l = true := by
  intro l
  induction l with
  | nil => intro p _ h; obtain ⟨x, hx, _⟩ := h; cases hx
  | cons c rest ih =>
    intro p hs hmatched hp hlow
    obtain ⟨x, hx, hxv, hxe⟩ := hmatched
    have hs' := List.pairwise_cons.mp hs
    have hlow' : ∀ z ∈ rest, z.Version < item.Version → z.EventId < item.EventId :=
      fun z hz => hlow z (List.mem_cons_of_mem _ hz)
    unfold containsLoop
    by_cases hv : item.Version = c.Version
    · rw [if_pos hv]
      by_cases hr : p < item.EventId ∧ item.EventId ≤ c.EventId
      · rw [if_pos hr]
      · rw [if_neg hr]
        have hgt : c.EventId < item.EventId := by
          by_contra hn
          exact hr ⟨hp, by omega⟩
        rcases List.mem_cons.mp hx with rfl | hx'
        · omega
        · exact ih c.EventId hs'.2 ⟨x, hx', hxv, hxe⟩ hgt hlow'
    · rw [if_neg hv]
      rcases List.mem_cons.mp hx with rfl | hx'
      · exact absurd hxv.symm hv
      · have hcx := (hs'.1 x hx').1
        rw [if_neg (by omega)]
        have hclow := hlow c (List.mem_cons_self _ _) (by omega)
        exact ih c.EventId hs'.2 ⟨x, hx', hxv, hxe⟩ hclow hlow'

theorem contains_mem_of_true (h : VersionHistory) (item : VersionHistoryItem)
    (hc : ContainsVersionHistoryItem h item = true) :
    ∃ y ∈ h.Items, y.Version = item.Version ∧ item.EventId ≤ y.EventId := by
  obtain ⟨i, cur, hi, hv, _, he⟩ := containsLoop_sound item h.Items (FirstEventID - 1) hc
  exact ⟨cur, List.getElem?_mem hi, hv, he⟩

theorem addOrUpdateCore_no_panic (v : VersionHistory) (item : VersionHistoryItem) :
    (addOrUpdateCore v item).2 ≠ some .panic := by
  unfold addOrUpdateCore
  cases v.Items.getLast? with
  | none => simp
  | some last =>
    simp only
    split_ifs <;> simp

theorem addOrUpdateCore_error_iff (v : VersionHistory) (item : VersionHistoryItem) :
    (∀ last, v.Items.getLast? = some last →
      ((addOrUpdateCore v item).2 ≠ none ↔
        (item.Version < last.Version ∨ item.EventId ≤ last.EventId))) ∧
    (v.Items = [] → (addOrUpdateCore v item).2 = none) ∧
    ((addOrUpdateCore v item).2 ≠ none → (addOrUpdateCore v item).1 = v) := by
  refine ⟨?_, ?_, ?_⟩
  · intro last hlast
    simp only [addOrUpdateCore, hlast]
    split_ifs with h1 h2 h3 <;> simp <;> omega
  · intro h
    rw [addOrUpdateCore_nil v item h]
  · intro herr
    rcases items_nil_or_concat v.Items with h | ⟨init, last, h⟩
    · rw [addOrUpdateCore_nil v item h] at herr
      simp at herr
    · rw [addOrUpdateCore_concat v item init last h] at herr ⊢
      split_ifs at herr ⊢ with h1 h2 h3 <;> simp at herr ⊢

theorem getLast_of_valid (v : List VersionHistoryItem) (last : VersionHistoryItem)
    (hl : v.getLast? = some last) (hv : ValidItem last) :
    getLastVersionHistoryItem v = .ok last := by
  unfold getLastVersionHistoryItem
  rw [hl]
  exact copy_ok last hv

theorem getLast_nil : getLastVersionHistoryItem [] = .error .empty := rfl


/-! ## Theorems -/

/-- C1: `AddOrUpdateVersionHistoryItem` preserves the monotonicity invariant:
if the items have non-decreasing versions and strictly increasing event IDs
and the call returns no error, the items after the call satisfy it again. -/
theorem addOrUpdate_preserves_monotonic (v : VersionHistory) (item : VersionHistoryItem)
    (hm : Monotonic v.Items)
    (hok : (AddOrUpdateVersionHistoryItem v item).2 = none) :
    Monotonic (AddOrUpdateVersionHistoryItem v item).1.Items := by
  have hcore := addOrUpdate_eq_core_of_ok v item hok
  rw [hcore] at hok ⊢
  rcases items_nil_or_concat v.Items with h | ⟨init, last, h⟩
  · rw [addOrUpdateCore_nil v item h]
    simp [Monotonic]
  · rw [addOrUpdateCore_concat v item init last h] at hok ⊢
    rw [h] at hm
    unfold Monotonic at hm ⊢
    rw [chain_concat_iff] at hm
    split_ifs at hok ⊢ with h1 h2 h3
    · show List.Chain' _ (init ++ [last] ++ [item])
      rw [chain_concat_iff, chain_concat_iff]
      refine ⟨hm, ?_⟩
      intro x hx
      simp at hx
      subst hx
      constructor <;> omega
    · show List.Chain' _ (init ++ [_])
      rw [chain_concat_iff]
      refine ⟨hm.1, ?_⟩
      intro x hx
      have := hm.2 x hx
      simp only
      constructor <;> omega

/-- Witness for C1 on the history `[(3,0),(6,4)]` and the item `(8,4)`. -/
theorem addOrUpdate_preserves_monotonic_witness :
    Monotonic (AddOrUpdateVersionHistoryItem ⟨[], [⟨3, 0⟩, ⟨6, 4⟩]⟩ ⟨8, 4⟩).1.Items :=
  addOrUpdate_preserves_monotonic ⟨[], [⟨3, 0⟩, ⟨6, 4⟩]⟩ ⟨8, 4⟩
    (by simp [Monotonic]) (by decide)

/-- C2: `AddOrUpdateVersionHistoryItem` rejects exactly the violations.  On a
history whose last item is `last` it returns an error if and only if the new
version is below `last.Version` or the new event ID is not above
`last.EventId`; on an empty history it returns no error; and whenever it
returns an error the history, in particular its items, is unchanged.  A panic
of the copy is not a returned error: it occurs exactly when an invalid item
would be stored as a new item, and it leaves the history unchanged as well;
for a valid item the second component is `none` exactly when no error is
returned. -/
theorem addOrUpdate_error_iff (v : VersionHistory) (item : VersionHistoryItem) :
    (∀ last, v.Items.getLast? = some last →
      ((∃ err, (AddOrUpdateVersionHistoryItem v item).2 = some err ∧ err ≠ .panic) ↔
        (item.Version < last.Version ∨ item.EventId ≤ last.EventId))) ∧
    (v.Items = [] →
      ∀ err, (AddOrUpdateVersionHistoryItem v item).2 = some err → err = .panic) ∧
    ((AddOrUpdateVersionHistoryItem v item).2 ≠ none →
      (AddOrUpdateVersionHistoryItem v item).1.Items = v.Items ∧
      (AddOrUpdateVersionHistoryItem v item).1 = v) ∧
    ((AddOrUpdateVersionHistoryItem v item).2 = some .panic ↔
      ¬ ValidItem item ∧
        (v.Items = [] ∨ ∃ last, v.Items.getLast? = some last ∧
          item.Version > last.Version ∧ item.EventId > last.EventId)) ∧
    (ValidItem item →
      (∀ last, v.Items.getLast? = some last →
        ((AddOrUpdateVersionHistoryItem v item).2 ≠ none ↔
          (item.Version < last.Version ∨ item.EventId ≤ last.EventId))) ∧
      (v.Items = [] → (AddOrUpdateVersionHistoryItem v item).2 = none)) := by
  obtain ⟨c1, c2, c3⟩ := addOrUpdateCore_error_iff v item
  have cnp := addOrUpdateCore_no_panic v item
  rcases addOrUpdate_cases v item with ⟨hwhy, hcore⟩ | ⟨hinv, hnone, hpath, hp⟩
  · rw [hcore]
    refine ⟨?_, ?_, ?_, ?_, ?_⟩
    · intro last hlast
      rw [← c1 last hlast]
      constructor
      · rintro ⟨err, he, _⟩
        rw [he]
        simp
      · intro hne
        cases hr : (addOrUpdateCore v item).2 with
        | none => exact absurd hr hne
        | some err =>
          refine ⟨err, rfl, ?_⟩
          rintro rfl
          exact cnp hr
    · intro hnil err he
      rw [c2 hnil] at he
      cases he
    · intro hne
      have := c3 hne
      exact ⟨by rw [this], this⟩
    · constructor
      · intro h
        exact absurd h cnp
      · rintro ⟨hnv, hpath⟩
        exfalso
        rcases hwhy with hv | herr | ⟨last, hlast, heq⟩
        · exact hnv hv
        · rcases hpath with hnil | ⟨last, hlast, hgt, hge⟩
          · exact herr (c2 hnil)
          · exact herr (by
              by_contra hne
              have := (c1 last hlast).mp hne
              omega)
        · rcases hpath with hnil | ⟨last2, hlast2, hgt, _⟩
          · rw [hnil] at hlast
            simp at hlast
          · rw [hlast] at hlast2
            cases hlast2
            omega
    · intro _
      exact ⟨c1, c2⟩
  · rw [hp]
    refine ⟨?_, ?_, ?_, ?_, ?_⟩
    · intro last hlast
      constructor
      · rintro ⟨err, he, hne⟩
        cases he
        exact absurd rfl hne
      · intro hg
        exact absurd hnone ((c1 last hlast).mpr hg)
    · intro _ err he
      cases he
      rfl
    · intro _
      exact ⟨rfl, rfl⟩
    · exact ⟨fun _ => ⟨hinv, hpath⟩, fun _ => rfl⟩
    · intro hv
      exact absurd hv hinv

/-- Witness for C2: on `[(3,0),(6,4)]` the item `(8,3)` is rejected and the
history stays as it was. -/
theorem addOrUpdate_error_iff_witness :
    (∃ err, (AddOrUpdateVersionHistoryItem ⟨[], [⟨3, 0⟩, ⟨6, 4⟩]⟩ ⟨8, 3⟩).2 = some err ∧
      err ≠ .panic) ∧
    (AddOrUpdateVersionHistoryItem ⟨[], [⟨3, 0⟩, ⟨6, 4⟩]⟩ ⟨8, 3⟩).2 ≠ none ∧
    (AddOrUpdateVersionHistoryItem ⟨[], [⟨3, 0⟩, ⟨6, 4⟩]⟩ ⟨8, 3⟩).1.Items
      = [⟨3, 0⟩, ⟨6, 4⟩] :=
  ⟨((addOrUpdate_error_iff ⟨[], [⟨3, 0⟩, ⟨6, 4⟩]⟩ ⟨8, 3⟩).1 ⟨6, 4⟩ (by decide)).2
      (Or.inl (by decide)),
   (((addOrUpdate_error_iff ⟨[], [⟨3, 0⟩, ⟨6, 4⟩]⟩ ⟨8, 3⟩).2.2.2.2 (by decide)).1
      ⟨6, 4⟩ (by decide)).2 (Or.inl (by decide)),
   ((addOrUpdate_error_iff ⟨[], [⟨3, 0⟩, ⟨6, 4⟩]⟩ ⟨8, 3⟩).2.2.1 (by decide)).1⟩

/-- C9 as stated fails: on the history `[(-5,-9)]` (event ID `-5`, version
`-9`) the item `(-3,-9)` is accepted and replaces the event ID of the last
item, and `GetLastVersionHistoryItem` then panics on the copy of the stored
item instead of returning it. -/
theorem addOrUpdate_effect_counterexample :
    AddOrUpdateVersionHistoryItem ⟨[], [⟨-5, -9⟩]⟩ ⟨-3, -9⟩ = (⟨[], [⟨-3, -9⟩]⟩, none) ∧
    GetLastVersionHistoryItem (AddOrUpdateVersionHistoryItem ⟨[], [⟨-5, -9⟩]⟩ ⟨-3, -9⟩).1
      = .error .panic ∧
    GetLastVersionHistoryItem (AddOrUpdateVersionHistoryItem ⟨[], [⟨-5, -9⟩]⟩ ⟨-3, -9⟩).1
      ≠ .ok ⟨-3, -9⟩ := by
  decide

/-- C9, amended: effect of a successful `AddOrUpdateVersionHistoryItem`.  On a history
`init ++ [last]`: a higher version appends the item (one more item); the same
version replaces the event ID of the last item (same number of items); the
items before the last one are unchanged.  In every case, also on an empty
history, the given item is then the last item, and for a valid item (event
ID and version not negative) `GetLastVersionHistoryItem`, which copies it,
returns it. -/
theorem addOrUpdate_effect (v : VersionHistory) (item : VersionHistoryItem)
    (hok : (AddOrUpdateVersionHistoryItem v item).2 = none) :
    (∀ init last, v.Items = init ++ [last] →
      (item.Version > last.Version →
        (AddOrUpdateVersionHistoryItem v item).1.Items = v.Items ++ [item] ∧
        (AddOrUpdateVersionHistoryItem v item).1.Items.length = v.Items.length + 1) ∧
      (item.Version = last.Version →
        (AddOrUpdateVersionHistoryItem v item).1.Items
          = init ++ [{ last with EventId := item.EventId }] ∧
        (AddOrUpdateVersionHistoryItem v item).1.Items.length = v.Items.length) ∧
      (item.Version > last.Version ∨ item.Version = last.Version) ∧
      (AddOrUpdateVersionHistoryItem v item).1.Items.take init.length = init) ∧
    (AddOrUpdateVersionHistoryItem v item).1.Items.getLast? = some item ∧
    (ValidItem item →
      GetLastVersionHistoryItem (AddOrUpdateVersionHistoryItem v item).1 = .ok item) := by
  have hlast : (AddOrUpdateVersionHistoryItem v item).1.Items.getLast? = some item := by
    have hcore := addOrUpdate_eq_core_of_ok v item hok
    rw [hcore] at hok ⊢
    rcases items_nil_or_concat v.Items with h | ⟨init, last, h⟩
    · rw [addOrUpdateCore_nil v item h]
      simp
    · rw [addOrUpdateCore_concat v item init last h] at hok ⊢
      split_ifs at hok ⊢ with h1 h2 h3
      · simp
      · have hv : item.Version = last.Version := by omega
        simp [← hv]
  refine ⟨?_, hlast, fun hv => getLast_of_valid _ item hlast hv⟩
  have hcore := addOrUpdate_eq_core_of_ok v item hok
  rw [hcore] at hok ⊢
  rcases items_nil_or_concat v.Items with h | ⟨init, last, h⟩
  · intro init last h2
    rw [h] at h2
    simp at h2
  · rw [addOrUpdateCore_concat v item init last h] at hok ⊢
    intro init2 last2 h2
    rw [h] at h2
    obtain ⟨hi, hl⟩ := List.append_inj' h2 rfl
    simp only [List.cons.injEq, and_true] at hl
    subst hi; subst hl
    split_ifs at hok ⊢ with h1 h2 h3
    · refine ⟨fun _ => ?_, fun h4 => ?_, Or.inl h3, ?_⟩
      · simp [h]
      · omega
      · simp
    · refine ⟨fun h4 => absurd h4 h3, fun _ => ?_, Or.inr (by omega), ?_⟩
      · simp [h]
      · simp

/-- Witness for the amended C9 on `[(3,0),(6,4)]` and the item `(8,4)`. -/
theorem addOrUpdate_effect_witness :
    GetLastVersionHistoryItem
      (AddOrUpdateVersionHistoryItem ⟨[], [⟨3, 0⟩, ⟨6, 4⟩]⟩ ⟨8, 4⟩).1 = .ok ⟨8, 4⟩ :=
  (addOrUpdate_effect ⟨[], [⟨3, 0⟩, ⟨6, 4⟩]⟩ ⟨8, 4⟩ (by decide)).2.2 (by decide)

/-- C6: `ContainsVersionHistoryItem` characterises the event ranges of a
history.  For a history with strictly increasing versions and event IDs, an
item `(e, v)` is contained if and only if some index `i` holds an item of
version `v` with `prev < e ≤ EventId`, where `prev` is the event ID of the
item at `i - 1`, or `FirstEventID - 1 = 0` when `i = 0`. -/
theorem contains_iff_in_range (h : VersionHistory) (item : VersionHistoryItem)
    (hs : StrictlyIncreasing h.Items) :
    ContainsVersionHistoryItem h item = true ↔
      ∃ i cur, h.Items[i]? = some cur ∧ cur.Version = item.Version ∧
        prevEventIDAt (FirstEventID - 1) h.Items i < item.EventId ∧
        item.EventId ≤ cur.EventId := by
  constructor
  · exact containsLoop_sound item h.Items (FirstEventID - 1)
  · rintro ⟨i, cur, hi, hv, hp, he⟩
    exact containsLoop_complete item h.Items (FirstEventID - 1)
      (strictlyIncreasing_pairwise hs) i cur hi hv hp he

/-- Witness for C6: in `[(3,0),(6,4)]` the item `(5,4)` lies in the range
`3 < 5 ≤ 6` of index `1`. -/
theorem contains_iff_in_range_witness :
    ContainsVersionHistoryItem ⟨[], [⟨3, 0⟩, ⟨6, 4⟩]⟩ ⟨5, 4⟩ = true ∧
    (FirstEventID - 1 = 0) :=
  ⟨(contains_iff_in_range ⟨[], [⟨3, 0⟩, ⟨6, 4⟩]⟩ ⟨5, 4⟩ (by simp [StrictlyIncreasing])).2
      ⟨1, ⟨6, 4⟩, by decide, by decide, by decide, by decide⟩,
   by decide⟩

/-- C7 as stated fails: the history `[(3,-2)]` (event ID `3`, version `-2`) is
not empty and the event ID `2` lies between `FirstEventID` and the event ID of
the last item, where the claim has the version `-2` returned; the call panics
on the copy of the last item. -/
theorem getEventVersion_counterexample :
    StrictlyIncreasing (VersionHistory.Items ⟨[], [⟨3, -2⟩]⟩) ∧
    ¬ ((VersionHistory.Items ⟨[], [⟨3, -2⟩]⟩) = [] ∨ (2 : Int) < FirstEventID ∨
      ∃ last, (VersionHistory.Items ⟨[], [⟨3, -2⟩]⟩).getLast? = some last ∧
        (2 : Int) > last.EventId) ∧
    (VersionHistory.Items ⟨[], [⟨3, -2⟩]⟩).find? (fun it => decide ((2 : Int) ≤ it.EventId))
      = some ⟨3, -2⟩ ∧
    GetVersionHistoryEventVersion ⟨[], [⟨3, -2⟩]⟩ 2 = .error .panic ∧
    GetVersionHistoryEventVersion ⟨[], [⟨3, -2⟩]⟩ 2 ≠ .ok (-2) := by
  refine ⟨by simp [StrictlyIncreasing], ?_, by decide, by decide, by decide⟩
  rintro (h | h | ⟨last, hl, h⟩)
  · cases h
  · revert h
    decide
  · simp only [List.getLast?_singleton, Option.some.injEq] at hl
    subst hl
    revert h
    decide

/-- C7, amended: for a history whose last item is valid (its event ID and
version are not negative), `GetVersionHistoryEventVersion` returns an
error if and only if the history is empty, or the event ID is below
`FirstEventID = 1`, or it is above the event ID of the last item; otherwise it
returns the version of the first item whose event ID is at least the input
event ID (this holds for every such history, in particular for those with
strictly increasing event IDs).  The error returned is never the panic. -/
theorem getEventVersion_spec (v : VersionHistory) (eventID : Int)
    (hv : ∀ last, v.Items.getLast? = some last → ValidItem last) :
    ((∃ err, GetVersionHistoryEventVersion v eventID = .error err) ↔
      (v.Items = [] ∨ eventID < FirstEventID ∨
        ∃ last, v.Items.getLast? = some last ∧ eventID > last.EventId)) ∧
    (¬ (v.Items = [] ∨ eventID < FirstEventID ∨
        ∃ last, v.Items.getLast? = some last ∧ eventID > last.EventId) →
      ∃ it, v.Items.find? (fun it => decide (eventID ≤ it.EventId)) = some it ∧
        GetVersionHistoryEventVersion v eventID = .ok it.Version) ∧
    GetVersionHistoryEventVersion v eventID ≠ .error .panic := by
  unfold GetVersionHistoryEventVersion GetLastVersionHistoryItem getLastVersionHistoryItem
  cases hl : v.Items.getLast? with
  | none =>
    have hnil : v.Items = [] := by simpa using hl
    simp [hnil]
  | some last =>
    have hne : v.Items ≠ [] := by
      intro h
      rw [h] at hl
      simp at hl
    simp only [copy_ok last (hv last hl)]
    by_cases hr : eventID < FirstEventID ∨ eventID > last.EventId
    · have hcond : eventID < FirstEventID ∨
          ∃ l, some last = some l ∧ eventID > l.EventId := by
        rcases hr with h | h
        · exact Or.inl h
        · exact Or.inr ⟨last, rfl, h⟩
      simp only [hne, false_or, if_pos hr]
      exact ⟨⟨fun _ => hcond, fun _ => ⟨_, rfl⟩⟩, fun hn => absurd hcond hn,
        fun h => by cases h⟩
    · have hle : eventID ≤ last.EventId := by omega
      obtain ⟨it, hit⟩ := find_isSome_of_le_last eventID v.Items last hl hle
      have hloop : eventVersionLoop eventID v.Items = .ok it.Version := by
        rw [eventVersionLoop_eq_find, hit]
      have hcond : ¬ (eventID < FirstEventID ∨
          ∃ l, some last = some l ∧ eventID > l.EventId) := by
        rintro (h | ⟨l, hl', h⟩)
        · exact hr (Or.inl h)
        · cases hl'
          exact hr (Or.inr h)
      simp only [hne, false_or, if_neg hr, hloop]
      refine ⟨⟨fun ⟨e, he⟩ => (by cases he), fun h => absurd h hcond⟩,
        fun _ => ⟨it, hit, rfl⟩, fun h => by cases h⟩

/-- Witness for the amended C7: in `[(3,0),(6,8),(8,12)]` event `4` has version `8`, the
version of the first item with event ID at least `4`. -/
theorem getEventVersion_spec_witness :
    ∃ it, ([⟨3, 0⟩, ⟨6, 8⟩, ⟨8, 12⟩] : List VersionHistoryItem).find?
        (fun it => decide ((4 : Int) ≤ it.EventId)) = some it ∧
      GetVersionHistoryEventVersion ⟨[], [⟨3, 0⟩, ⟨6, 8⟩, ⟨8, 12⟩]⟩ 4 = .ok it.Version :=
  (getEventVersion_spec ⟨[], [⟨3, 0⟩, ⟨6, 8⟩, ⟨8, 12⟩]⟩ 4
    (by intro last h; cases h; decide)).2.1 (by decide)

/-- C10: `SplitVersionHistoryByLastLocalGeneratedItem` partitions the list at
the last locally generated item.  For a non-zero `failoverVersionIncrement`
it returns, and the local list followed by the remote list is the input; no
remote item has `Version % failoverVersionIncrement == initialFailoverVersion`;
and the local list is empty or ends with an item that has. -/
theorem split_partitions (versionHistoryItems : List VersionHistoryItem)
    (initialFailoverVersion failoverVersionIncrement : Int)
    (hinc : failoverVersionIncrement ≠ 0) :
    ∃ localItems remoteItems,
      SplitVersionHistoryByLastLocalGeneratedItem versionHistoryItems
        initialFailoverVersion failoverVersionIncrement = some (localItems, remoteItems) ∧
      localItems ++ remoteItems = versionHistoryItems ∧
      (∀ x ∈ remoteItems,
        x.Version.tmod failoverVersionIncrement ≠ initialFailoverVersion) ∧
      (localItems = [] ∨ ∃ last, localItems.getLast? = some last ∧
        last.Version.tmod failoverVersionIncrement = initialFailoverVersion) :=
  splitLoop_spec versionHistoryItems initialFailoverVersion failoverVersionIncrement hinc
    versionHistoryItems.length (Nat.le_refl _) (by simp)

/-- Witness for C10 on the list of the test `LocalAndRemote`, with initial
failover version `1` and increment `1000`. -/
theorem split_partitions_witness :
    ∃ localItems remoteItems,
      SplitVersionHistoryByLastLocalGeneratedItem
        [⟨5, 1⟩, ⟨10, 2⟩, ⟨13, 3⟩, ⟨15, 1001⟩, ⟨20, 1004⟩, ⟨25, 1005⟩] 1 1000
        = some (localItems, remoteItems) ∧
      localItems ++ remoteItems
        = [⟨5, 1⟩, ⟨10, 2⟩, ⟨13, 3⟩, ⟨15, 1001⟩, ⟨20, 1004⟩, ⟨25, 1005⟩] ∧
      (∀ x ∈ remoteItems, x.Version.tmod 1000 ≠ 1) ∧
      (localItems = [] ∨ ∃ last, localItems.getLast? = some last ∧
        last.Version.tmod 1000 = 1) :=
  split_partitions [⟨5, 1⟩, ⟨10, 2⟩, ⟨13, 3⟩, ⟨15, 1001⟩, ⟨20, 1004⟩, ⟨25, 1005⟩] 1 1000
    (by decide)

theorem copyLoop_no_panic (lcaItem : VersionHistoryItem) (hvl : ValidItem lcaItem) :
    ∀ (rest : List VersionHistoryItem) (vh : VersionHistory),
      (∀ x ∈ rest, ValidItem x) → copyLoop lcaItem vh rest ≠ .error .panic := by
  intro rest
  induction rest with
  | nil => intro vh _ h; cases h
  | cons c rest ih =>
    intro vh hvalid
    have hvc : ValidItem c := hvalid c (List.mem_cons_self _ _)
    have hvrest : ∀ x ∈ rest, ValidItem x := fun x hx => hvalid x (List.mem_cons_of_mem _ hx)
    unfold copyLoop
    split_ifs
    · rw [addOrUpdate_eq_core_of_valid vh c hvc]
      have hnp := addOrUpdateCore_no_panic vh c
      rcases hr : addOrUpdateCore vh c with ⟨vh2, e⟩
      rw [hr] at hnp
      cases e with
      | none => exact ih vh2 hvrest
      | some err =>
        simp only
        intro h
        cases h
        exact hnp rfl
    · intro h; cases h
    · rw [addOrUpdate_eq_core_of_valid vh lcaItem hvl]
      have hnp := addOrUpdateCore_no_panic vh lcaItem
      rcases hr : addOrUpdateCore vh lcaItem with ⟨vh2, e⟩
      rw [hr] at hnp
      cases e with
      | none => intro h; cases h
      | some err =>
        simp only
        intro h
        cases h
        exact hnp rfl
    · intro h; cases h

/-- C8 as stated fails: on the history `[(3,0)]` (event ID `3`, version `0`)
and the item with event ID `0` and version `0` the copy succeeds although the
history does not contain the item; and on the history `[(1,-5),(3,0)]` and the
item `(5,0)`, which the history does not contain, the copy of the invalid
first item panics, so no error is returned. -/
theorem copyUntilLCA_counterexample :
    StrictlyIncreasing (VersionHistory.Items ⟨[], [⟨3, 0⟩]⟩) ∧
    CopyVersionHistoryUntilLCAVersionHistoryItem ⟨[], [⟨3, 0⟩]⟩ ⟨0, 0⟩
      = .ok ⟨[], [⟨0, 0⟩]⟩ ∧
    ContainsVersionHistoryItem ⟨[], [⟨3, 0⟩]⟩ ⟨0, 0⟩ = false ∧
    ¬ ((∃ err, CopyVersionHistoryUntilLCAVersionHistoryItem ⟨[], [⟨3, 0⟩]⟩ ⟨0, 0⟩
          = .error err) ↔
        ContainsVersionHistoryItem ⟨[], [⟨3, 0⟩]⟩ ⟨0, 0⟩ = false) ∧
    StrictlyIncreasing (VersionHistory.Items ⟨[], [⟨1, -5⟩, ⟨3, 0⟩]⟩) ∧
    CopyVersionHistoryUntilLCAVersionHistoryItem ⟨[], [⟨1, -5⟩, ⟨3, 0⟩]⟩ ⟨5, 0⟩
      = .error .panic ∧
    ContainsVersionHistoryItem ⟨[], [⟨1, -5⟩, ⟨3, 0⟩]⟩ ⟨5, 0⟩ = false := by
  refine ⟨by simp [StrictlyIncreasing], by decide, by decide, ?_,
    by simp [StrictlyIncreasing], by decide, by decide⟩
  intro h
  obtain ⟨err, herr⟩ := h.2 (by decide)
  have hok : CopyVersionHistoryUntilLCAVersionHistoryItem ⟨[], [⟨3, 0⟩]⟩ ⟨0, 0⟩
      = .ok ⟨[], [⟨0, 0⟩]⟩ := by decide
  rw [hok] at herr
  cases herr

/-- C8, amended: for a history with strictly increasing versions and event
IDs whose items are valid and a valid item whose event ID is at least
`FirstEventID`, `CopyVersionHistoryUntilLCAVersionHistoryItem` returns an
error if and only if `ContainsVersionHistoryItem` is false; it does not
panic. -/
theorem copyUntilLCA_error_iff (h : VersionHistory) (lcaItem : VersionHistoryItem)
    (hs : StrictlyIncreasing h.Items) (hid : FirstEventID ≤ lcaItem.EventId)
    (hv : ∀ x ∈ h.Items, ValidItem x) (hvl : 0 ≤ lcaItem.Version) :
    ((∃ err, CopyVersionHistoryUntilLCAVersionHistoryItem h lcaItem = .error err) ↔
      ContainsVersionHistoryItem h lcaItem = false) ∧
    CopyVersionHistoryUntilLCAVersionHistoryItem h lcaItem ≠ .error .panic := by
  have hvalid : ValidItem lcaItem := by
    unfold FirstEventID at hid
    exact ⟨by omega, hvl⟩
  unfold CopyVersionHistoryUntilLCAVersionHistoryItem ContainsVersionHistoryItem
  refine ⟨?_, copyLoop_no_panic lcaItem hvalid h.Items _ hv⟩
  apply copyLoop_error_iff lcaItem hvalid h.Items _ _ (strictlyIncreasing_pairwise hs) hv
  left
  refine ⟨rfl, ?_⟩
  unfold FirstEventID at hid ⊢
  omega

/-- Witness for the amended C8: `[(3,0),(6,4)]` does not contain `(7,4)` and
the copy fails. -/
theorem copyUntilLCA_error_iff_witness :
    (∃ err, CopyVersionHistoryUntilLCAVersionHistoryItem ⟨[], [⟨3, 0⟩, ⟨6, 4⟩]⟩ ⟨7, 4⟩
      = .error err) :=
  (copyUntilLCA_error_iff ⟨[], [⟨3, 0⟩, ⟨6, 4⟩]⟩ ⟨7, 4⟩
    (by simp [StrictlyIncreasing]) (by decide) (by decide) (by decide)).1.2 (by decide)

/-- On lists of valid items `IsVersionHistoryItemsInSameBranch` does not panic
and compares the LCA with the two last items. -/
theorem sameBranch_of_valid (a b : List VersionHistoryItem)
    (hva : ∀ x ∈ a, ValidItem x) (hvb : ∀ y ∈ b, ValidItem y) :
    IsVersionHistoryItemsInSameBranch a b =
      .ok (match findLCACore a b, a.getLast?, b.getLast? with
        | .ok lca, some la, some lb => decide (lca = la) || decide (lca = lb)
        | _, _, _ => false) := by
  unfold IsVersionHistoryItemsInSameBranch
  rw [findLCA_eq_core a b hvb]
  cases hl : findLCACore a b with
  | error e =>
    have he : e = .malformed := lcaLoopCore_error _ _ e hl
    subst he
    rfl
  | ok lca =>
    cases ha : a.getLast? with
    | none =>
      have : getLastVersionHistoryItem a = .error .empty := by
        unfold getLastVersionHistoryItem
        rw [ha]
      rw [this]
    | some la =>
      rw [getLast_of_valid a la ha (hva la (List.mem_of_getLast?_eq_some ha))]
      cases hb : b.getLast? with
      | none =>
        have : getLastVersionHistoryItem b = .error .empty := by
          unfold getLastVersionHistoryItem
          rw [hb]
        rw [this]
      | some lb =>
        rw [getLast_of_valid b lb hb (hvb lb (List.mem_of_getLast?_eq_some hb))]

/-- C5 as stated fails.  For `a = b = [(-1,0)]` (event ID `-1`, version `0`)
both lists are non-empty, the LCA search succeeds with `(-1,0)`, the last item
of both, and the call panics on the copy of the last item instead of returning
true.  For `a = [(5,-1),(9,3)]` and `b = [(3,-1),(8,4)]` the call panics on
`(a, b)`, in the copy of `(3,-1)`, and returns false on `(b, a)`. -/
theorem sameBranch_counterexample :
    FindLCAVersionHistoryItemFromItemSlice [⟨-1, 0⟩] [⟨-1, 0⟩] = .ok ⟨-1, 0⟩ ∧
    ([⟨-1, 0⟩] : List VersionHistoryItem).getLast? = some ⟨-1, 0⟩ ∧
    IsVersionHistoryItemsInSameBranch [⟨-1, 0⟩] [⟨-1, 0⟩] = .error .panic ∧
    IsVersionHistoryItemsInSameBranch [⟨-1, 0⟩] [⟨-1, 0⟩] ≠ .ok true ∧
    IsVersionHistoryItemsInSameBranch [⟨5, -1⟩, ⟨9, 3⟩] [⟨3, -1⟩, ⟨8, 4⟩] = .error .panic ∧
    IsVersionHistoryItemsInSameBranch [⟨3, -1⟩, ⟨8, 4⟩] [⟨5, -1⟩, ⟨9, 3⟩] = .ok false := by
  decide

/-- C5, amended: on lists of valid items (event IDs and versions not
negative) `IsVersionHistoryItemsInSameBranch` returns
true if and only if both lists are non-empty,
`FindLCAVersionHistoryItemFromItemSlice` succeeds and the LCA item equals the
last item of the first or of the second list; it does not panic; and the
result does not depend on the order of the two lists. -/
theorem sameBranch_iff_and_comm (a b : List VersionHistoryItem)
    (hva : ∀ x ∈ a, ValidItem x) (hvb : ∀ y ∈ b, ValidItem y) :
    (IsVersionHistoryItemsInSameBranch a b = .ok true ↔
      a ≠ [] ∧ b ≠ [] ∧ ∃ lca, FindLCAVersionHistoryItemFromItemSlice a b = .ok lca ∧
        (a.getLast? = some lca ∨ b.getLast? = some lca)) ∧
    (∃ r, IsVersionHistoryItemsInSameBranch a b = .ok r) ∧
    IsVersionHistoryItemsInSameBranch a b = IsVersionHistoryItemsInSameBranch b a := by
  refine ⟨?_, ⟨_, sameBranch_of_valid a b hva hvb⟩, ?_⟩
  · rw [sameBranch_of_valid a b hva hvb, findLCA_eq_core a b hvb]
    cases hl : findLCACore a b with
    | error e => simp
    | ok lca =>
      cases ha : a.getLast? with
      | none => simp at ha; simp [ha]
      | some la =>
        have hane : a ≠ [] := by rintro rfl; simp at ha
        cases hb : b.getLast? with
        | none => simp at hb; simp [hb]
        | some lb =>
          have hbne : b ≠ [] := by rintro rfl; simp at hb
          simp only [Except.ok.injEq, Bool.or_eq_true, decide_eq_true_eq]
          constructor
          · intro h
            refine ⟨hane, hbne, lca, rfl, ?_⟩
            rcases h with h | h
            · exact Or.inl (by rw [h])
            · exact Or.inr (by rw [h])
          · rintro ⟨_, _, l2, h1, h2⟩
            cases h1
            rcases h2 with h | h
            · exact Or.inl (Option.some.inj h).symm
            · exact Or.inr (Option.some.inj h).symm
  · rw [sameBranch_of_valid a b hva hvb, sameBranch_of_valid b a hvb hva,
      findLCACore_comm b a]
    cases findLCACore a b with
    | error e => rfl
    | ok lca =>
      cases a.getLast? <;> cases b.getLast? <;> simp [Bool.or_comm]

/-- Witness for the amended C5: `[(3,0),(5,4)]` is a prefix branch of `[(3,0),(5,4),(7,6)]`,
in either order. -/
theorem sameBranch_iff_and_comm_witness :
    IsVersionHistoryItemsInSameBranch [⟨3, 0⟩, ⟨5, 4⟩] [⟨3, 0⟩, ⟨5, 4⟩, ⟨7, 6⟩] = .ok true ∧
    IsVersionHistoryItemsInSameBranch [⟨3, 0⟩, ⟨5, 4⟩] [⟨3, 0⟩, ⟨5, 4⟩, ⟨7, 6⟩] =
      IsVersionHistoryItemsInSameBranch [⟨3, 0⟩, ⟨5, 4⟩, ⟨7, 6⟩] [⟨3, 0⟩, ⟨5, 4⟩] :=
  ⟨by decide,
   (sameBranch_iff_and_comm [⟨3, 0⟩, ⟨5, 4⟩] [⟨3, 0⟩, ⟨5, 4⟩, ⟨7, 6⟩]
      (by decide) (by decide)).2.2⟩

/-- C4 as stated fails: the lists `[(5,-1)]` and `[(3,-1)]` (event ID, version)
have strictly increasing versions and the common version `-1`, so the
reference result is the item with version `-1` and event ID `min 5 3 = 3`; the
search panics on the copy of the item of the second list. -/
theorem findLCA_reference_counterexample :
    VersionsIncreasing [⟨5, -1⟩] ∧ VersionsIncreasing [⟨3, -1⟩] ∧
    lcaReference [⟨5, -1⟩] [⟨3, -1⟩] = .ok ⟨3, -1⟩ ∧
    FindLCAVersionHistoryItemFromItemSlice [⟨5, -1⟩] [⟨3, -1⟩] = .error .panic ∧
    FindLCAVersionHistoryItemFromItemSlice [⟨5, -1⟩] [⟨3, -1⟩] ≠
      lcaReference [⟨5, -1⟩] [⟨3, -1⟩] :=
  ⟨by simp [VersionsIncreasing], by simp [VersionsIncreasing], by decide, by decide,
    by decide⟩

/-- C4, amended: `FindLCAVersionHistoryItemFromItemSlice` equals its reference
definition on lists with strictly increasing versions, the items of the
second list, the ones the search copies, being valid (event ID and version
not negative).  If `x` in the first
list and `y` in the second carry the largest common version `v`, the result is
`(v, min x.EventId y.EventId)`; if no version is common (in particular if a
list is empty) the result is the error; so the function agrees with
`lcaReference`.  On the local and remote lists of the scenario the result is
the item with version `6` and event ID `6`. -/
theorem findLCA_eq_reference (a b : List VersionHistoryItem)
    (ha : VersionsIncreasing a) (hb : VersionsIncreasing b)
    (hvb : ∀ y ∈ b, ValidItem y) :
    FindLCAVersionHistoryItemFromItemSlice a b = lcaReference a b ∧
    (∀ x ∈ a, ∀ y ∈ b, x.Version = y.Version →
      (∀ x2 ∈ a, ∀ y2 ∈ b, x2.Version = y2.Version → x2.Version ≤ x.Version) →
      FindLCAVersionHistoryItemFromItemSlice a b
        = .ok { EventId := min x.EventId y.EventId, Version := x.Version }) ∧
    ((∀ x ∈ a, ∀ y ∈ b, x.Version ≠ y.Version) →
      FindLCAVersionHistoryItemFromItemSlice a b = .error .malformed) ∧
    (a = [] ∨ b = [] → FindLCAVersionHistoryItemFromItemSlice a b = .error .malformed) ∧
    FindLCAVersionHistoryItemFromItemSlice
      [⟨3, 0⟩, ⟨5, 4⟩, ⟨7, 6⟩, ⟨9, 10⟩] [⟨3, 0⟩, ⟨5, 4⟩, ⟨6, 6⟩, ⟨11, 12⟩]
      = .ok ⟨6, 6⟩ := by
  have hscenario : FindLCAVersionHistoryItemFromItemSlice
      [⟨3, 0⟩, ⟨5, 4⟩, ⟨7, 6⟩, ⟨9, 10⟩] [⟨3, 0⟩, ⟨5, 4⟩, ⟨6, 6⟩, ⟨11, 12⟩]
      = .ok ⟨6, 6⟩ := by decide
  rw [hscenario, findLCA_eq_core a b hvb]
  refine ⟨?_, fun x hx y hy hxy hmax => findLCACore_of_largest a b ha hb x y hx hy hxy hmax,
    findLCACore_of_no_common a b, ?_, by decide⟩
  · by_cases hc : ∃ x ∈ a, ∃ y ∈ b, x.Version = y.Version
    · obtain ⟨x, hx, y, hy, hxy⟩ := hc
      have hda := reverse_versions_desc
        ((versionsIncreasing_pairwise ha).imp (fun h => le_of_lt h))
      have hdb := reverse_versions_desc
        ((versionsIncreasing_pairwise hb).imp (fun h => le_of_lt h))
      obtain ⟨l, hl⟩ := lcaLoopCore_ok_of_common a.reverse b.reverse hda hdb
        ⟨x, List.mem_reverse.mpr hx, y, List.mem_reverse.mpr hy, hxy⟩
      obtain ⟨x0, hx0, y0, hy0, hxy0, hl0⟩ := lcaLoopCore_ok_mem _ _ l hl
      have hmax : ∀ x2 ∈ a, ∀ y2 ∈ b, x2.Version = y2.Version →
          x2.Version ≤ x0.Version := by
        intro x2 hx2 y2 hy2 h2
        have := lcaLoopCore_ok_max _ _ l hda hdb hl x2 (List.mem_reverse.mpr hx2)
          y2 (List.mem_reverse.mpr hy2) h2
        rw [hl0] at this
        exact this
      rw [findLCACore_of_largest a b ha hb x0 y0 (List.mem_reverse.mp hx0)
          (List.mem_reverse.mp hy0) hxy0 hmax,
        lcaReference_of_largest a b ha hb x0 y0 (List.mem_reverse.mp hx0)
          (List.mem_reverse.mp hy0) hxy0 hmax]
    · have hno : ∀ x ∈ a, ∀ y ∈ b, x.Version ≠ y.Version :=
        fun x hx y hy hxy => hc ⟨x, hx, y, hy, hxy⟩
      rw [findLCACore_of_no_common a b hno]
      unfold lcaReference
      rw [largestCommonVersion_of_no_common a b hno]
  · rintro (rfl | rfl)
    · exact findLCACore_of_no_common _ _ (fun x hx => by cases hx)
    · exact findLCACore_of_no_common _ _ (fun x _ y hy => by cases hy)

/-- Witness for the amended C4 on the local and remote histories of the scenario: the
function and the reference definition agree there. -/
theorem findLCA_eq_reference_witness :
    FindLCAVersionHistoryItemFromItemSlice
      [⟨3, 0⟩, ⟨5, 4⟩, ⟨7, 6⟩, ⟨9, 10⟩] [⟨3, 0⟩, ⟨5, 4⟩, ⟨6, 6⟩, ⟨11, 12⟩]
      = lcaReference
        [⟨3, 0⟩, ⟨5, 4⟩, ⟨7, 6⟩, ⟨9, 10⟩] [⟨3, 0⟩, ⟨5, 4⟩, ⟨6, 6⟩, ⟨11, 12⟩] :=
  (findLCA_eq_reference
    [⟨3, 0⟩, ⟨5, 4⟩, ⟨7, 6⟩, ⟨9, 10⟩] [⟨3, 0⟩, ⟨5, 4⟩, ⟨6, 6⟩, ⟨11, 12⟩]
    (by simp [VersionsIncreasing]) (by simp [VersionsIncreasing]) (by decide)).1

/-- C3 as stated fails: the histories `[(5,1),(7,2)]` and `[(3,2)]` (event ID,
version) satisfy the monotonicity invariant, their LCA is `(3,2)`, and the
first history does not contain it, because event `3` belongs to version `1`
there. -/
theorem findLCA_contains_counterexample :
    Monotonic (VersionHistory.Items ⟨[], [⟨5, 1⟩, ⟨7, 2⟩]⟩) ∧
    Monotonic (VersionHistory.Items ⟨[], [⟨3, 2⟩]⟩) ∧
    FindLCAVersionHistoryItem ⟨[], [⟨5, 1⟩, ⟨7, 2⟩]⟩ ⟨[], [⟨3, 2⟩]⟩ = .ok ⟨3, 2⟩ ∧
    ContainsVersionHistoryItem ⟨[], [⟨5, 1⟩, ⟨7, 2⟩]⟩ ⟨3, 2⟩ = false :=
  ⟨by simp [Monotonic], by simp [Monotonic], by decide, by decide⟩

/-- C3, amended: for two histories that satisfy the monotonicity invariant and
whose LCA is `l`: a history contains `l` provided `l.EventId` is at least
`FirstEventID` and above the event ID of every item of that history with a
version below `l.Version`; and no item of the first history with an event ID
above `l.EventId` is contained in the second. -/
theorem findLCA_correct (a b : VersionHistory) (l : VersionHistoryItem)
    (ha : Monotonic a.Items) (hb : Monotonic b.Items)
    (h : FindLCAVersionHistoryItem a b = .ok l) :
    ((FirstEventID ≤ l.EventId ∧
        ∀ z ∈ a.Items, z.Version < l.Version → z.EventId < l.EventId) →
      ContainsVersionHistoryItem a l = true) ∧
    ((FirstEventID ≤ l.EventId ∧
        ∀ z ∈ b.Items, z.Version < l.Version → z.EventId < l.EventId) →
      ContainsVersionHistoryItem b l = true) ∧
    (∀ x ∈ a.Items, x.EventId > l.EventId → ContainsVersionHistoryItem b x = false) := by
  have hpa := monotonic_pairwise ha
  have hpb := monotonic_pairwise hb
  unfold FindLCAVersionHistoryItem FindLCAVersionHistoryItemFromItemSlice at h
  have h := lcaLoop_ok_core _ _ l h
  obtain ⟨x0, hx0, y0, hy0, hxy0, hl0⟩ := lcaLoopCore_ok_mem _ _ l h
  have hx0' := List.mem_reverse.mp hx0
  have hy0' := List.mem_reverse.mp hy0
  have hlv : l.Version = x0.Version := by rw [hl0]
  have hle : l.EventId = min x0.EventId y0.EventId := by rw [hl0]
  have hfirst : ∀ e : Int, FirstEventID ≤ e → FirstEventID - 1 < e := by
    intro e he
    omega
  refine ⟨?_, ?_, ?_⟩
  · rintro ⟨hid, hlow⟩
    exact containsLoop_of_matched l a.Items _ hpa
      ⟨x0, hx0', hlv.symm, by rw [hle]; exact min_le_left _ _⟩ (hfirst _ hid) hlow
  · rintro ⟨hid, hlow⟩
    exact containsLoop_of_matched l b.Items _ hpb
      ⟨y0, hy0', by rw [hlv, hxy0], by rw [hle]; exact min_le_right _ _⟩ (hfirst _ hid) hlow
  · intro x hx hgt
    by_contra hc
    have hc' : ContainsVersionHistoryItem b x = true := by
      cases hcb : ContainsVersionHistoryItem b x with
      | true => rfl
      | false => exact absurd hcb hc
    obtain ⟨y, hy, hyv, hye⟩ := contains_mem_of_true b x hc'
    have hda : a.Items.reverse.Pairwise
        (fun x y => y.Version ≤ x.Version ∧ y.EventId ≤ x.EventId) :=
      List.pairwise_reverse.mpr (hpa.imp (fun h => ⟨h.1, le_of_lt h.2⟩))
    have hdb : b.Items.reverse.Pairwise
        (fun x y => y.Version ≤ x.Version ∧ y.EventId ≤ x.EventId) :=
      List.pairwise_reverse.mpr (hpb.imp (fun h => ⟨h.1, le_of_lt h.2⟩))
    have := lcaLoopCore_ok_event _ _ l hda hdb h x (List.mem_reverse.mpr hx)
      y (List.mem_reverse.mpr hy) hyv.symm
    omega

/-- Witness for the amended C3 on the local and remote histories of the
scenario, whose LCA is `(6,6)`. -/
theorem findLCA_correct_witness :
    ContainsVersionHistoryItem ⟨[], [⟨3, 0⟩, ⟨5, 4⟩, ⟨7, 6⟩, ⟨9, 10⟩]⟩ ⟨6, 6⟩ = true ∧
    ContainsVersionHistoryItem ⟨[], [⟨3, 0⟩, ⟨5, 4⟩, ⟨6, 6⟩, ⟨11, 12⟩]⟩ ⟨6, 6⟩ = true ∧
    ContainsVersionHistoryItem ⟨[], [⟨3, 0⟩, ⟨5, 4⟩, ⟨6, 6⟩, ⟨11, 12⟩]⟩ ⟨7, 6⟩ = false :=
  have h := findLCA_correct
    ⟨[], [⟨3, 0⟩, ⟨5, 4⟩, ⟨7, 6⟩, ⟨9, 10⟩]⟩ ⟨[], [⟨3, 0⟩, ⟨5, 4⟩, ⟨6, 6⟩, ⟨11, 12⟩]⟩ ⟨6, 6⟩
    (by simp [Monotonic]) (by simp [Monotonic]) (by decide)
  ⟨h.1 (by decide), h.2.1 (by decide), h.2.2 ⟨7, 6⟩ (by decide) (by decide)⟩

end versionhistory

namespace collection

/-! ## The indexed take list: lemmas -/

theorem takeLoop_ok_iff {K V : Type} [DecidableEq K] [Inhabited V] (key : K)
    (vals : List (kv K V)) :
    (takeLoop key vals).2.2 = true ↔
      ∃ e, vals.find? (fun e => decide (e.key = key)) = some e ∧ e.removed = false := by
  induction vals with
  | nil => simp [takeLoop]
  | cons e rest ih =>
    unfold takeLoop
    by_cases hk : e.key = key
    · rw [if_neg (by simpa using hk)]
      cases hr : e.removed <;> simp [hk, hr]
    · rw [if_pos hk]
      simp [hk, ih]

theorem takeLoop_value {K V : Type} [DecidableEq K] [Inhabited V] (key : K)
    (vals : List (kv K V)) (e : kv K V)
    (hf : vals.find? (fun e => decide (e.key = key)) = some e) (hr : e.removed = false) :
    (takeLoop key vals).2.1 = e.value := by
  induction vals with
  | nil => simp at hf
  | cons c rest ih =>
    unfold takeLoop
    by_cases hk : c.key = key
    · rw [if_neg (by simpa using hk)]
      simp [hk] at hf
      subst hf
      simp [hr]
    · rw [if_pos hk]
      simp [hk] at hf
      exact ih hf

theorem takeLoop_fail {K V : Type} [DecidableEq K] [Inhabited V] (key : K)
    (vals : List (kv K V)) (h : (takeLoop key vals).2.2 = false) :
    takeLoop key vals = (vals, default, false) := by
  induction vals with
  | nil => rfl
  | cons c rest ih =>
    unfold takeLoop at h ⊢
    by_cases hk : c.key = key
    · rw [if_neg (by simpa using hk)] at h ⊢
      cases hr : c.removed
      · simp [hr] at h
      · simp
    · rw [if_pos hk] at h ⊢
      simp only at h
      rw [ih h]

theorem takeLoop_blocked_of_ok {K V : Type} [DecidableEq K] [Inhabited V] (key : K)
    (vals : List (kv K V)) (h : (takeLoop key vals).2.2 = true) :
    Blocked key (takeLoop key vals).1 := by
  induction vals with
  | nil => simp [takeLoop] at h
  | cons c rest ih =>
    unfold takeLoop at h ⊢
    by_cases hk : c.key = key
    · rw [if_neg (by simpa using hk)] at h ⊢
      cases hr : c.removed
      · intro e he
        simp [hr, hk] at he
        rw [← he]
      · simp [hr] at h
    · rw [if_pos hk] at h ⊢
      simp only at h
      intro e he
      simp only [List.find?_cons, hk, decide_False] at he
      exact ih h e he

theorem takeLoop_preserves_blocked {K V : Type} [DecidableEq K] [Inhabited V]
    (key other : K) (vals : List (kv K V)) (hb : Blocked key vals) :
    Blocked key (takeLoop other vals).1 := by
  induction vals with
  | nil => simpa [takeLoop] using hb
  | cons c rest ih =>
    have hrest : c.key ≠ key → Blocked key rest := by
      intro hne e he
      apply hb e
      simp only [List.find?_cons, hne, decide_False]
      exact he
    unfold takeLoop
    by_cases hk : c.key = other
    · rw [if_neg (by simpa using hk)]
      cases hr : c.removed
      · intro e he
        by_cases hck : c.key = key
        · simp [hck] at he
          rw [← he]
        · simp only [Bool.false_eq_true, if_false, List.find?_cons, hck, decide_False] at he
          exact hrest hck e he
      · simpa [hr] using hb
    · rw [if_pos hk]
      intro e he
      by_cases hck : c.key = key
      · simp only [List.find?_cons, hck, decide_True] at he
        apply hb e
        simp only [List.find?_cons, hck, decide_True]
        exact he
      · simp only [List.find?_cons, hck, decide_False] at he
        exact ih (hrest hck) e he

theorem blocked_nil {K V : Type} [DecidableEq K] (key : K) :
    Blocked key ([] : List (kv K V)) := by
  intro e he
  simp at he

theorem applyOps_preserves_blocked {K V : Type} [DecidableEq K] [Inhabited V]
    (key : K) (ops : List (Op K)) :
    ∀ (itl : IndexedTakeList K V), Blocked key itl.values →
      Blocked key (applyOps itl ops).values := by
  induction ops with
  | nil => intro itl h; exact h
  | cons op ops ih =>
    intro itl h
    show Blocked key (applyOps (applyOp itl op) ops).values
    apply ih
    cases op with
    | take other => exact takeLoop_preserves_blocked key other itl.values h
    | takeRemaining => exact blocked_nil key

theorem take_of_blocked {K V : Type} [DecidableEq K] [Inhabited V]
    (key : K) (itl : IndexedTakeList K V) (h : Blocked key itl.values) :
    itl.Take key = (itl, default, false) := by
  have hfalse : (takeLoop key itl.values).2.2 = false := by
    cases hr : (takeLoop key itl.values).2.2 with
    | false => rfl
    | true =>
      obtain ⟨e, he, hrem⟩ := (takeLoop_ok_iff key itl.values).mp hr
      rw [h e he] at hrem
      cases hrem
  unfold IndexedTakeList.Take
  rw [takeLoop_fail key itl.values hfalse]

theorem takeRemainingLoop_new {K V : Type} (values : List V) (indexer : V → K) :
    takeRemainingLoop (NewIndexedTakeList values indexer).values = values := by
  unfold NewIndexedTakeList
  induction values with
  | nil => rfl
  | cons v vs ih => simpa [takeRemainingLoop] using ih

theorem takeLoop_remaining {K V : Type} [DecidableEq K] [Inhabited V] (key : K)
    (vals : List (kv K V)) (h : (takeLoop key vals).2.2 = true) :
    (takeRemainingLoop vals).Perm
        ((takeLoop key vals).2.1 :: takeRemainingLoop (takeLoop key vals).1) ∧
      (takeRemainingLoop (takeLoop key vals).1).Sublist (takeRemainingLoop vals) := by
  induction vals with
  | nil => simp [takeLoop] at h
  | cons c rest ih =>
    unfold takeLoop at h ⊢
    by_cases hk : c.key = key
    · rw [if_neg (by simpa using hk)] at h ⊢
      cases hr : c.removed
      · simp [hr, takeRemainingLoop]
      · simp [hr] at h
    · rw [if_pos hk] at h ⊢
      simp only at h ⊢
      obtain ⟨hp, hs⟩ := ih h
      cases hr : c.removed
      · simp only [takeRemainingLoop, hr, Bool.not_false, if_true]
        exact ⟨(hp.cons c.value).trans (List.Perm.swap _ _ _), hs.cons₂ _⟩
      · simp only [takeRemainingLoop, hr, Bool.not_true, Bool.false_eq_true, if_false]
        exact ⟨hp, hs⟩

theorem takeAll_remaining {K V : Type} [DecidableEq K] [Inhabited V] (keys : List K) :
    ∀ (itl : IndexedTakeList K V),
      (takeRemainingLoop (takeAll itl keys).1.values).Sublist (takeRemainingLoop itl.values) ∧
      ((takeAll itl keys).2 ++ takeRemainingLoop (takeAll itl keys).1.values).Perm
        (takeRemainingLoop itl.values) := by
  induction keys with
  | nil => intro itl; exact ⟨List.Sublist.refl _, by simp [takeAll]⟩
  | cons k ks ih =>
    intro itl
    obtain ⟨hs, hp⟩ := ih (itl.Take k).1
    simp only [takeAll]
    cases hr : (itl.Take k).2.2 with
    | false =>
      have hsame : (itl.Take k).1 = itl := by
        have := takeLoop_fail k itl.values hr
        unfold IndexedTakeList.Take
        rw [this]
      rw [hsame] at hs hp
      rw [hsame]
      simp only [Bool.false_eq_true, if_false]
      exact ⟨hs, hp⟩
    | true =>
      obtain ⟨hp1, hs1⟩ := takeLoop_remaining k itl.values hr
      refine ⟨hs.trans hs1, ?_⟩
      simp only [if_true, List.cons_append]
      exact (hp.cons _).trans hp1.symm


/-! ## The indexed take list: theorems -/

/-- C11: `Take` removes what it returns.  `Take(key)` returns `(v, true)`
exactly when an entry with the key exists and the first such entry has not
been removed, `v` being the value of that entry; otherwise it returns
`(zero, false)` and leaves the list unchanged; and after a successful
`Take(key)` every later `Take(key)`, whatever operations come in between,
returns `(zero, false)`. -/
theorem take_removes_what_it_returns {K V : Type} [DecidableEq K] [Inhabited V]
    (itl : IndexedTakeList K V) (key : K) :
    ((itl.Take key).2.2 = true ↔
      ∃ e, itl.values.find? (fun e => decide (e.key = key)) = some e ∧ e.removed = false) ∧
    (∀ e, itl.values.find? (fun e => decide (e.key = key)) = some e → e.removed = false →
      (itl.Take key).2.1 = e.value) ∧
    ((itl.Take key).2.2 = false → itl.Take key = (itl, default, false)) ∧
    ((itl.Take key).2.2 = true → ∀ ops : List (Op K),
      (applyOps (itl.Take key).1 ops).Take key =
        (applyOps (itl.Take key).1 ops, default, false)) := by
  refine ⟨takeLoop_ok_iff key itl.values, takeLoop_value key itl.values, ?_, ?_⟩
  · intro h
    unfold IndexedTakeList.Take
    rw [takeLoop_fail key itl.values h]
  · intro h ops
    apply take_of_blocked
    apply applyOps_preserves_blocked
    exact takeLoop_blocked_of_ok key itl.values h

/-- Witness for C11: on the values `[10, 21, 30]` indexed by their last digit,
`Take 0` returns `10`, and after a `Take 1` a second `Take 0` returns
`(0, false)` although `30` has the same key. -/
theorem take_removes_what_it_returns_witness :
    ((NewIndexedTakeList [10, 21, 30] (fun v : Nat => v % 10)).Take 0).2 = (10, true) ∧
    (applyOps ((NewIndexedTakeList [10, 21, 30] (fun v : Nat => v % 10)).Take 0).1
        [Op.take 1]).Take 0 =
      (applyOps ((NewIndexedTakeList [10, 21, 30] (fun v : Nat => v % 10)).Take 0).1
        [Op.take 1], 0, false) :=
  ⟨by decide,
   (take_removes_what_it_returns
      (NewIndexedTakeList [10, 21, 30] (fun v : Nat => v % 10)) 0).2.2.2
      (by decide) [Op.take 1]⟩

/-- C12: `TakeRemaining` returns exactly the values not removed by an earlier
successful `Take`, in the order given to `NewIndexedTakeList`, and empties the
list.  After any sequence of `Take` calls on a new list the returned slice is
a sublist of the original values and, together with the values the successful
calls returned, a permutation of them; afterwards every `Take` returns
`(zero, false)` and a second `TakeRemaining` returns nothing. -/
theorem takeRemaining_returns_the_rest {K V : Type} [DecidableEq K] [Inhabited V]
    (values : List V) (indexer : V → K) (keys : List K) :
    ((takeAll (NewIndexedTakeList values indexer) keys).1.TakeRemaining.2).Sublist values ∧
    ((takeAll (NewIndexedTakeList values indexer) keys).2 ++
      (takeAll (NewIndexedTakeList values indexer) keys).1.TakeRemaining.2).Perm values ∧
    (takeAll (NewIndexedTakeList values indexer) keys).1.TakeRemaining.1.values = [] ∧
    (∀ (ops : List (Op K)) (key : K),
      ((applyOps (takeAll (NewIndexedTakeList values indexer) keys).1.TakeRemaining.1
          ops).Take key).2 = (default, false)) ∧
    (takeAll (NewIndexedTakeList values indexer) keys).1.TakeRemaining.1.TakeRemaining.2
      = [] := by
  obtain ⟨hs, hp⟩ := takeAll_remaining keys (NewIndexedTakeList values indexer)
  rw [takeRemainingLoop_new] at hs hp
  refine ⟨hs, hp, rfl, ?_, rfl⟩
  intro ops key
  have hb : Blocked key
      (takeAll (NewIndexedTakeList values indexer) keys).1.TakeRemaining.1.values :=
    blocked_nil key
  rw [take_of_blocked key _ (applyOps_preserves_blocked key ops _ hb)]

end collection

namespace sqlplugin

/-! ## History-node transaction IDs -/

theorem neg64_neg64 (t : Int) (h : IsInt64 t) : neg64 (neg64 t) = t := by
  unfold IsInt64 at h
  unfold neg64 wrap64
  omega

theorem neg64_row_roundtrip (rows : List HistoryNodeRow) (h : ∀ r ∈ rows, IsInt64 r.TxnID) :
    (rows.map (fun r => { r with TxnID := neg64 r.TxnID })).map
      (fun r => { r with TxnID := neg64 r.TxnID }) = rows := by
  induction rows with
  | nil => rfl
  | cons r rs ih =>
    simp only [List.map_cons]
    rw [ih (fun x hx => h x (List.mem_cons_of_mem _ hx)),
      neg64_neg64 r.TxnID (h r (List.mem_cons_self _ _))]

/-- C20: the negation of the history-node transaction ID round-trips.  In the
PostgreSQL and in the SQLite plugin `InsertIntoHistoryNode` makes the one call
`NamedExecContext` of the insert statement with the row whose `TxnID` is
negated, and returns the result of that call; `RangeSelectFromHistoryNode`
negates the `TxnID` of every row the database returns; and for `int64`
transaction IDs a select that returns the rows as they were sent yields the
rows as they were written. -/
theorem txnID_negation_roundtrip (conn : Conn) (filter : HistoryNodeSelectFilter)
    (rows : List HistoryNodeRow) (h : ∀ r ∈ rows, IsInt64 r.TxnID) :
    (∀ r,
      postgresql.InsertIntoHistoryNode conn r =
        ({ r with TxnID := neg64 r.TxnID },
          conn.namedExec .addHistoryNodes { r with TxnID := neg64 r.TxnID }) ∧
      sqlite.InsertIntoHistoryNode conn r =
        ({ r with TxnID := neg64 r.TxnID },
          conn.namedExec .addHistoryNodes { r with TxnID := neg64 r.TxnID })) ∧
    (∀ stored, conn.select (selectQuery filter) (selectArgs filter) = some stored →
      postgresql.RangeSelectFromHistoryNode conn filter
        = some (stored.map (fun r => { r with TxnID := neg64 r.TxnID })) ∧
      sqlite.RangeSelectFromHistoryNode conn filter
        = some (stored.map (fun r => { r with TxnID := neg64 r.TxnID }))) ∧
    (conn.select (selectQuery filter) (selectArgs filter)
        = some (rows.map (fun r => (postgresql.InsertIntoHistoryNode conn r).1)) →
      postgresql.RangeSelectFromHistoryNode conn filter = some rows) ∧
    (conn.select (selectQuery filter) (selectArgs filter)
        = some (rows.map (fun r => (sqlite.InsertIntoHistoryNode conn r).1)) →
      sqlite.RangeSelectFromHistoryNode conn filter = some rows) ∧
    (∀ t, IsInt64 t → neg64 (neg64 t) = t) := by
  refine ⟨fun r => ⟨rfl, rfl⟩, ?_, ?_, ?_, neg64_neg64⟩
  · intro stored hs
    unfold postgresql.RangeSelectFromHistoryNode sqlite.RangeSelectFromHistoryNode
    rw [hs]
    exact ⟨rfl, rfl⟩
  · intro hs
    unfold postgresql.RangeSelectFromHistoryNode
    rw [hs]
    unfold postgresql.InsertIntoHistoryNode
    simp only
    rw [neg64_row_roundtrip rows h]
  · intro hs
    unfold sqlite.RangeSelectFromHistoryNode
    rw [hs]
    unfold sqlite.InsertIntoHistoryNode
    simp only
    rw [neg64_row_roundtrip rows h]

/-- Witness for C20: a row with the smallest `int64` as `TxnID`, whose
negation wraps to itself, and a row with `TxnID` `7`, read back through a
database that returns what it was sent. -/
theorem txnID_negation_roundtrip_witness :
    postgresql.RangeSelectFromHistoryNode
      { namedExec := fun _ _ => some 1,
        select := fun _ _ => some
          [⟨1, [], [], 1, 0, -9223372036854775808, [], ""⟩, ⟨1, [], [], 2, 0, -7, [], ""⟩] }
      ⟨1, [], [], 1, 0, 10, 0, 10, false, false⟩
      = some [⟨1, [], [], 1, 0, -9223372036854775808, [], ""⟩, ⟨1, [], [], 2, 0, 7, [], ""⟩] :=
  (txnID_negation_roundtrip
      { namedExec := fun _ _ => some 1,
        select := fun _ _ => some
          [⟨1, [], [], 1, 0, -9223372036854775808, [], ""⟩, ⟨1, [], [], 2, 0, -7, [], ""⟩] }
      ⟨1, [], [], 1, 0, 10, 0, 10, false, false⟩
      [⟨1, [], [], 1, 0, -9223372036854775808, [], ""⟩, ⟨1, [], [], 2, 0, 7, [], ""⟩]
      (by decide)).2.2.1 (by decide)

end sqlplugin

namespace history

/-! ## Outbound queue task executors -/

/-- C18: namespace handover defers active outbound tasks.  When the task
resolves to a state-machine task and the replication state of the namespace
is `HANDOVER`, `Execute` responds with `ErrNamespaceHandover` and
`ExecutedAsActive = true`, and `ExecuteImmediateTask` is not called. -/
theorem handover_defers_active_task (env : ActiveEnv) (ref : Nat × Nat)
    (hsmt : env.stateMachineTask = .ok ref)
    (hstate : env.replicationState = .handover) :
    (outboundQueueActiveTaskExecutor.Execute env).1.ExecutionErr = some .namespaceHandover ∧
    (outboundQueueActiveTaskExecutor.Execute env).1.ExecutedAsActive = true ∧
    Call.executeImmediateTask ∉ (outboundQueueActiveTaskExecutor.Execute env).2 := by
  unfold outboundQueueActiveTaskExecutor.Execute
  rw [hsmt]
  simp [hstate, activeRespond]

/-- Witness for C18: a task in a namespace in handover; the task would run
without error if it were executed. -/
theorem handover_defers_active_task_witness :
    (outboundQueueActiveTaskExecutor.Execute
      { namespaceTag := "ns", replicationState := .handover, taskType := "t",
        stateMachineTask := .ok (1, 2), validateTaskByClock := none,
        executeImmediateTask := fun _ _ => none }).1.ExecutionErr
      = some .namespaceHandover :=
  (handover_defers_active_task
      { namespaceTag := "ns", replicationState := .handover, taskType := "t",
        stateMachineTask := .ok (1, 2), validateTaskByClock := none,
        executeImmediateTask := fun _ _ => none } (1, 2) rfl rfl).1

/-- C19: stale references are swallowed on standby.  When `processTask`
reaches the access of the state-machine reference: an access error that is
`ErrStaleReference` gives `nil`; any other access error is returned; and when
the access succeeds the result is never `nil`: it is `ErrTaskDiscarded` if
the current time is after the visibility time plus the discard delay, and
otherwise `ErrTaskRetry`, wrapped in a destination-down error when so
configured. -/
theorem standby_processTask_after_access (env : StandbyEnv) (nsRecord : NamespaceRecord)
    (ref : Nat × Nat)
    (hns : env.getNamespaceByID = .ok nsRecord)
    (hcluster : nsRecord.isOnCluster env.clusterName = true)
    (hclock : env.validateTaskByClock = none)
    (hsmt : env.stateMachineTask = .ok ref) :
    (∀ err, env.access = some err → errorsIs err .staleReference = true →
      (outboundQueueStandbyTaskExecutor.processTask env).1 = none) ∧
    (∀ err, env.access = some err → errorsIs err .staleReference = false →
      (outboundQueueStandbyTaskExecutor.processTask env).1 = some err) ∧
    (env.access = none →
      (outboundQueueStandbyTaskExecutor.processTask env).1 ≠ none ∧
      (env.now > env.visibilityTime +
          env.discardDelay nsRecord.name (env.destination.getD "") →
        (outboundQueueStandbyTaskExecutor.processTask env).1 = some .taskDiscarded) ∧
      (¬ env.now > env.visibilityTime +
          env.discardDelay nsRecord.name (env.destination.getD "") →
        (outboundQueueStandbyTaskExecutor.processTask env).1 =
          if env.destinationDownErr nsRecord.name (env.destination.getD "") then
            some (.destinationDown "standby task executor returned retryable error"
              .taskRetry)
          else some .taskRetry)) := by
  unfold outboundQueueStandbyTaskExecutor.processTask
  rw [hns]
  simp only [hcluster, hclock, hsmt, Bool.not_true, Bool.false_eq_true, if_false]
  refine ⟨?_, ?_, ?_⟩
  · intro err ha hstale
    simp [ha, hstale]
  · intro err ha hstale
    simp [ha, hstale]
  · intro ha
    simp only [ha]
    refine ⟨?_, ?_, ?_⟩
    · split_ifs <;> simp
    · intro hnow
      rw [if_pos hnow]
    · intro hnow
      rw [if_neg hnow]
      split_ifs <;> rfl

/-- Witness for C19: the access fails with an error that wraps
`ErrStaleReference`, and the task is dropped without error. -/
theorem standby_processTask_after_access_witness :
    (outboundQueueStandbyTaskExecutor.processTask
      { clusterName := "standby",
        getNamespaceByID := .ok { name := "ns", isOnCluster := fun _ => true },
        validateTaskByClock := none, stateMachineTask := .ok (1, 2),
        access := some (.wrapped .staleReference), destination := none,
        visibilityTime := 0, now := 5, discardDelay := fun _ _ => 10,
        destinationDownErr := fun _ _ => false }).1 = none :=
  (standby_processTask_after_access
      { clusterName := "standby",
        getNamespaceByID := .ok { name := "ns", isOnCluster := fun _ => true },
        validateTaskByClock := none, stateMachineTask := .ok (1, 2),
        access := some (.wrapped .staleReference), destination := none,
        visibilityTime := 0, now := 5, discardDelay := fun _ _ => 10,
        destinationDownErr := fun _ _ => false }
      { name := "ns", isOnCluster := fun _ => true } (1, 2) rfl rfl rfl rfl).1
      (.wrapped .staleReference) rfl (by decide)

end history

namespace workerdeployment

/-! ## The worker-deployment workflow: lemmas -/

theorem frame_refl (d : WorkflowRunner) : Frame d d :=
  ⟨rfl, rfl, rfl, [], by simp, by simp⟩

theorem frame_trans {d1 d2 d3 : WorkflowRunner} (h12 : Frame d1 d2) (h23 : Frame d2 d3) :
    Frame d1 d3 := by
  obtain ⟨hs1, hk1, hc1, e1, he1, hn1⟩ := h12
  obtain ⟨hs2, hk2, hc2, e2, he2, hn2⟩ := h23
  refine ⟨?_, hk2.trans hk1, hc2.trans hc1, e1 ++ e2, ?_, ?_⟩
  · rw [hs2, hs1]
  · rw [he2, he1, List.append_assoc]
  · intro p n hmem
    rcases List.mem_append.mp hmem with h | h
    · exact hn1 p n h
    · exact hn2 p n h

theorem frame_record (d : WorkflowRunner) (call : Call)
    (h : ∀ p n, call ≠ .isVersionMissingTaskQueues p n) : Frame d (d.record call) := by
  refine ⟨rfl, rfl, rfl, [call], rfl, ?_⟩
  intro p n hmem
  simp only [List.mem_singleton] at hmem
  exact h p n hmem.symm

theorem frame_withVersions (d : WorkflowRunner)
    (versions : List (String × WorkerDeploymentVersionSummary))
    (h : keys versions = keys d.State.Versions) : Frame d (d.withVersions versions) :=
  ⟨rfl, h, rfl, [], by simp [WorkflowRunner.withVersions], by simp⟩

theorem keys_store_of_present (m : List (String × WorkerDeploymentVersionSummary))
    (key : String) (summary : WorkerDeploymentVersionSummary)
    (h : (lookup m key).isSome = true) : keys (store m key summary) = keys m := by
  unfold store
  rw [if_pos h]
  unfold keys
  rw [List.map_map]
  apply List.map_congr_left
  intro kv _
  by_cases hk : kv.1 = key
  · simp [hk]
  · simp [hk]

theorem frame_updateVersionSummary (d : WorkflowRunner)
    (summary : WorkerDeploymentVersionSummary) : Frame d (d.updateVersionSummary summary) := by
  unfold WorkflowRunner.updateVersionSummary
  cases hl : lookup d.State.Versions summary.Version with
  | none => exact frame_refl d
  | some existing =>
    simp only
    apply frame_withVersions
    have hsome : (lookup d.State.Versions summary.Version).isSome = true := by simp [hl]
    split_ifs <;> exact keys_store_of_present _ _ _ hsome

theorem frame_setDrainageStatus (d : WorkflowRunner) (version : String)
    (status : VersionDrainageStatus) (t : Option Time) :
    Frame d (d.setDrainageStatus version status t) := by
  unfold WorkflowRunner.setDrainageStatus
  cases hl : lookup d.State.Versions version with
  | none => exact frame_refl d
  | some existing =>
    simp only
    apply frame_withVersions
    exact keys_store_of_present _ _ _ (by simp [hl])

theorem frame_syncVersion (d : WorkflowRunner) (env : Env) (target : String)
    (args : SyncVersionStateUpdateArgs) (activated : Bool) :
    Frame d (d.syncVersion env target args activated).1 := by
  unfold WorkflowRunner.syncVersion
  have hrec : Frame d (d.record (.syncVersion target activated)) :=
    frame_record d _ (fun p n h => by cases h)
  cases env.syncVersion target args activated with
  | some err => exact hrec
  | none => exact frame_trans hrec (frame_updateVersionSummary _ _)

theorem frame_syncUnversionedRamp (d : WorkflowRunner) (env : Env)
    (args : SyncVersionStateUpdateArgs) : Frame d (d.syncUnversionedRamp env args).1 :=
  frame_record d _ (fun p n h => by cases h)

theorem frame_unsetRamp (unv : String) (d : WorkflowRunner) (env : Env) (prev : String)
    (t : Time) : Frame d (d.unsetRamp unv env prev t).1 := by
  unfold WorkflowRunner.unsetRamp
  split_ifs
  · exact frame_syncVersion _ _ _ _ _
  · exact frame_syncUnversionedRamp _ _ _


theorem stateFrame_of_frame {d d' : WorkflowRunner} (h : Frame d d') : StateFrame d d' :=
  ⟨h.1, h.2.1⟩

theorem noCheck_of_frame {d d' : WorkflowRunner} (h : Frame d d') : NoCheck d d' :=
  h.2.2.2

theorem noCheck_trans {d1 d2 d3 : WorkflowRunner} (h12 : NoCheck d1 d2) (h23 : NoCheck d2 d3) :
    NoCheck d1 d3 := by
  obtain ⟨e1, he1, hn1⟩ := h12
  obtain ⟨e2, he2, hn2⟩ := h23
  refine ⟨e1 ++ e2, by rw [he2, he1, List.append_assoc], ?_⟩
  intro p n hmem
  rcases List.mem_append.mp hmem with h | h
  · exact hn1 p n h
  · exact hn2 p n h

theorem stateFrame_trans {d1 d2 d3 : WorkflowRunner} (h12 : StateFrame d1 d2)
    (h23 : StateFrame d2 d3) : StateFrame d1 d3 := by
  obtain ⟨hs1, hk1⟩ := h12
  obtain ⟨hs2, hk2⟩ := h23
  exact ⟨by rw [hs2, hs1], hk2.trans hk1⟩

/-- What the tail of `handleSetCurrent` does: it writes the routing
configuration, the conflict token and the identity, calls the memo upsert,
and answers with the previous version and the new token. -/
theorem finishSetCurrent_spec (d : WorkflowRunner) (env : Env) (args : SetCurrentVersionArgs)
    (prev : String) (t : Time) :
    (d.finishSetCurrent env args prev t).1.State =
      { d.State with
        RoutingConfig := routingAfterSetCurrent d.State.RoutingConfig args.Version t,
        ConflictToken := env.marshalBinary t,
        LastModifierIdentity := args.Identity } ∧
    (d.finishSetCurrent env args prev t).1.calls = d.calls ++ [.updateMemo] ∧
    (∀ resp, (d.finishSetCurrent env args prev t).2 = .ok resp →
      resp = { PreviousVersion := prev, ConflictToken := env.marshalBinary t }) := by
  unfold WorkflowRunner.finishSetCurrent WorkflowRunner.updateMemo routingAfterSetCurrent
    WorkflowRunner.record WorkflowRunner.setStateChanged
  simp only
  by_cases hv : args.Version = d.State.RoutingConfig.RampingVersion
  · simp only [hv, if_true]
    cases env.updateMemo _ with
    | some err => exact ⟨rfl, rfl, fun resp h => by cases h⟩
    | none => exact ⟨rfl, rfl, fun resp h => by cases h; rfl⟩
  · simp only [hv, if_false]
    cases env.updateMemo _ with
    | some err => exact ⟨rfl, rfl, fun resp h => by cases h⟩
    | none => exact ⟨rfl, rfl, fun resp h => by cases h; rfl⟩

theorem syncPrevCurrent_outcome (unv : String) (d : WorkflowRunner) (env : Env)
    (args : SetCurrentVersionArgs) (prev : String) (t : Time) :
    (∃ err, (d.syncPrevCurrent unv env args prev t).2 = .error err ∧
      Frame d (d.syncPrevCurrent unv env args prev t).1) ∨
    (∃ d1, Frame d d1 ∧
      d.syncPrevCurrent unv env args prev t = d1.finishSetCurrent env args prev t) := by
  unfold WorkflowRunner.syncPrevCurrent
  by_cases hp : prev ≠ unv
  · rw [if_pos hp]
    have hf := frame_syncVersion d env prev
      { RoutingUpdateTime := some t, CurrentSinceTime := none,
        RampingSinceTime := none, RampPercentage := Float32.zero } false
    cases hs : d.syncVersion env prev
      { RoutingUpdateTime := some t, CurrentSinceTime := none,
        RampingSinceTime := none, RampPercentage := Float32.zero } false with
    | mk d2 res =>
      rw [hs] at hf
      cases res with
      | some err => exact Or.inl ⟨err, rfl, hf⟩
      | none =>
        exact Or.inr ⟨_, frame_trans hf (frame_setDrainageStatus _ _ _ _), rfl⟩
  · rw [if_neg hp]
    exact Or.inr ⟨d, frame_refl d, rfl⟩

theorem syncNewCurrent_outcome (unv : String) (d : WorkflowRunner) (env : Env)
    (args : SetCurrentVersionArgs) (prev : String) (t : Time) :
    (∃ err, (d.syncNewCurrent unv env args prev t).2 = .error err ∧
      Frame d (d.syncNewCurrent unv env args prev t).1) ∨
    (∃ d1, Frame d d1 ∧
      d.syncNewCurrent unv env args prev t = d1.finishSetCurrent env args prev t) := by
  have lift : ∀ d2, Frame d d2 →
      (∃ err, (d2.syncPrevCurrent unv env args prev t).2 = .error err ∧
        Frame d (d2.syncPrevCurrent unv env args prev t).1) ∨
      (∃ d1, Frame d d1 ∧
        d2.syncPrevCurrent unv env args prev t = d1.finishSetCurrent env args prev t) := by
    intro d2 h2
    rcases syncPrevCurrent_outcome unv d2 env args prev t with ⟨err, he, hf⟩ | ⟨d1, hf, he⟩
    · exact Or.inl ⟨err, he, frame_trans h2 hf⟩
    · exact Or.inr ⟨d1, frame_trans h2 hf, he⟩
  unfold WorkflowRunner.syncNewCurrent
  simp only
  by_cases hn : args.Version ≠ unv
  · rw [if_pos hn]
    have hf := frame_syncVersion d env args.Version
      { RoutingUpdateTime := some t, CurrentSinceTime := some t,
        RampingSinceTime := none, RampPercentage := Float32.zero } true
    cases hs : d.syncVersion env args.Version
      { RoutingUpdateTime := some t, CurrentSinceTime := some t,
        RampingSinceTime := none, RampPercentage := Float32.zero } true with
    | mk d2 res =>
      rw [hs] at hf
      cases res with
      | some err => exact Or.inl ⟨err, rfl, hf⟩
      | none => exact lift _ (frame_trans hf (frame_setDrainageStatus _ _ _ _))
  · rw [if_neg hn]
    by_cases hr : d.State.RoutingConfig.RampingVersion = unv
    · rw [if_pos hr]
      have hf := frame_syncUnversionedRamp d env
        { RoutingUpdateTime := some t, RampingSinceTime := none,
          RampPercentage := Float32.zero }
      cases hs : d.syncUnversionedRamp env
        { RoutingUpdateTime := some t, RampingSinceTime := none,
          RampPercentage := Float32.zero } with
      | mk d2 res =>
        rw [hs] at hf
        cases res with
        | some err => exact Or.inl ⟨err, rfl, hf⟩
        | none => exact lift _ hf
    · rw [if_neg hr]
      exact lift d (frame_refl d)


theorem stateFrame_record (d : WorkflowRunner) (call : Call) : StateFrame d (d.record call) :=
  ⟨rfl, rfl⟩

theorem handleSetCurrent_lock_failed (unv : String) (d : WorkflowRunner) (env : Env)
    (args : SetCurrentVersionArgs) (err : Error) (h : env.lock = some err) :
    d.handleSetCurrent unv env args = (d.record .lock, .error .deadlineExceeded) := by
  unfold WorkflowRunner.handleSetCurrent
  simp only [h]

theorem handleSetCurrent_invalid (unv : String) (d : WorkflowRunner) (env : Env)
    (args : SetCurrentVersionArgs) (err : Error) (hl : env.lock = none)
    (h : d.validateStateBeforeAcceptingSetCurrent unv args = some err) :
    d.handleSetCurrent unv env args = (d.record .lock, .error err) := by
  have h2 : (d.record .lock).validateStateBeforeAcceptingSetCurrent unv args = some err := h
  unfold WorkflowRunner.handleSetCurrent
  simp only [hl, h2]

/-- The run of `handleSetCurrent` once the lock is taken and the validation
has passed, when the missing-task-queue check is due. -/
theorem handleSetCurrent_checked (unv : String) (d : WorkflowRunner) (env : Env)
    (args : SetCurrentVersionArgs) (hl : env.lock = none)
    (hv : d.validateStateBeforeAcceptingSetCurrent unv args = none)
    (hi : args.IgnoreMissingTaskQueues = false)
    (hp : d.State.RoutingConfig.CurrentVersion ≠ unv) (hn : args.Version ≠ unv) :
    d.handleSetCurrent unv env args =
      match env.isVersionMissingTaskQueues d.State.RoutingConfig.CurrentVersion
          args.Version with
      | (_, some err) =>
        ((d.record .lock).record (.isVersionMissingTaskQueues
          d.State.RoutingConfig.CurrentVersion args.Version), .error err)
      | (true, none) =>
        ((d.record .lock).record (.isVersionMissingTaskQueues
          d.State.RoutingConfig.CurrentVersion args.Version),
          .error (.failedPrecondition .ErrCurrentVersionDoesNotHaveAllTaskQueues))
      | (false, none) =>
        ((d.record .lock).record (.isVersionMissingTaskQueues
          d.State.RoutingConfig.CurrentVersion args.Version)).syncNewCurrent unv env args
          d.State.RoutingConfig.CurrentVersion env.now := by
  have h2 : (d.record .lock).validateStateBeforeAcceptingSetCurrent unv args = none := hv
  have hgate : (!args.IgnoreMissingTaskQueues) = true ∧
      (d.record .lock).State.RoutingConfig.CurrentVersion ≠ unv ∧ args.Version ≠ unv :=
    ⟨by simp [hi], hp, hn⟩
  unfold WorkflowRunner.handleSetCurrent
  simp only [hl, h2]
  rw [if_pos hgate]
  unfold WorkflowRunner.isVersionMissingTaskQueues
  rcases hm : env.isVersionMissingTaskQueues d.State.RoutingConfig.CurrentVersion args.Version
    with ⟨missing, err⟩
  have hm2 : env.isVersionMissingTaskQueues
      (d.record .lock).State.RoutingConfig.CurrentVersion args.Version = (missing, err) := hm
  rw [hm2]
  cases err <;> cases missing <;> rfl

/-- The run of `handleSetCurrent` once the lock is taken and the validation
has passed, when the missing-task-queue check is skipped. -/
theorem handleSetCurrent_unchecked (unv : String) (d : WorkflowRunner) (env : Env)
    (args : SetCurrentVersionArgs) (hl : env.lock = none)
    (hv : d.validateStateBeforeAcceptingSetCurrent unv args = none)
    (hgate : args.IgnoreMissingTaskQueues = true ∨
      d.State.RoutingConfig.CurrentVersion = unv ∨ args.Version = unv) :
    d.handleSetCurrent unv env args =
      (d.record .lock).syncNewCurrent unv env args
        d.State.RoutingConfig.CurrentVersion env.now := by
  have h2 : (d.record .lock).validateStateBeforeAcceptingSetCurrent unv args = none := hv
  have hclosed : ¬ ((!args.IgnoreMissingTaskQueues) = true ∧
      (d.record .lock).State.RoutingConfig.CurrentVersion ≠ unv ∧ args.Version ≠ unv) := by
    rintro ⟨h1, h3, h4⟩
    rcases hgate with h | h | h
    · simp [h] at h1
    · exact h3 h
    · exact h4 h
  unfold WorkflowRunner.handleSetCurrent
  simp only [hl, h2]
  rw [if_neg hclosed]
  rfl

theorem handleSetCurrent_outcome (unv : String) (d : WorkflowRunner) (env : Env)
    (args : SetCurrentVersionArgs) :
    (∃ err, (d.handleSetCurrent unv env args).2 = .error err ∧
      StateFrame d (d.handleSetCurrent unv env args).1) ∨
    (env.lock = none ∧ d.validateStateBeforeAcceptingSetCurrent unv args = none ∧
      ∃ d1, StateFrame d d1 ∧
        d.handleSetCurrent unv env args =
          d1.finishSetCurrent env args d.State.RoutingConfig.CurrentVersion env.now) := by
  have lift : ∀ d2, StateFrame d d2 →
      d.handleSetCurrent unv env args =
        d2.syncNewCurrent unv env args d.State.RoutingConfig.CurrentVersion env.now →
      env.lock = none → d.validateStateBeforeAcceptingSetCurrent unv args = none →
      (∃ err, (d.handleSetCurrent unv env args).2 = .error err ∧
        StateFrame d (d.handleSetCurrent unv env args).1) ∨
      (env.lock = none ∧ d.validateStateBeforeAcceptingSetCurrent unv args = none ∧
        ∃ d1, StateFrame d d1 ∧
          d.handleSetCurrent unv env args =
            d1.finishSetCurrent env args d.State.RoutingConfig.CurrentVersion env.now) := by
    intro d2 h2 heq hl hv
    rw [heq]
    rcases syncNewCurrent_outcome unv d2 env args d.State.RoutingConfig.CurrentVersion env.now
      with ⟨err, he, hf⟩ | ⟨d1, hf, he⟩
    · exact Or.inl ⟨err, he, stateFrame_trans h2 (stateFrame_of_frame hf)⟩
    · exact Or.inr ⟨hl, hv, d1, stateFrame_trans h2 (stateFrame_of_frame hf), he⟩
  have hlock : (∃ err, env.lock = some err) ∨ env.lock = none := by
    cases env.lock with
    | some err => exact Or.inl ⟨err, rfl⟩
    | none => exact Or.inr rfl
  have hvalid : (∃ err, d.validateStateBeforeAcceptingSetCurrent unv args = some err) ∨
      d.validateStateBeforeAcceptingSetCurrent unv args = none := by
    cases d.validateStateBeforeAcceptingSetCurrent unv args with
    | some err => exact Or.inl ⟨err, rfl⟩
    | none => exact Or.inr rfl
  rcases hlock with ⟨err, hl⟩ | hl
  · rw [handleSetCurrent_lock_failed unv d env args err hl]
    exact Or.inl ⟨_, rfl, stateFrame_record d _⟩
  · rcases hvalid with ⟨err, hv⟩ | hv
    · rw [handleSetCurrent_invalid unv d env args err hl hv]
      exact Or.inl ⟨_, rfl, stateFrame_record d _⟩
    · by_cases hgate : args.IgnoreMissingTaskQueues = true ∨
          d.State.RoutingConfig.CurrentVersion = unv ∨ args.Version = unv
      · exact lift _ (stateFrame_record d _)
          (handleSetCurrent_unchecked unv d env args hl hv hgate) hl hv
      · have hi : args.IgnoreMissingTaskQueues = false := by
          cases h : args.IgnoreMissingTaskQueues with
          | false => rfl
          | true => exact absurd (Or.inl h) hgate
        have hp : d.State.RoutingConfig.CurrentVersion ≠ unv :=
          fun h => hgate (Or.inr (Or.inl h))
        have hn : args.Version ≠ unv := fun h => hgate (Or.inr (Or.inr h))
        have hc := handleSetCurrent_checked unv d env args hl hv hi hp hn
        have hsf : StateFrame d ((d.record .lock).record (.isVersionMissingTaskQueues
            d.State.RoutingConfig.CurrentVersion args.Version)) := ⟨rfl, rfl⟩
        rcases hm : env.isVersionMissingTaskQueues d.State.RoutingConfig.CurrentVersion
          args.Version with ⟨missing, err⟩
        rw [hm] at hc
        cases err with
        | some e =>
          cases missing <;> (rw [hc]; exact Or.inl ⟨_, rfl, hsf⟩)
        | none =>
          cases missing with
          | true =>
            rw [hc]
            exact Or.inl ⟨_, rfl, hsf⟩
          | false => exact lift _ hsf hc hl hv


/-- What the tail of `handleSetRampingVersion` does to the state. -/
theorem finishSetRamping_spec (d : WorkflowRunner) (env : Env) (args : SetRampingVersionArgs)
    (prev : String) (prevPct : Float32) (t : Time) (rt : Option Time) :
    (d.finishSetRamping env args prev prevPct t rt).1.State =
      { d.State with
        RoutingConfig :=
          { d.State.RoutingConfig with
            RampingVersion := args.Version,
            RampingVersionPercentage := args.Percentage,
            RampingVersionChangedTime := rt },
        ConflictToken := env.marshalBinary t,
        LastModifierIdentity := args.Identity } := by
  unfold WorkflowRunner.finishSetRamping WorkflowRunner.updateMemo
    WorkflowRunner.record WorkflowRunner.setStateChanged
  simp only
  cases env.updateMemo _ <;> rfl

theorem setRamp_outcome (unv : String) (d : WorkflowRunner) (env : Env)
    (args : SetRampingVersionArgs) (prev : String) (prevPct : Float32) (t : Time)
    (st rt : Option Time) :
    (∃ err, (d.setRamp unv env args prev prevPct t st rt).2 = .error err ∧
      Frame d (d.setRamp unv env args prev prevPct t st rt).1) ∨
    (∃ d1, Frame d d1 ∧
      d.setRamp unv env args prev prevPct t st rt =
        d1.finishSetRamping env args prev prevPct t rt) := by
  unfold WorkflowRunner.setRamp
  simp only
  have hsync : Frame d
      (if args.Version ≠ unv then
        d.syncVersion env args.Version
          { RoutingUpdateTime := some t, RampingSinceTime := st,
            RampPercentage := args.Percentage } true
      else d.syncUnversionedRamp env
          { RoutingUpdateTime := some t, RampingSinceTime := st,
            RampPercentage := args.Percentage }).1 := by
    split_ifs
    · exact frame_syncVersion _ _ _ _ _
    · exact frame_syncUnversionedRamp _ _ _
  rcases hs : (if args.Version ≠ unv then
        d.syncVersion env args.Version
          { RoutingUpdateTime := some t, RampingSinceTime := st,
            RampPercentage := args.Percentage } true
      else d.syncUnversionedRamp env
          { RoutingUpdateTime := some t, RampingSinceTime := st,
            RampPercentage := args.Percentage }) with ⟨d2, res⟩
  rw [hs] at hsync
  cases res with
  | some err => exact Or.inl ⟨err, rfl, hsync⟩
  | none =>
    simp only
    by_cases hp : prev ≠ "" ∧ prev ≠ args.Version
    · rw [if_pos hp]
      have hu := frame_unsetRamp unv d2 env prev t
      rcases hu2 : d2.unsetRamp unv env prev t with ⟨d3, res3⟩
      rw [hu2] at hu
      cases res3 with
      | some err => exact Or.inl ⟨err, rfl, frame_trans hsync hu⟩
      | none =>
        exact Or.inr ⟨_, frame_trans (frame_trans hsync hu)
          (frame_setDrainageStatus _ _ _ _), rfl⟩
    · rw [if_neg hp]
      exact Or.inr ⟨d2, hsync, rfl⟩

theorem handleSetRamping_outcome (unv : String) (d : WorkflowRunner) (env : Env)
    (args : SetRampingVersionArgs) :
    (∃ err, (d.handleSetRampingVersion unv env args).2 = .error err ∧
      StateFrame d (d.handleSetRampingVersion unv env args).1) ∨
    (d.validateStateBeforeAcceptingRampingUpdate unv args = none ∧
      ∃ d1 rt, StateFrame d d1 ∧
        d.handleSetRampingVersion unv env args =
          d1.finishSetRamping env args d.State.RoutingConfig.RampingVersion
            d.State.RoutingConfig.RampingVersionPercentage env.now rt) := by
  have hvalid : (∃ err, d.validateStateBeforeAcceptingRampingUpdate unv args = some err) ∨
      d.validateStateBeforeAcceptingRampingUpdate unv args = none := by
    cases d.validateStateBeforeAcceptingRampingUpdate unv args with
    | some err => exact Or.inl ⟨err, rfl⟩
    | none => exact Or.inr rfl
  unfold WorkflowRunner.handleSetRampingVersion
  simp only
  cases env.lock with
  | some err => exact Or.inl ⟨_, rfl, stateFrame_record d _⟩
  | none =>
    simp only
    rcases hvalid with ⟨err, hv⟩ | hv
    · have hv2 : (d.record .lock).validateStateBeforeAcceptingRampingUpdate unv args
          = some err := hv
      rw [hv2]
      exact Or.inl ⟨_, rfl, stateFrame_record d _⟩
    · have hv2 : (d.record .lock).validateStateBeforeAcceptingRampingUpdate unv args
          = none := hv
      rw [hv2]
      simp only
      have lift : ∀ d2 st rt, StateFrame d d2 →
          (∃ err, (d2.setRamp unv env args d.State.RoutingConfig.RampingVersion
              d.State.RoutingConfig.RampingVersionPercentage env.now st rt).2 = .error err ∧
            StateFrame d (d2.setRamp unv env args d.State.RoutingConfig.RampingVersion
              d.State.RoutingConfig.RampingVersionPercentage env.now st rt).1) ∨
          (d.validateStateBeforeAcceptingRampingUpdate unv args = none ∧
            ∃ d1 rt2, StateFrame d d1 ∧
              d2.setRamp unv env args d.State.RoutingConfig.RampingVersion
                d.State.RoutingConfig.RampingVersionPercentage env.now st rt =
              d1.finishSetRamping env args d.State.RoutingConfig.RampingVersion
                d.State.RoutingConfig.RampingVersionPercentage env.now rt2) := by
        intro d2 st rt h2
        rcases setRamp_outcome unv d2 env args d.State.RoutingConfig.RampingVersion
          d.State.RoutingConfig.RampingVersionPercentage env.now st rt
          with ⟨err, he, hf⟩ | ⟨d1, hf, he⟩
        · exact Or.inl ⟨err, he, stateFrame_trans h2 (stateFrame_of_frame hf)⟩
        · exact Or.inr ⟨hv, d1, rt, stateFrame_trans h2 (stateFrame_of_frame hf), he⟩
      by_cases hempty : args.Version = ""
      · rw [if_pos hempty]
        have hu := frame_unsetRamp unv (d.record .lock) env
          d.State.RoutingConfig.RampingVersion env.now
        rcases hu2 : (d.record .lock).unsetRamp unv env
          d.State.RoutingConfig.RampingVersion env.now with ⟨d3, res3⟩
        have hu3 : (d.record .lock).unsetRamp unv env
            (d.record .lock).State.RoutingConfig.RampingVersion env.now = (d3, res3) := hu2
        rw [hu2] at hu
        rw [hu3]
        cases res3 with
        | some err =>
          exact Or.inl ⟨err, rfl,
            stateFrame_trans (stateFrame_record d _) (stateFrame_of_frame hu)⟩
        | none =>
          exact Or.inr ⟨hv, _, _,
            stateFrame_trans (stateFrame_record d _)
              (stateFrame_of_frame (frame_trans hu (frame_setDrainageStatus _ _ _ _))), rfl⟩
      · rw [if_neg hempty]
        by_cases hsame : (d.record .lock).State.RoutingConfig.RampingVersion = args.Version
        · rw [if_pos hsame]
          exact lift _ _ _ (stateFrame_record d _)
        · rw [if_neg hsame]
          by_cases hgate : (!args.IgnoreMissingTaskQueues) = true ∧
              (d.record .lock).State.RoutingConfig.CurrentVersion ≠ unv ∧ args.Version ≠ unv
          · rw [if_pos hgate]
            unfold WorkflowRunner.isVersionMissingTaskQueues
            rcases env.isVersionMissingTaskQueues
              (d.record .lock).State.RoutingConfig.CurrentVersion args.Version
              with ⟨missing, err⟩
            have hsf : StateFrame d ((d.record .lock).record (.isVersionMissingTaskQueues
                (d.record .lock).State.RoutingConfig.CurrentVersion args.Version)) :=
              ⟨rfl, rfl⟩
            cases err with
            | some e => cases missing <;> exact Or.inl ⟨_, rfl, hsf⟩
            | none =>
              cases missing with
              | true => exact Or.inl ⟨_, rfl, hsf⟩
              | false =>
                exact lift _ _ _ (stateFrame_trans hsf
                  (stateFrame_of_frame (frame_setDrainageStatus _ _ _ _)))
          · rw [if_neg hgate]
            exact lift _ _ _ (stateFrame_trans (stateFrame_record d _)
              (stateFrame_of_frame (frame_setDrainageStatus _ _ _ _)))


theorem noCheck_record (d : WorkflowRunner) (call : Call)
    (h : ∀ p n, call ≠ .isVersionMissingTaskQueues p n) : NoCheck d (d.record call) :=
  noCheck_of_frame (frame_record d call h)

theorem syncNewCurrent_noCheck (unv : String) (d : WorkflowRunner) (env : Env)
    (args : SetCurrentVersionArgs) (prev : String) (t : Time) :
    NoCheck d (d.syncNewCurrent unv env args prev t).1 := by
  rcases syncNewCurrent_outcome unv d env args prev t with ⟨err, _, hf⟩ | ⟨d1, hf, he⟩
  · exact noCheck_of_frame hf
  · rw [he]
    refine noCheck_trans (noCheck_of_frame hf) ⟨[.updateMemo], ?_, ?_⟩
    · exact (finishSetCurrent_spec d1 env args prev t).2.1
    · intro p n hmem
      simp at hmem

theorem newCalls_of_append (d d' : WorkflowRunner) (extra : List Call)
    (h : d'.calls = d.calls ++ extra) : newCalls d d' = extra := by
  unfold newCalls
  rw [h, List.drop_left]

theorem validateSetCurrent_present (unv : String) (d : WorkflowRunner)
    (args : SetCurrentVersionArgs)
    (h : d.validateStateBeforeAcceptingSetCurrent unv args = none) :
    args.Version ∈ keys d.State.Versions ∨ args.Version = unv := by
  unfold WorkflowRunner.validateStateBeforeAcceptingSetCurrent at h
  split_ifs at h with h1 h2 h3
  by_cases hu : args.Version = unv
  · exact Or.inr hu
  · left
    have hsome : (lookup d.State.Versions args.Version).isSome = true := by
      cases hl : (lookup d.State.Versions args.Version).isSome with
      | true => rfl
      | false =>
        exact absurd ⟨by simpa using hl, hu⟩ h3
    unfold lookup at hsome
    rw [Option.isSome_map', List.find?_isSome] at hsome
    obtain ⟨kv, hkv, hk⟩ := hsome
    simp only [decide_eq_true_eq] at hk
    exact List.mem_map.mpr ⟨kv, hkv, hk⟩

theorem validateRamping_not_current (unv : String) (d : WorkflowRunner)
    (args : SetRampingVersionArgs)
    (h : d.validateStateBeforeAcceptingRampingUpdate unv args = none) :
    args.Version ≠ d.State.RoutingConfig.CurrentVersion := by
  unfold WorkflowRunner.validateStateBeforeAcceptingRampingUpdate at h
  split_ifs at h with h1 h2 h3 h4
  exact h3

/-- The routing invariant together with what carries it through the
handlers: the empty string is not a key of the version map. -/
theorem routing_step_setCurrent (unv : String) (d : WorkflowRunner) (env : Env)
    (args : SetCurrentVersionArgs) (hunv : unv ≠ "")
    (hinv : d.State.RoutingConfig.CurrentVersion ≠ d.State.RoutingConfig.RampingVersion)
    (hkeys : "" ∉ keys d.State.Versions) :
    (d.handleSetCurrent unv env args).1.State.RoutingConfig.CurrentVersion ≠
        (d.handleSetCurrent unv env args).1.State.RoutingConfig.RampingVersion ∧
      "" ∉ keys (d.handleSetCurrent unv env args).1.State.Versions := by
  rcases handleSetCurrent_outcome unv d env args with ⟨err, _, hs, hk⟩ | ⟨_, hv, d1, ⟨hs, hk⟩, he⟩
  · rw [hk, hs]
    exact ⟨hinv, hkeys⟩
  · rw [he, (finishSetCurrent_spec d1 env args _ _).1]
    simp only
    rw [hk, hs]
    refine ⟨?_, hkeys⟩
    have hne : args.Version ≠ "" := by
      rcases validateSetCurrent_present unv d args hv with h | h
      · intro h0
        rw [h0] at h
        exact hkeys h
      · rw [h]
        exact hunv
    unfold routingAfterSetCurrent
    by_cases hr : args.Version = d.State.RoutingConfig.RampingVersion
    · simp only [hr, if_true]
      rw [← hr]
      exact hne
    · simp only [hr, if_false]
      exact hr

theorem routing_step_setRamping (unv : String) (d : WorkflowRunner) (env : Env)
    (args : SetRampingVersionArgs)
    (hinv : d.State.RoutingConfig.CurrentVersion ≠ d.State.RoutingConfig.RampingVersion)
    (hkeys : "" ∉ keys d.State.Versions) :
    (d.handleSetRampingVersion unv env args).1.State.RoutingConfig.CurrentVersion ≠
        (d.handleSetRampingVersion unv env args).1.State.RoutingConfig.RampingVersion ∧
      "" ∉ keys (d.handleSetRampingVersion unv env args).1.State.Versions := by
  rcases handleSetRamping_outcome unv d env args with
    ⟨err, _, hs, hk⟩ | ⟨hv, d1, rt, ⟨hs, hk⟩, he⟩
  · rw [hk, hs]
    exact ⟨hinv, hkeys⟩
  · rw [he, finishSetRamping_spec]
    simp only
    rw [hk, hs]
    exact ⟨fun h => validateRamping_not_current unv d args hv h.symm, hkeys⟩


/-! ## The worker-deployment workflow: theorems -/

/-- C13: the conflict-token check.  For every deployment state and every
`setCurrent` or `setRamping` request whose conflict token is non-nil and
differs from `State.ConflictToken`, the validator returns an error, and the
handler returns an error and leaves the deployment state as it was. -/
theorem stale_conflict_token_rejected (UnversionedVersionId : String) (d : WorkflowRunner)
    (env : Env) :
    (∀ (args : SetCurrentVersionArgs) (token : List Nat),
      args.ConflictToken = some token → token ≠ d.State.ConflictToken →
      (∃ err, d.validateSetCurrent UnversionedVersionId args = some err) ∧
      (∃ err, (d.handleSetCurrent UnversionedVersionId env args).2 = .error err) ∧
      (d.handleSetCurrent UnversionedVersionId env args).1.State = d.State) ∧
    (∀ (args : SetRampingVersionArgs) (token : List Nat),
      args.ConflictToken = some token → token ≠ d.State.ConflictToken →
      (∃ err, d.validateSetRampingVersion UnversionedVersionId args = some err) ∧
      (∃ err, (d.handleSetRampingVersion UnversionedVersionId env args).2 = .error err) ∧
      (d.handleSetRampingVersion UnversionedVersionId env args).1.State = d.State) := by
  constructor
  · intro args token htok hne
    have hmis : conflictTokenMismatch args.ConflictToken d.State.ConflictToken = true := by
      simp [conflictTokenMismatch, htok, hne]
    have hval : ∃ err, d.validateStateBeforeAcceptingSetCurrent UnversionedVersionId args
        = some err := by
      unfold WorkflowRunner.validateStateBeforeAcceptingSetCurrent
      split_ifs with h1
      · exact ⟨_, rfl⟩
      · exact ⟨_, rfl⟩
    obtain ⟨err, hv⟩ := hval
    refine ⟨⟨err, hv⟩, ?_⟩
    cases hl : env.lock with
    | some e =>
      rw [handleSetCurrent_lock_failed UnversionedVersionId d env args e hl]
      exact ⟨⟨_, rfl⟩, rfl⟩
    | none =>
      rw [handleSetCurrent_invalid UnversionedVersionId d env args err hl hv]
      exact ⟨⟨_, rfl⟩, rfl⟩
  · intro args token htok hne
    have hmis : conflictTokenMismatch args.ConflictToken d.State.ConflictToken = true := by
      simp [conflictTokenMismatch, htok, hne]
    have hval : ∃ err, d.validateStateBeforeAcceptingRampingUpdate UnversionedVersionId args
        = some err := by
      unfold WorkflowRunner.validateStateBeforeAcceptingRampingUpdate
      split_ifs with h1
      · exact ⟨_, rfl⟩
      · exact ⟨_, rfl⟩
    obtain ⟨err, hv⟩ := hval
    refine ⟨⟨err, hv⟩, ?_⟩
    have hv2 : (d.record .lock).validateStateBeforeAcceptingRampingUpdate
        UnversionedVersionId args = some err := hv
    unfold WorkflowRunner.handleSetRampingVersion
    simp only
    cases env.lock with
    | some e => exact ⟨⟨_, rfl⟩, rfl⟩
    | none =>
      simp only [hv2]
      exact ⟨⟨_, rfl⟩, rfl⟩

/-- Witness for C13: a `setCurrent` request for version `a` with the token
`[9]` against the sample state, whose token is `[1]`. -/
theorem stale_conflict_token_rejected_witness :
    (∃ err, (sampleRunner.handleSetCurrent "__unversioned__" sampleEnv
        ⟨"me", "a", false, some [9]⟩).2 = .error err) ∧
    (sampleRunner.handleSetCurrent "__unversioned__" sampleEnv
        ⟨"me", "a", false, some [9]⟩).1.State = sampleState :=
  ((stale_conflict_token_rejected "__unversioned__" sampleRunner sampleEnv).1
    ⟨"me", "a", false, some [9]⟩ [9] rfl (by decide)).2

/-- C14: the routing invariant.  In every state reached from a state with
current version unversioned and ramping version `""` by calls of
`handleSetCurrent` and `handleSetRampingVersion`, successful or not, the
current version differs from the ramping version.  The start state may hold
any versions but the empty string (the state that `run` creates holds none),
and the unversioned sentinel is a non-empty string. -/
theorem routing_invariant (UnversionedVersionId : String) (init : WorkerDeploymentLocalState)
    (d : WorkflowRunner) (hunv : UnversionedVersionId ≠ "")
    (hcur : init.RoutingConfig.CurrentVersion = UnversionedVersionId)
    (hramp : init.RoutingConfig.RampingVersion = "")
    (hkeys : "" ∉ keys init.Versions)
    (h : Reachable UnversionedVersionId init d) :
    d.State.RoutingConfig.CurrentVersion ≠ d.State.RoutingConfig.RampingVersion := by
  have hboth : d.State.RoutingConfig.CurrentVersion ≠ d.State.RoutingConfig.RampingVersion ∧
      "" ∉ keys d.State.Versions := by
    induction h with
    | start d0 h0 =>
      rw [h0, hcur, hramp]
      exact ⟨hunv, hkeys⟩
    | setCurrent d0 env args _ ih =>
      exact routing_step_setCurrent UnversionedVersionId d0 env args hunv ih.1 ih.2
    | setRamping d0 env args _ ih =>
      exact routing_step_setRamping UnversionedVersionId d0 env args ih.1 ih.2
  exact hboth.1

/-- Witness for C14: from the sample state, version `a` is set ramping and
then set current; the ramp is cleared and the two versions differ. -/
theorem routing_invariant_witness :
    ((sampleRunner.handleSetRampingVersion "__unversioned__" sampleEnv
        ⟨"me", "a", ⟨false, 10⟩, false, none⟩).1.handleSetCurrent "__unversioned__" sampleEnv
        ⟨"me", "a", false, none⟩).1.State.RoutingConfig.CurrentVersion ≠
    ((sampleRunner.handleSetRampingVersion "__unversioned__" sampleEnv
        ⟨"me", "a", ⟨false, 10⟩, false, none⟩).1.handleSetCurrent "__unversioned__" sampleEnv
        ⟨"me", "a", false, none⟩).1.State.RoutingConfig.RampingVersion :=
  routing_invariant "__unversioned__" sampleState _ (by decide) rfl rfl (by decide)
    (Reachable.setCurrent _ sampleEnv ⟨"me", "a", false, none⟩
      (Reachable.setRamping _ sampleEnv ⟨"me", "a", ⟨false, 10⟩, false, none⟩
        (Reachable.start sampleRunner rfl)))


/-- C15: the effect of a successful `handleSetCurrent(args)` at workflow time
`now`.  Afterwards the current version is `args.Version`, its change time is
`now`, the conflict token is the binary encoding of `now` and the last
modifier is `args.Identity`; if `args.Version` was the ramping version the
ramping version is `""`, its percentage `0` and its change time `now`,
otherwise the ramping fields are unchanged.  The response carries the previous
current version and the new conflict token. -/
theorem setCurrent_effect (UnversionedVersionId : String) (d : WorkflowRunner) (env : Env)
    (args : SetCurrentVersionArgs) (resp : SetCurrentVersionResponse)
    (hok : (d.handleSetCurrent UnversionedVersionId env args).2 = .ok resp) :
    (d.handleSetCurrent UnversionedVersionId env args).1.State.RoutingConfig.CurrentVersion
      = args.Version ∧
    (d.handleSetCurrent UnversionedVersionId env
      args).1.State.RoutingConfig.CurrentVersionChangedTime = some env.now ∧
    (d.handleSetCurrent UnversionedVersionId env args).1.State.ConflictToken
      = env.marshalBinary env.now ∧
    (d.handleSetCurrent UnversionedVersionId env args).1.State.LastModifierIdentity
      = args.Identity ∧
    (args.Version = d.State.RoutingConfig.RampingVersion →
      (d.handleSetCurrent UnversionedVersionId env args).1.State.RoutingConfig.RampingVersion
        = "" ∧
      (d.handleSetCurrent UnversionedVersionId env
        args).1.State.RoutingConfig.RampingVersionPercentage = Float32.zero ∧
      (d.handleSetCurrent UnversionedVersionId env
        args).1.State.RoutingConfig.RampingVersionChangedTime = some env.now) ∧
    (args.Version ≠ d.State.RoutingConfig.RampingVersion →
      (d.handleSetCurrent UnversionedVersionId env args).1.State.RoutingConfig.RampingVersion
        = d.State.RoutingConfig.RampingVersion ∧
      (d.handleSetCurrent UnversionedVersionId env
        args).1.State.RoutingConfig.RampingVersionPercentage
        = d.State.RoutingConfig.RampingVersionPercentage ∧
      (d.handleSetCurrent UnversionedVersionId env
        args).1.State.RoutingConfig.RampingVersionChangedTime
        = d.State.RoutingConfig.RampingVersionChangedTime) ∧
    resp.PreviousVersion = d.State.RoutingConfig.CurrentVersion ∧
    resp.ConflictToken = env.marshalBinary env.now := by
  rcases handleSetCurrent_outcome UnversionedVersionId d env args with
    ⟨err, he, _⟩ | ⟨_, _, d1, ⟨hs, _⟩, he⟩
  · rw [he] at hok
    cases hok
  · rw [he] at hok ⊢
    obtain ⟨hstate, _, hresp⟩ := finishSetCurrent_spec d1 env args
      d.State.RoutingConfig.CurrentVersion env.now
    have hr := hresp resp hok
    rw [hstate, hr]
    have hrouting : d1.State.RoutingConfig = d.State.RoutingConfig := by rw [hs]
    simp only [hrouting]
    unfold routingAfterSetCurrent
    by_cases hv : args.Version = d.State.RoutingConfig.RampingVersion
    · simp [hv]
    · simp [hv]

/-- Witness for C15: version `a` is set current in the sample state at time
`100`. -/
theorem setCurrent_effect_witness :
    (sampleRunner.handleSetCurrent "__unversioned__" sampleEnv
        ⟨"me", "a", false, none⟩).1.State.RoutingConfig.CurrentVersion = "a" ∧
    (sampleRunner.handleSetCurrent "__unversioned__" sampleEnv
        ⟨"me", "a", false, none⟩).1.State.ConflictToken = [100] :=
  have h := setCurrent_effect "__unversioned__" sampleRunner sampleEnv
    ⟨"me", "a", false, none⟩ ⟨"__unversioned__", [100]⟩ (by decide)
  ⟨h.1, h.2.2.1⟩


theorem handleSetCurrent_calls_closed (unv : String) (d : WorkflowRunner) (env : Env)
    (args : SetCurrentVersionArgs)
    (h : ¬ (env.lock = none ∧ d.validateStateBeforeAcceptingSetCurrent unv args = none ∧
      args.IgnoreMissingTaskQueues = false ∧
      d.State.RoutingConfig.CurrentVersion ≠ unv ∧ args.Version ≠ unv)) :
    NoCheck d (d.handleSetCurrent unv env args).1 := by
  have hrec : NoCheck d (d.record .lock) := noCheck_record d _ (fun p n h => by cases h)
  have hlock : (∃ err, env.lock = some err) ∨ env.lock = none := by
    cases env.lock with
    | some err => exact Or.inl ⟨err, rfl⟩
    | none => exact Or.inr rfl
  have hvalid : (∃ err, d.validateStateBeforeAcceptingSetCurrent unv args = some err) ∨
      d.validateStateBeforeAcceptingSetCurrent unv args = none := by
    cases d.validateStateBeforeAcceptingSetCurrent unv args with
    | some err => exact Or.inl ⟨err, rfl⟩
    | none => exact Or.inr rfl
  rcases hlock with ⟨err, hl⟩ | hl
  · rw [handleSetCurrent_lock_failed unv d env args err hl]
    exact hrec
  · rcases hvalid with ⟨err, hv⟩ | hv
    · rw [handleSetCurrent_invalid unv d env args err hl hv]
      exact hrec
    · have hgate : args.IgnoreMissingTaskQueues = true ∨
          d.State.RoutingConfig.CurrentVersion = unv ∨ args.Version = unv := by
        by_contra hc
        apply h
        refine ⟨hl, hv, ?_, fun h1 => hc (Or.inr (Or.inl h1)),
          fun h1 => hc (Or.inr (Or.inr h1))⟩
        cases hi : args.IgnoreMissingTaskQueues with
        | false => rfl
        | true => exact absurd (Or.inl hi) hc
      rw [handleSetCurrent_unchecked unv d env args hl hv hgate]
      exact noCheck_trans hrec (syncNewCurrent_noCheck unv _ env args _ _)

theorem handleSetCurrent_calls_open (unv : String) (d : WorkflowRunner) (env : Env)
    (args : SetCurrentVersionArgs)
    (h : env.lock = none ∧ d.validateStateBeforeAcceptingSetCurrent unv args = none ∧
      args.IgnoreMissingTaskQueues = false ∧
      d.State.RoutingConfig.CurrentVersion ≠ unv ∧ args.Version ≠ unv) :
    (∃ extra, (d.handleSetCurrent unv env args).1.calls =
        d.calls ++ (.lock :: .isVersionMissingTaskQueues
          d.State.RoutingConfig.CurrentVersion args.Version :: extra) ∧
      ∀ p n, Call.isVersionMissingTaskQueues p n ∉ extra) ∧
    (env.isVersionMissingTaskQueues d.State.RoutingConfig.CurrentVersion args.Version
        = (true, none) →
      (d.handleSetCurrent unv env args).2 =
        .error (.failedPrecondition .ErrCurrentVersionDoesNotHaveAllTaskQueues) ∧
      (d.handleSetCurrent unv env args).1.State = d.State) := by
  obtain ⟨hl, hv, hi, hp, hn⟩ := h
  have hc := handleSetCurrent_checked unv d env args hl hv hi hp hn
  have hcalls : ((d.record .lock).record (.isVersionMissingTaskQueues
      d.State.RoutingConfig.CurrentVersion args.Version)).calls =
      d.calls ++ (.lock :: .isVersionMissingTaskQueues
        d.State.RoutingConfig.CurrentVersion args.Version :: []) := by
    simp [WorkflowRunner.record]
  rcases hm : env.isVersionMissingTaskQueues d.State.RoutingConfig.CurrentVersion
    args.Version with ⟨missing, err⟩
  rw [hm] at hc
  cases err with
  | some e =>
    have hc2 : d.handleSetCurrent unv env args =
        ((d.record .lock).record (.isVersionMissingTaskQueues
          d.State.RoutingConfig.CurrentVersion args.Version), .error e) := by
      cases missing <;> exact hc
    rw [hc2]
    exact ⟨⟨[], hcalls, by simp⟩, fun h => by cases h⟩
  | none =>
    cases missing with
    | true =>
      rw [hc]
      exact ⟨⟨[], hcalls, by simp⟩, fun _ => ⟨rfl, rfl⟩⟩
    | false =>
      rw [hc]
      refine ⟨?_, fun h => by cases h⟩
      obtain ⟨extra, he, hno⟩ := syncNewCurrent_noCheck unv
        ((d.record .lock).record (.isVersionMissingTaskQueues
          d.State.RoutingConfig.CurrentVersion args.Version)) env args
        d.State.RoutingConfig.CurrentVersion env.now
      refine ⟨extra, ?_, hno⟩
      rw [he, hcalls]
      simp


/-- C16: `setCurrent` with missing task queues is rejected atomically.  In a
run of `handleSetCurrent` the missing-task-queue check is consulted exactly
when the lock is taken, the validation passes, `IgnoreMissingTaskQueues` is
false and both the previous current version and `args.Version` are versioned,
and then for these two versions only.  When it is consulted and reports true,
the handler returns the failed-precondition error
`ErrCurrentVersionDoesNotHaveAllTaskQueues` and the deployment state is
unchanged.  With `IgnoreMissingTaskQueues = true`, or when either version is
unversioned, the check is not consulted. -/
theorem missing_task_queues_rejected (UnversionedVersionId : String) (d : WorkflowRunner)
    (env : Env) (args : SetCurrentVersionArgs) :
    ((∃ p n, Call.isVersionMissingTaskQueues p n ∈
        newCalls d (d.handleSetCurrent UnversionedVersionId env args).1) ↔
      (env.lock = none ∧
        d.validateStateBeforeAcceptingSetCurrent UnversionedVersionId args = none ∧
        args.IgnoreMissingTaskQueues = false ∧
        d.State.RoutingConfig.CurrentVersion ≠ UnversionedVersionId ∧
        args.Version ≠ UnversionedVersionId)) ∧
    (∀ p n, Call.isVersionMissingTaskQueues p n ∈
        newCalls d (d.handleSetCurrent UnversionedVersionId env args).1 →
      p = d.State.RoutingConfig.CurrentVersion ∧ n = args.Version) ∧
    ((∃ p n, Call.isVersionMissingTaskQueues p n ∈
        newCalls d (d.handleSetCurrent UnversionedVersionId env args).1) →
      env.isVersionMissingTaskQueues d.State.RoutingConfig.CurrentVersion args.Version
        = (true, none) →
      (d.handleSetCurrent UnversionedVersionId env args).2 =
        .error (.failedPrecondition .ErrCurrentVersionDoesNotHaveAllTaskQueues) ∧
      (d.handleSetCurrent UnversionedVersionId env args).1.State = d.State) ∧
    (args.IgnoreMissingTaskQueues = true ∨
        d.State.RoutingConfig.CurrentVersion = UnversionedVersionId ∨
        args.Version = UnversionedVersionId →
      ∀ p n, Call.isVersionMissingTaskQueues p n ∉
        newCalls d (d.handleSetCurrent UnversionedVersionId env args).1) := by
  have hclosed : ¬ (env.lock = none ∧
      d.validateStateBeforeAcceptingSetCurrent UnversionedVersionId args = none ∧
      args.IgnoreMissingTaskQueues = false ∧
      d.State.RoutingConfig.CurrentVersion ≠ UnversionedVersionId ∧
      args.Version ≠ UnversionedVersionId) →
      ∀ p n, Call.isVersionMissingTaskQueues p n ∉
        newCalls d (d.handleSetCurrent UnversionedVersionId env args).1 := by
    intro h p n
    obtain ⟨extra, he, hno⟩ := handleSetCurrent_calls_closed UnversionedVersionId d env args h
    rw [newCalls_of_append d _ extra he]
    exact hno p n
  have hiff : (∃ p n, Call.isVersionMissingTaskQueues p n ∈
        newCalls d (d.handleSetCurrent UnversionedVersionId env args).1) ↔
      (env.lock = none ∧
        d.validateStateBeforeAcceptingSetCurrent UnversionedVersionId args = none ∧
        args.IgnoreMissingTaskQueues = false ∧
        d.State.RoutingConfig.CurrentVersion ≠ UnversionedVersionId ∧
        args.Version ≠ UnversionedVersionId) := by
    constructor
    · rintro ⟨p, n, hmem⟩
      by_contra hc
      exact hclosed hc p n hmem
    · intro h
      obtain ⟨⟨extra, he, _⟩, _⟩ :=
        handleSetCurrent_calls_open UnversionedVersionId d env args h
      refine ⟨d.State.RoutingConfig.CurrentVersion, args.Version, ?_⟩
      rw [newCalls_of_append d _ _ he]
      exact List.mem_cons_of_mem _ (List.mem_cons_self _ _)
  refine ⟨hiff, ?_, ?_, ?_⟩
  · intro p n hmem
    have h := hiff.mp ⟨p, n, hmem⟩
    obtain ⟨⟨extra, he, hno⟩, _⟩ :=
      handleSetCurrent_calls_open UnversionedVersionId d env args h
    rw [newCalls_of_append d _ _ he] at hmem
    rcases List.mem_cons.mp hmem with h1 | h1
    · cases h1
    · rcases List.mem_cons.mp h1 with h2 | h2
      · cases h2
        exact ⟨rfl, rfl⟩
      · exact absurd h2 (hno p n)
  · intro hcons hreport
    exact (handleSetCurrent_calls_open UnversionedVersionId d env args
      (hiff.mp hcons)).2 hreport
  · intro hgate
    apply hclosed
    rintro ⟨_, _, hi, hp, hn⟩
    rcases hgate with h | h | h
    · rw [hi] at h
      cases h
    · exact hp h
    · exact hn h

/-- Witness for C16: version `a` is current, `b` is requested without
`IgnoreMissingTaskQueues`, and the check reports true. -/
theorem missing_task_queues_rejected_witness :
    (sampleRunnerCurrentA.handleSetCurrent "__unversioned__" sampleEnvMissing
        ⟨"me", "b", false, none⟩).2 =
      .error (.failedPrecondition .ErrCurrentVersionDoesNotHaveAllTaskQueues) ∧
    (sampleRunnerCurrentA.handleSetCurrent "__unversioned__" sampleEnvMissing
        ⟨"me", "b", false, none⟩).1.State = sampleStateCurrentA :=
  (missing_task_queues_rejected "__unversioned__" sampleRunnerCurrentA sampleEnvMissing
      ⟨"me", "b", false, none⟩).2.2.1
    ⟨"a", "b", by decide⟩ rfl


/-! ## The version scavenger: lemmas -/

theorem deleteVersion_failed (d : WorkflowRunner) (env : Env) (args : DeleteVersionArgs)
    (h : env.deleteVersion args ≠ none) :
    (d.deleteVersion env args).2 ≠ none ∧ (d.deleteVersion env args).1.State = d.State := by
  unfold WorkflowRunner.deleteVersion
  simp only
  cases he : env.deleteVersion args with
  | none => exact absurd he h
  | some err => exact ⟨by simp, rfl⟩

theorem deleteVersion_done (d : WorkflowRunner) (env : Env) (args : DeleteVersionArgs)
    (h : env.deleteVersion args = none) (hmemo : ∀ st, env.updateMemo st = none) :
    (d.deleteVersion env args).2 = none ∧
    (d.deleteVersion env args).1.State =
      { d.State with
        Versions := erase d.State.Versions args.Version,
        LastModifierIdentity := args.Identity } := by
  unfold WorkflowRunner.deleteVersion WorkflowRunner.updateMemo
  simp only [h, hmemo]
  exact ⟨trivial, rfl⟩

theorem tryDeleteLoop_all_fail (env : Env) (l : List WorkerDeploymentVersionSummary)
    (h : ∀ v ∈ l, env.deleteVersion (tryDeleteArgs v) ≠ none) :
    ∀ d : WorkflowRunner,
      (d.tryDeleteLoop env l).2 = some (.failedPrecondition .noneEligibleForDeletion) ∧
      (d.tryDeleteLoop env l).1.State = d.State := by
  induction l with
  | nil => intro d; exact ⟨rfl, rfl⟩
  | cons v rest ih =>
    intro d
    obtain ⟨hne, hst⟩ := deleteVersion_failed d env (tryDeleteArgs v)
      (h v (List.mem_cons_self _ _))
    unfold WorkflowRunner.tryDeleteLoop
    rcases hd : d.deleteVersion env
      { Identity := "try-delete-for-add-version", Version := v.Version } with ⟨d2, res⟩
    have hd2 : d.deleteVersion env (tryDeleteArgs v) = (d2, res) := hd
    rw [hd2] at hne hst
    cases res with
    | none => exact absurd rfl hne
    | some err =>
      simp only
      obtain ⟨h1, h2⟩ := ih (fun x hx => h x (List.mem_cons_of_mem _ hx)) d2
      exact ⟨h1, h2.trans hst⟩

theorem tryDeleteLoop_first (env : Env) (hmemo : ∀ st, env.updateMemo st = none)
    (pre : List WorkerDeploymentVersionSummary) (s : WorkerDeploymentVersionSummary)
    (post : List WorkerDeploymentVersionSummary)
    (hpre : ∀ v ∈ pre, env.deleteVersion (tryDeleteArgs v) ≠ none)
    (hs : env.deleteVersion (tryDeleteArgs s) = none) :
    ∀ d : WorkflowRunner,
      (d.tryDeleteLoop env (pre ++ s :: post)).2 = none ∧
      (d.tryDeleteLoop env (pre ++ s :: post)).1.State =
        { d.State with
          Versions := erase d.State.Versions s.Version,
          LastModifierIdentity := "try-delete-for-add-version" } := by
  induction pre with
  | nil =>
    intro d
    obtain ⟨h1, h2⟩ := deleteVersion_done d env (tryDeleteArgs s) hs hmemo
    simp only [List.nil_append]
    unfold WorkflowRunner.tryDeleteLoop
    rcases hd : d.deleteVersion env
      { Identity := "try-delete-for-add-version", Version := s.Version } with ⟨d2, res⟩
    have hd2 : d.deleteVersion env (tryDeleteArgs s) = (d2, res) := hd
    rw [hd2] at h1 h2
    simp only at h1
    subst h1
    exact ⟨rfl, h2⟩
  | cons v rest ih =>
    intro d
    obtain ⟨hne, hst⟩ := deleteVersion_failed d env (tryDeleteArgs v)
      (hpre v (List.mem_cons_self _ _))
    simp only [List.cons_append]
    unfold WorkflowRunner.tryDeleteLoop
    rcases hd : d.deleteVersion env
      { Identity := "try-delete-for-add-version", Version := v.Version } with ⟨d2, res⟩
    have hd2 : d.deleteVersion env (tryDeleteArgs v) = (d2, res) := hd
    rw [hd2] at hne hst
    cases res with
    | none => exact absurd rfl hne
    | some err =>
      simp only
      obtain ⟨h1, h2⟩ := ih (fun x hx => hpre x (List.mem_cons_of_mem _ hx)) d2
      simp only at hst
      rw [hst] at h2
      exact ⟨h1, h2⟩

theorem lookup_cons_ne (k : String) (v : WorkerDeploymentVersionSummary)
    (m : List (String × WorkerDeploymentVersionSummary)) (key : String) (h : k ≠ key) :
    lookup ((k, v) :: m) key = lookup m key := by
  unfold lookup
  simp [List.find?_cons, h]

theorem lookup_cons_self (k : String) (v : WorkerDeploymentVersionSummary)
    (m : List (String × WorkerDeploymentVersionSummary)) :
    lookup ((k, v) :: m) k = some v := by
  unfold lookup
  simp [List.find?_cons]

theorem filterMap_lookup_keys (m : List (String × WorkerDeploymentVersionSummary))
    (h : (keys m).Nodup) : (keys m).filterMap (lookup m) = m.map (fun kv => kv.2) := by
  induction m with
  | nil => rfl
  | cons kv rest ih =>
    obtain ⟨k, v⟩ := kv
    unfold keys at h ih ⊢
    simp only [List.map_cons, List.nodup_cons] at h
    simp only [List.map_cons, List.filterMap_cons, lookup_cons_self]
    congr 1
    rw [← ih h.2]
    apply List.filterMap_congr
    intro x hx
    apply lookup_cons_ne
    rintro rfl
    exact h.1 hx

theorem summaries_perm (env : Env) (m : List (String × WorkerDeploymentVersionSummary))
    (hnodup : (keys m).Nodup) (hkeys : (env.deterministicKeys m).Perm (keys m)) :
    (summariesInKeyOrder env m).Perm (m.map (fun kv => kv.2)) := by
  unfold summariesInKeyOrder
  rw [← filterMap_lookup_keys m hnodup]
  exact hkeys.filterMap _

theorem lookup_none_of_not_key (m : List (String × WorkerDeploymentVersionSummary))
    (key : String) (h : key ∉ keys m) : lookup m key = none := by
  unfold lookup
  rw [Option.map_eq_none', List.find?_eq_none]
  intro kv hkv hk
  simp only [decide_eq_true_eq] at hk
  exact h (List.mem_map.mpr ⟨kv, hkv, hk⟩)

theorem keys_erase_subset (m : List (String × WorkerDeploymentVersionSummary))
    (key other : String) (h : other ∈ keys (erase m key)) : other ∈ keys m := by
  unfold keys erase at *
  obtain ⟨kv, hkv, hk⟩ := List.mem_map.mp h
  exact List.mem_map.mpr ⟨kv, (List.mem_filter.mp hkv).1, hk⟩

theorem erase_length (m : List (String × WorkerDeploymentVersionSummary)) (key : String)
    (hnodup : (keys m).Nodup) (hmem : key ∈ keys m) :
    (erase m key).length + 1 = m.length := by
  induction m with
  | nil => simp [keys] at hmem
  | cons kv rest ih =>
    unfold keys at hnodup hmem ih
    simp only [List.map_cons, List.nodup_cons] at hnodup
    simp only [List.map_cons, List.mem_cons] at hmem
    unfold erase at ih ⊢
    by_cases hk : kv.1 = key
    · have hrest : rest.filter (fun kv => !decide (kv.1 = key)) = rest := by
        rw [List.filter_eq_self]
        intro x hx
        have : x.1 ≠ key := by
          intro hxk
          apply hnodup.1
          rw [hk, ← hxk]
          exact List.mem_map.mpr ⟨x, hx, rfl⟩
        simp [this]
      simp [List.filter_cons, hk, hrest]
    · have hin : key ∈ List.map (fun kv => kv.1) rest := by
        rcases hmem with h | h
        · exact absurd h.symm hk
        · exact h
      have := ih hnodup.2 hin
      simp [List.filter_cons, hk, this]


theorem exists_first_deletable (env : Env) (l : List WorkerDeploymentVersionSummary)
    (h : ∃ x ∈ l, env.deleteVersion (tryDeleteArgs x) = none) :
    ∃ pre s post, l = pre ++ s :: post ∧
      (∀ x ∈ pre, env.deleteVersion (tryDeleteArgs x) ≠ none) ∧
      env.deleteVersion (tryDeleteArgs s) = none := by
  induction l with
  | nil => obtain ⟨x, hx, _⟩ := h; cases hx
  | cons v rest ih =>
    by_cases hv : env.deleteVersion (tryDeleteArgs v) = none
    · exact ⟨[], v, rest, rfl, fun x hx => (by cases hx), hv⟩
    · obtain ⟨x, hx, hd⟩ := h
      have hrest : ∃ x ∈ rest, env.deleteVersion (tryDeleteArgs x) = none := by
        rcases List.mem_cons.mp hx with rfl | hx'
        · exact absurd hd hv
        · exact ⟨x, hx', hd⟩
      obtain ⟨pre, s, post, hl, hpre, hs⟩ := ih hrest
      refine ⟨v :: pre, s, post, by rw [hl]; rfl, ?_, hs⟩
      intro y hy
      rcases List.mem_cons.mp hy with rfl | hy'
      · exact hv
      · exact hpre y hy'

theorem store_of_absent (m : List (String × WorkerDeploymentVersionSummary)) (key : String)
    (summary : WorkerDeploymentVersionSummary) (h : key ∉ keys m) :
    store m key summary = m ++ [(key, summary)] := by
  unfold store
  rw [lookup_none_of_not_key m key h]
  rfl

/-! ## The version scavenger: theorems -/

/-- C17 as stated fails: with the versions `a` and `b`, at most two versions
allowed, deletion activities that all succeed and a memo upsert that fails,
the add of `c` fails with an error of type `TooManyVersions` and both `a` and
`b` are gone: `deleteVersion` removes the version before the memo upsert and
returns the memo error, so `tryDeleteVersion` goes on to the next version. -/
theorem scavenger_removes_two_counterexample :
    WellFormed sampleState.Versions ∧
    (sampleState.Versions.length : Int) ≥ sampleEnvMemoDown.maxVersions ∧
    (∀ kv ∈ sampleState.Versions,
      sampleEnvMemoDown.deleteVersion (tryDeleteArgs kv.2) = none) ∧
    (sampleRunner.addVersionToWorkerDeployment sampleEnvMemoDown ⟨"c", some 3⟩).2 =
      some (.application .errTooManyVersions none) ∧
    sampleRunner.State.Versions =
      [("a", { Version := "a", CreateTime := some 1 }),
        ("b", { Version := "b", CreateTime := some 2 })] ∧
    (sampleRunner.addVersionToWorkerDeployment sampleEnvMemoDown
        ⟨"c", some 3⟩).1.State.Versions = [] ∧
    (sampleRunner.addVersionToWorkerDeployment sampleEnvMemoDown ⟨"c", some 3⟩).1.calls =
      [.deleteVersion "a", .updateMemo, .deleteVersion "b", .updateMemo] := by
  refine ⟨⟨by decide, by decide⟩, by decide, by decide, by decide, by decide, by decide,
    by decide⟩

/-- C17, amended: the version scavenger, when the memo upsert does not fail.
Let `addVersionToWorkerDeployment` be called for a version not yet present
while the number of versions is at least `maxVersions`.  If the deletion of
some version succeeds, the add succeeds and exactly one version `s` is
removed, one whose deletion succeeds and whose create time is the earliest
among those, and the new version is added; if no deletion succeeds the add
fails with an error of type `TooManyVersions` and the versions are unchanged.
`workflow.DeterministicKeys` returns the keys of the map and `slices.SortFunc`
a sorted permutation of its input. -/
theorem scavenger_on_add (d : WorkflowRunner) (env : Env) (args : AddVersionUpdateArgs)
    (hwf : WellFormed d.State.Versions)
    (hkeys : (env.deterministicKeys d.State.Versions).Perm (keys d.State.Versions))
    (hsort :
      (env.sortFunc compareCreateTime (summariesInKeyOrder env d.State.Versions)).Perm
        (summariesInKeyOrder env d.State.Versions) ∧
      (env.sortFunc compareCreateTime (summariesInKeyOrder env d.State.Versions)).Pairwise
        (fun a b => a.CreateTime.getD 0 ≤ b.CreateTime.getD 0))
    (hnew : ∀ kv ∈ d.State.Versions, kv.2.Version ≠ args.Version)
    (hfull : (d.State.Versions.length : Int) ≥ env.maxVersions)
    (hmemo : ∀ st, env.updateMemo st = none) :
    ((∃ kv ∈ d.State.Versions, env.deleteVersion (tryDeleteArgs kv.2) = none) →
      ∃ s, (s.Version, s) ∈ d.State.Versions ∧
        env.deleteVersion (tryDeleteArgs s) = none ∧
        (∀ kv ∈ d.State.Versions, env.deleteVersion (tryDeleteArgs kv.2) = none →
          s.CreateTime.getD 0 ≤ kv.2.CreateTime.getD 0) ∧
        (d.addVersionToWorkerDeployment env args).2 = none ∧
        (d.addVersionToWorkerDeployment env args).1.State.Versions =
          erase d.State.Versions s.Version ++
            [(args.Version, { Version := args.Version, CreateTime := args.CreateTime })] ∧
        (erase d.State.Versions s.Version).length + 1 = d.State.Versions.length) ∧
    ((∀ kv ∈ d.State.Versions, env.deleteVersion (tryDeleteArgs kv.2) ≠ none) →
      (d.addVersionToWorkerDeployment env args).2 =
        some (.application .errTooManyVersions none) ∧
      (d.addVersionToWorkerDeployment env args).1.State.Versions = d.State.Versions) := by
  obtain ⟨hnodup, hver⟩ := hwf
  have hperm0 := summaries_perm env d.State.Versions hnodup hkeys
  obtain ⟨hsp, hsorted⟩ := hsort
  have hperm := hsp.trans hperm0
  have hentry : ∀ v, v ∈ d.State.Versions.map (fun kv => kv.2) →
      (v.Version, v) ∈ d.State.Versions := by
    intro v hv
    obtain ⟨kv, hkv, rfl⟩ := List.mem_map.mp hv
    rw [hver kv hkv]
    exact hkv
  have hany : ((summariesInKeyOrder env d.State.Versions).any
      (fun v => decide (v.Version = args.Version))) = false := by
    rw [List.any_eq_false]
    intro v hv
    have := hnew _ (hentry v (hperm0.subset hv))
    simpa using this
  have hargs : args.Version ∉ keys d.State.Versions := by
    intro hmem
    obtain ⟨kv, hkv, hk⟩ := List.mem_map.mp hmem
    exact hnew kv hkv ((hver kv hkv).trans hk)
  unfold WorkflowRunner.addVersionToWorkerDeployment
  simp only [hany, Bool.false_eq_true, if_false]
  rw [if_pos hfull]
  unfold WorkflowRunner.tryDeleteVersion
  constructor
  · rintro ⟨kv, hkv, hdel⟩
    have hex : ∃ x ∈ env.sortFunc compareCreateTime
        (summariesInKeyOrder env d.State.Versions),
        env.deleteVersion (tryDeleteArgs x) = none :=
      ⟨kv.2, hperm.symm.subset (List.mem_map.mpr ⟨kv, hkv, rfl⟩), hdel⟩
    obtain ⟨pre, s, post, hl, hpre, hs⟩ := exists_first_deletable env _ hex
    have hsmem : (s.Version, s) ∈ d.State.Versions := by
      apply hentry
      apply hperm.subset
      rw [hl]
      exact List.mem_append_right _ (List.mem_cons_self _ _)
    obtain ⟨hres, hstate⟩ := tryDeleteLoop_first env hmemo pre s post hpre hs d
    rw [← hl] at hres hstate
    refine ⟨s, hsmem, hs, ?_, ?_⟩
    · intro kv2 hkv2 hdel2
      have hin : kv2.2 ∈ pre ++ s :: post := by
        rw [← hl]
        exact hperm.symm.subset (List.mem_map.mpr ⟨kv2, hkv2, rfl⟩)
      rw [hl] at hsorted
      rcases List.mem_append.mp hin with h1 | h1
      · exact absurd hdel2 (hpre _ h1)
      · rcases List.mem_cons.mp h1 with h2 | h2
        · rw [h2]
        · exact (List.pairwise_cons.mp (List.pairwise_append.mp hsorted).2.1).1 _ h2
    · rcases hd : d.tryDeleteLoop env (env.sortFunc compareCreateTime
        (summariesInKeyOrder env d.State.Versions)) with ⟨d2, res⟩
      rw [hd] at hres hstate
      simp only at hres hstate
      subst hres
      simp only
      refine ⟨trivial, ?_, ?_⟩
      · unfold WorkflowRunner.withVersions
        simp only [hstate]
        apply store_of_absent
        intro hmem
        exact hargs (keys_erase_subset _ _ _ hmem)
      · exact erase_length _ _ hnodup (List.mem_map.mpr ⟨_, hsmem, rfl⟩)
  · intro hall
    have hfail : ∀ v ∈ env.sortFunc compareCreateTime
        (summariesInKeyOrder env d.State.Versions),
        env.deleteVersion (tryDeleteArgs v) ≠ none := by
      intro v hv
      exact hall _ (hentry v (hperm.subset hv))
    obtain ⟨hres, hstate⟩ := tryDeleteLoop_all_fail env _ hfail d
    rcases hd : d.tryDeleteLoop env (env.sortFunc compareCreateTime
      (summariesInKeyOrder env d.State.Versions)) with ⟨d2, res⟩
    rw [hd] at hres hstate
    simp only at hres hstate
    subst hres
    simp only
    exact ⟨trivial, by rw [hstate]⟩

/-- Witness for the amended C17: `a` cannot be deleted, so `b` is removed
although it is younger, and `c` is added. -/
theorem scavenger_on_add_witness :
    (sampleRunner.addVersionToWorkerDeployment sampleEnvKeepA ⟨"c", some 3⟩).2 = none ∧
    ∃ s, (s.Version, s) ∈ sampleRunner.State.Versions ∧
      (sampleRunner.addVersionToWorkerDeployment sampleEnvKeepA ⟨"c", some 3⟩).1.State.Versions
        = erase sampleRunner.State.Versions s.Version ++
          [("c", { Version := "c", CreateTime := some 3 })] :=
  have h := (scavenger_on_add sampleRunner sampleEnvKeepA ⟨"c", some 3⟩
    ⟨by decide, by decide⟩ (List.Perm.refl _)
    ⟨List.Perm.refl _, by decide⟩
    (by decide) (by decide) (fun _ => rfl)).1
    ⟨("b", { Version := "b", CreateTime := some 2 }), by decide, by decide⟩
  match h with
  | ⟨s, hs, _, _, _, hv, _⟩ => ⟨by decide, s, hs, hv⟩

end workerdeployment

namespace collection

/-- C27: `IndexedTakeList` hands out every value exactly once.  For values
whose keys under the indexer are pairwise distinct and every sequence of
`Take` calls followed by one `TakeRemaining`, the values returned by the
successful `Take` calls together with the values returned by `TakeRemaining`
are a permutation of the values given to `NewIndexedTakeList`, and no value
occurs twice among them. -/
theorem every_value_exactly_once {K V : Type} [DecidableEq K] [Inhabited V]
    (values : List V) (indexer : V → K) (keys : List K)
    (hdistinct : (values.map indexer).Nodup) :
    ((takeAll (NewIndexedTakeList values indexer) keys).2 ++
      (takeAll (NewIndexedTakeList values indexer) keys).1.TakeRemaining.2).Perm values ∧
    ((takeAll (NewIndexedTakeList values indexer) keys).2 ++
      (takeAll (NewIndexedTakeList values indexer) keys).1.TakeRemaining.2).Nodup := by
  obtain ⟨_, hp⟩ := takeAll_remaining keys (NewIndexedTakeList values indexer)
  rw [takeRemainingLoop_new] at hp
  have hp2 : ((takeAll (NewIndexedTakeList values indexer) keys).2 ++
      (takeAll (NewIndexedTakeList values indexer) keys).1.TakeRemaining.2).Perm values := hp
  exact ⟨hp2, hp2.nodup_iff.mpr (List.Nodup.of_map indexer hdistinct)⟩

/-- Witness for C27: on the values `[10, 21, 32]` indexed by their last digit,
the calls `Take 1`, `Take 1`, `Take 7` and a final `TakeRemaining` hand out
`21` and then `10, 32`. -/
theorem every_value_exactly_once_witness :
    (takeAll (NewIndexedTakeList [10, 21, 32] (fun v : Nat => v % 10)) [1, 1, 7]).2 = [21] ∧
    (takeAll (NewIndexedTakeList [10, 21, 32] (fun v : Nat => v % 10))
      [1, 1, 7]).1.TakeRemaining.2 = [10, 32] ∧
    ((takeAll (NewIndexedTakeList [10, 21, 32] (fun v : Nat => v % 10)) [1, 1, 7]).2 ++
      (takeAll (NewIndexedTakeList [10, 21, 32] (fun v : Nat => v % 10))
        [1, 1, 7]).1.TakeRemaining.2).Perm [10, 21, 32] :=
  ⟨by decide, by decide,
   (every_value_exactly_once [10, 21, 32] (fun v : Nat => v % 10) [1, 1, 7]
      (by decide)).1⟩

end collection

namespace versionhistory

/-! ## The best local branch -/

theorem toInt32_of_lt (n : Nat) (h : n < 2 ^ 31) : toInt32 n = n := by
  unfold toInt32
  have h2 : (n : Int) < 2 ^ 31 := by exact_mod_cast h
  norm_num at h2 ⊢
  omega

theorem bestSoFar_step_new (B : List VersionHistoryItem)
    (pre : List (List VersionHistoryItem)) (l : List VersionHistoryItem)
    (x : VersionHistoryItem) (vIdx vLen : Int) (vItem : Option VersionHistoryItem)
    (hinv : BestSoFar B pre vIdx vLen vItem)
    (hf : FindLCAVersionHistoryItemFromItemSlice l B = .ok x)
    (hbetter : ∀ best, vItem = some best →
      x.EventId > best.EventId ∨ (x.EventId = best.EventId ∧ (l.length : Int) < vLen)) :
    BestSoFar B (pre ++ [l]) pre.length l.length (some x) := by
  refine ⟨pre.length, l, rfl, by simp, rfl, hf, ?_⟩
  intro j lj y hj hy
  rcases Nat.lt_or_ge j pre.length with hlt | hge
  · rw [List.getElem?_append_left hlt] at hj
    cases vItem with
    | none =>
      have : pre = [] := hinv
      subst this
      simp at hlt
    | some best =>
      obtain ⟨i, l0, _, hi, hlen, _, hall⟩ := hinv
      obtain ⟨h1, h2⟩ := hall j lj y hj hy
      rcases hbetter best rfl with hgt | ⟨heq, hl⟩
      · exact ⟨by omega, fun h => by omega⟩
      · refine ⟨by omega, fun h => ?_⟩
        have h3 := (h2 (by omega)).1
        rw [hlen] at hl
        have hl2 : l.length < l0.length := by exact_mod_cast hl
        exact ⟨by omega, fun h4 => by omega⟩
  · rw [List.getElem?_append_right hge] at hj
    have hj0 : j - pre.length = 0 := by
      by_contra hne
      obtain ⟨k, hk⟩ := Nat.exists_eq_succ_of_ne_zero hne
      rw [hk] at hj
      simp at hj
    rw [hj0] at hj
    simp at hj
    subst hj
    rw [hf] at hy
    cases hy
    exact ⟨le_refl _, fun _ => ⟨le_refl _, fun _ => by omega⟩⟩

theorem bestSoFar_step_keep (B : List VersionHistoryItem)
    (pre : List (List VersionHistoryItem)) (l : List VersionHistoryItem)
    (x best : VersionHistoryItem) (vIdx vLen : Int)
    (hinv : BestSoFar B pre vIdx vLen (some best))
    (hf : FindLCAVersionHistoryItemFromItemSlice l B = .ok x)
    (hkeep : ¬ (x.EventId > best.EventId ∨
      (x.EventId = best.EventId ∧ (l.length : Int) < vLen))) :
    BestSoFar B (pre ++ [l]) vIdx vLen (some best) := by
  obtain ⟨i, l0, hidx, hi, hlen, hf0, hall⟩ := hinv
  have hilt : i < pre.length := by
    by_contra hge
    rw [List.getElem?_eq_none (by omega)] at hi
    cases hi
  refine ⟨i, l0, hidx, by rw [List.getElem?_append_left hilt]; exact hi, hlen, hf0, ?_⟩
  intro j lj y hj hy
  rcases Nat.lt_or_ge j pre.length with hlt | hge
  · rw [List.getElem?_append_left hlt] at hj
    exact hall j lj y hj hy
  · rw [List.getElem?_append_right hge] at hj
    have hj0 : j - pre.length = 0 := by
      by_contra hne
      obtain ⟨k, hk⟩ := Nat.exists_eq_succ_of_ne_zero hne
      rw [hk] at hj
      simp at hj
    rw [hj0] at hj
    simp at hj
    subst hj
    rw [hf] at hy
    cases hy
    push_neg at hkeep
    obtain ⟨hk1, hk2⟩ := hkeep
    refine ⟨by omega, fun h => ?_⟩
    have h5 := hk2 h
    rw [hlen] at h5
    have h6 : l0.length ≤ l.length := by exact_mod_cast h5
    exact ⟨h6, fun _ => by omega⟩

theorem fromItemsLoop_spec (B : List VersionHistoryItem) :
    ∀ (rest pre : List (List VersionHistoryItem)) (vIdx vLen : Int)
      (vItem : Option VersionHistoryItem),
      BestSoFar B pre vIdx vLen vItem →
      (pre ++ rest).length < 2 ^ 31 →
      (∀ l ∈ rest, l.length < 2 ^ 31) →
      (∀ l ∈ rest, ∃ x, FindLCAVersionHistoryItemFromItemSlice l B = .ok x) →
      ∃ item idx len, fromItemsLoop B rest pre.length vIdx vLen vItem = .ok (item, idx) ∧
        BestSoFar B (pre ++ rest) idx len item := by
  intro rest
  induction rest with
  | nil =>
    intro pre vIdx vLen vItem hinv _ _ _
    exact ⟨vItem, vIdx, vLen, rfl, by simpa using hinv⟩
  | cons l rest ih =>
    intro pre vIdx vLen vItem hinv hlen hls hall
    obtain ⟨x, hx⟩ := hall l (List.mem_cons_self _ _)
    have hl32 : toInt32 l.length = l.length := toInt32_of_lt _ (hls l (List.mem_cons_self _ _))
    have hp32 : toInt32 pre.length = pre.length :=
      toInt32_of_lt _ (by simp only [List.length_append, List.length_cons] at hlen; omega)
    have hlen2 : ((pre ++ [l]) ++ rest).length < 2 ^ 31 := by simpa using hlen
    have hls2 : ∀ l0 ∈ rest, l0.length < 2 ^ 31 := fun l0 h => hls l0 (List.mem_cons_of_mem _ h)
    have hall2 : ∀ l0 ∈ rest, ∃ x, FindLCAVersionHistoryItemFromItemSlice l0 B = .ok x :=
      fun l0 h => hall l0 (List.mem_cons_of_mem _ h)
    have happ : pre ++ l :: rest = (pre ++ [l]) ++ rest := by simp
    have hlenp : (pre ++ [l]).length = pre.length + 1 := by simp
    rw [happ]
    simp only [fromItemsLoop, hx, hl32, hp32]
    cases vItem with
    | none =>
      have hnew := bestSoFar_step_new B pre l x vIdx vLen none hinv hx
        (fun best h => by cases h)
      have := ih (pre ++ [l]) pre.length l.length (some x) hnew hlen2 hls2 hall2
      rw [hlenp] at this
      simpa using this
    | some best =>
      by_cases hc : x.EventId > best.EventId ∨
          (x.EventId = best.EventId ∧ (l.length : Int) < vLen)
      · have hnew := bestSoFar_step_new B pre l x vIdx vLen (some best) hinv hx
          (fun b h => by cases h; exact hc)
        have := ih (pre ++ [l]) pre.length l.length (some x) hnew hlen2 hls2 hall2
        rw [hlenp] at this
        have hb : (decide (x.EventId > best.EventId) ||
            (decide (x.EventId = best.EventId) && decide ((l.length : Int) < vLen))) = true := by
          simpa using hc
        simp only [hb, if_true]
        exact this
      · have hkeep := bestSoFar_step_keep B pre l x best vIdx vLen hinv hx hc
        have := ih (pre ++ [l]) vIdx vLen (some best) hkeep hlen2 hls2 hall2
        rw [hlenp] at this
        have hb : (decide (x.EventId > best.EventId) ||
            (decide (x.EventId = best.EventId) && decide ((l.length : Int) < vLen))) = false := by
          rw [Bool.eq_false_iff]
          simpa using hc
        simp only [hb, Bool.false_eq_true, if_false]
        exact this

theorem fromItemsLoop_error (B : List VersionHistoryItem) :
    ∀ (rest : List (List VersionHistoryItem)) (index : Nat) (vIdx vLen : Int)
      (vItem : Option VersionHistoryItem),
      (∃ l ∈ rest, ∃ e, FindLCAVersionHistoryItemFromItemSlice l B = .error e) →
      ∃ l ∈ rest, ∃ e, FindLCAVersionHistoryItemFromItemSlice l B = .error e ∧
        fromItemsLoop B rest index vIdx vLen vItem = .error e := by
  intro rest
  induction rest with
  | nil => intro _ _ _ _ h; obtain ⟨l, hl, _⟩ := h; cases hl
  | cons l rest ih =>
    intro index vIdx vLen vItem h
    cases hx : FindLCAVersionHistoryItemFromItemSlice l B with
    | error e =>
      exact ⟨l, List.mem_cons_self _ _, e, hx, by simp only [fromItemsLoop, hx]⟩
    | ok x =>
      have hrest : ∃ l0 ∈ rest, ∃ e, FindLCAVersionHistoryItemFromItemSlice l0 B = .error e := by
        obtain ⟨l0, hl0, e, he⟩ := h
        rcases List.mem_cons.mp hl0 with heq | hmem
        · subst heq; rw [hx] at he; cases he
        · exact ⟨l0, hmem, e, he⟩
      simp only [fromItemsLoop, hx]
      split_ifs
      · obtain ⟨l0, hl0, e, he, hr⟩ := ih (index + 1) (toInt32 index) (toInt32 l.length)
          (some x) hrest
        exact ⟨l0, List.mem_cons_of_mem _ hl0, e, he, hr⟩
      · obtain ⟨l0, hl0, e, he, hr⟩ := ih (index + 1) vIdx vLen vItem hrest
        exact ⟨l0, List.mem_cons_of_mem _ hl0, e, he, hr⟩

/-- A successful search among valid items of the first list returns a valid
item: an item of the second list is returned as a copy. -/
theorem lcaLoop_ok_valid : ∀ (as bs : List VersionHistoryItem) (l : VersionHistoryItem),
    (∀ x ∈ as, ValidItem x) → lcaLoop as bs = .ok l → ValidItem l := by
  intro as
  induction as with
  | nil => intro bs l _ h; cases h
  | cons a as iha =>
    intro bs
    induction bs with
    | nil => intro l _ h; cases h
    | cons b bs ihb =>
      intro l hv h
      rw [lcaLoop_cons_cons] at h
      by_cases hve : a.Version = b.Version
      · rw [if_pos hve] at h
        by_cases he : a.EventId > b.EventId
        · rw [if_pos he] at h
          obtain ⟨h1, h2⟩ := copy_eq_ok b l h
          rw [h1]
          exact h2
        · rw [if_neg he] at h
          cases h
          exact hv a (List.mem_cons_self _ _)
      · rw [if_neg hve] at h
        by_cases hgt : a.Version > b.Version
        · rw [if_pos hgt] at h
          exact iha (b :: bs) l (fun x hx => hv x (List.mem_cons_of_mem _ hx)) h
        · rw [if_neg hgt] at h
          exact ihb l hv h

/-- C24 as stated fails: for the one local history `[(-1,0)]` (event ID `-1`,
version `0`) and the incoming list `[(-1,0)]` the local history has the LCA
`(-1,0)` with the incoming list, and the call panics on the final copy of that
item instead of returning it with the index `0`. -/
theorem findLCAFromItems_counterexample :
    (∀ l ∈ ([[⟨-1, 0⟩]] : List (List VersionHistoryItem)),
      FindLCAVersionHistoryItemFromItemSlice l [⟨-1, 0⟩] = .ok ⟨-1, 0⟩) ∧
    FindLCAVersionHistoryItemFromItems [[⟨-1, 0⟩]] [⟨-1, 0⟩] = .error .panic ∧
    FindLCAVersionHistoryItemFromItems [[⟨-1, 0⟩]] [⟨-1, 0⟩] ≠ .ok (⟨-1, 0⟩, 0) := by
  decide

/-- C24, amended: `FindLCAVersionHistoryItemFromItems` selects the best local
branch.  For a non-empty list `A` of local item lists of valid items (event
IDs and versions not negative; the number of lists and every length fitting
an `int32`) and an incoming list `B` such that
every `A[j]` has an LCA with `B`, the call returns an item and an index `i`
with `item = LCA(A[i], B)`; the item's event ID is the maximum of the LCA event
IDs over all `j`; among the indices attaining that maximum `len(A[i])` is
minimal; and among those `i` is the smallest index.  If some `A[j]` has no LCA
with `B` the outcome of the first such `FindLCAVersionHistoryItemFromItemSlice`
call is handed on, which for a list `B` of valid items is the error
"version history is malformed". -/
theorem findLCAFromItems_selects_best (A : List (List VersionHistoryItem))
    (B : List VersionHistoryItem) :
    (A ≠ [] → A.length < 2 ^ 31 → (∀ l ∈ A, l.length < 2 ^ 31) →
      (∀ l ∈ A, ∀ x ∈ l, ValidItem x) →
      (∀ l ∈ A, ∃ x, FindLCAVersionHistoryItemFromItemSlice l B = .ok x) →
      ∃ (item : VersionHistoryItem) (i : Nat) (l : List VersionHistoryItem),
        FindLCAVersionHistoryItemFromItems A B = .ok (item, (i : Int)) ∧
        A[i]? = some l ∧
        FindLCAVersionHistoryItemFromItemSlice l B = .ok item ∧
        ∀ (j : Nat) (lj : List VersionHistoryItem) (x : VersionHistoryItem),
          A[j]? = some lj → FindLCAVersionHistoryItemFromItemSlice lj B = .ok x →
          x.EventId ≤ item.EventId ∧
          (x.EventId = item.EventId →
            l.length ≤ lj.length ∧ (lj.length = l.length → i ≤ j))) ∧
    ((∃ l ∈ A, ∃ e, FindLCAVersionHistoryItemFromItemSlice l B = .error e) →
      ∃ l ∈ A, ∃ e, FindLCAVersionHistoryItemFromItemSlice l B = .error e ∧
        FindLCAVersionHistoryItemFromItems A B = .error e) ∧
    ((∀ y ∈ B, ValidItem y) →
      (∃ l ∈ A, ∃ e, FindLCAVersionHistoryItemFromItemSlice l B = .error e) →
      FindLCAVersionHistoryItemFromItems A B = .error .malformed) := by
  have herr : (∃ l ∈ A, ∃ e, FindLCAVersionHistoryItemFromItemSlice l B = .error e) →
      ∃ l ∈ A, ∃ e, FindLCAVersionHistoryItemFromItemSlice l B = .error e ∧
        FindLCAVersionHistoryItemFromItems A B = .error e := by
    intro h
    obtain ⟨l, hl, e, he, hr⟩ := fromItemsLoop_error B A 0 0 0 none h
    refine ⟨l, hl, e, he, ?_⟩
    unfold FindLCAVersionHistoryItemFromItems
    rw [hr]
  refine ⟨?_, herr, ?_⟩
  · intro hne hlen hls hvA hall
    have h0 : BestSoFar B [] 0 0 none := rfl
    obtain ⟨item, idx, len, hr, hbest⟩ :=
      fromItemsLoop_spec B A [] 0 0 none h0 (by simpa using hlen) hls hall
    simp only [List.nil_append, List.length_nil] at hr hbest
    cases item with
    | none => exact absurd hbest hne
    | some item =>
      obtain ⟨i, l, hidx, hi, _, hf, hmax⟩ := hbest
      subst hidx
      have hlA : l ∈ A := List.getElem?_mem hi
      have hvalid : ValidItem item :=
        lcaLoop_ok_valid l.reverse B.reverse item
          (fun x hx => hvA l hlA x (List.mem_reverse.mp hx)) hf
      refine ⟨item, i, l, ?_, hi, hf, hmax⟩
      unfold FindLCAVersionHistoryItemFromItems
      rw [hr]
      simp only [copy_ok item hvalid]
  · intro hvB h
    obtain ⟨l, _, e, he, hr⟩ := herr h
    rw [findLCA_eq_core l B hvB] at he
    have : e = .malformed := lcaLoopCore_error _ _ e he
    rw [hr, this]

/-- Witness for the amended C24: the second case of
`TestFindLCAVersionHistoryItemFromItems`, where the second local history wins
with the item `(6, 4)`. -/
theorem findLCAFromItems_selects_best_witness :
    FindLCAVersionHistoryItemFromItems
      [[⟨3, 1⟩, ⟨5, 2⟩, ⟨7, 3⟩], [⟨3, 1⟩, ⟨5, 2⟩, ⟨7, 4⟩]]
      [⟨3, 1⟩, ⟨5, 2⟩, ⟨6, 4⟩] = .ok (⟨6, 4⟩, 1) ∧
    ∃ (item : VersionHistoryItem) (i : Nat) (l : List VersionHistoryItem),
      FindLCAVersionHistoryItemFromItems
        [[⟨3, 1⟩, ⟨5, 2⟩, ⟨7, 3⟩], [⟨3, 1⟩, ⟨5, 2⟩, ⟨7, 4⟩]]
        [⟨3, 1⟩, ⟨5, 2⟩, ⟨6, 4⟩] = .ok (item, (i : Int)) ∧
      ([[⟨3, 1⟩, ⟨5, 2⟩, ⟨7, 3⟩], [⟨3, 1⟩, ⟨5, 2⟩, ⟨7, 4⟩]] :
        List (List VersionHistoryItem))[i]? = some l ∧
      FindLCAVersionHistoryItemFromItemSlice l [⟨3, 1⟩, ⟨5, 2⟩, ⟨6, 4⟩] = .ok item ∧
      ∀ (j : Nat) (lj : List VersionHistoryItem) (x : VersionHistoryItem),
        ([[⟨3, 1⟩, ⟨5, 2⟩, ⟨7, 3⟩], [⟨3, 1⟩, ⟨5, 2⟩, ⟨7, 4⟩]] :
          List (List VersionHistoryItem))[j]? = some lj →
        FindLCAVersionHistoryItemFromItemSlice lj [⟨3, 1⟩, ⟨5, 2⟩, ⟨6, 4⟩] = .ok x →
        x.EventId ≤ item.EventId ∧
        (x.EventId = item.EventId →
          l.length ≤ lj.length ∧ (lj.length = l.length → i ≤ j)) :=
  ⟨by decide,
   (findLCAFromItems_selects_best
      [[⟨3, 1⟩, ⟨5, 2⟩, ⟨7, 3⟩], [⟨3, 1⟩, ⟨5, 2⟩, ⟨7, 4⟩]]
      [⟨3, 1⟩, ⟨5, 2⟩, ⟨6, 4⟩]).1 (by decide) (by decide) (by decide) (by decide)
      (by
        intro l hl
        simp only [List.mem_cons, List.mem_singleton, List.not_mem_nil, or_false] at hl
        rcases hl with rfl | rfl
        · exact ⟨⟨5, 2⟩, by decide⟩
        · exact ⟨⟨6, 4⟩, by decide⟩)⟩

end versionhistory

namespace workerdeployment

/-! ## Drainage marks, summary updates and failures of `handleSetCurrent` -/

/-- C25: the evaluation of `handleSetCurrent` where the claim fails.  In a
deployment whose current version is `a`, last modified by `""`, a successful
`SetCurrent` of `a` by the identity `bob` leaves `a` the current version and
stores its summary with the drainage status `DRAINING`. -/
theorem setCurrent_same_version_marks_current_draining :
    (sampleRunnerCurrentA.handleSetCurrent "__unversioned__" sampleEnv
        ⟨"bob", "a", false, none⟩).2 = .ok ⟨"a", [100]⟩ ∧
    (sampleRunnerCurrentA.handleSetCurrent "__unversioned__" sampleEnv
        ⟨"bob", "a", false, none⟩).1.State.RoutingConfig.CurrentVersion = "a" ∧
    (lookup sampleRunnerCurrentA.State.Versions "a").map (fun s => s.DrainageStatus) =
      some .unspecified ∧
    (lookup (sampleRunnerCurrentA.handleSetCurrent "__unversioned__" sampleEnv
        ⟨"bob", "a", false, none⟩).1.State.Versions "a").map (fun s => s.DrainageStatus) =
      some .draining := by
  decide

/-- C26: the evaluation of `updateVersionSummary` where the claim fails.  The
existing summary of `a` has no create time and the first activation time `5`;
after a summary with the first activation time `9` comes in, the stored
summary has the first activation time `9`. -/
theorem updateVersionSummary_overrides_first_activation :
    (lookup sampleRunnerActivated.State.Versions "a").map (fun s => s.FirstActivationTime) =
      some (some 5) ∧
    (lookup (sampleRunnerActivated.updateVersionSummary
        { Version := "a", FirstActivationTime := some 9 }).State.Versions "a").map
      (fun s => s.FirstActivationTime) = some (some 9) := by
  decide

theorem finishSetCurrent_error (d : WorkflowRunner) (env : Env) (args : SetCurrentVersionArgs)
    (prev : String) (t : Time) (err : Error)
    (h : (d.finishSetCurrent env args prev t).2 = .error err) :
    env.updateMemo (d.finishSetCurrent env args prev t).1.memo = some err := by
  have key : ∀ (d2 : WorkflowRunner),
      (match d2.updateMemo env with
        | (d, some err) => (d, Except.error err)
        | (d, none) =>
          (d.setStateChanged,
            Except.ok ({ PreviousVersion := prev, ConflictToken := d.State.ConflictToken } :
              SetCurrentVersionResponse))).2 = .error err →
      env.updateMemo (match d2.updateMemo env with
        | (d, some err) => (d, Except.error err)
        | (d, none) =>
          (d.setStateChanged,
            Except.ok ({ PreviousVersion := prev, ConflictToken := d.State.ConflictToken } :
              SetCurrentVersionResponse))).1.memo = some err := by
    intro d2 h2
    unfold WorkflowRunner.updateMemo at h2 ⊢
    cases hm : env.updateMemo d2.memo with
    | some e =>
      rw [hm] at h2
      simp only at h2 ⊢
      cases h2
      exact hm
    | none =>
      rw [hm] at h2
      cases h2
  unfold WorkflowRunner.finishSetCurrent at h ⊢
  exact key _ h

/-- With version `a` current and a sync of `a` that fails, `SetCurrent` of `b`
syncs `b`, fails on `a` and returns the error: the routing configuration is
unchanged and the summary of `b` has been rewritten. -/
theorem handleSetCurrent_failed_sync_keeps_summary :
    (sampleRunnerCurrentA.handleSetCurrent "__unversioned__" sampleEnvSyncAFails
        ⟨"me", "b", false, none⟩).2 = .error (.external 4) ∧
    (sampleRunnerCurrentA.handleSetCurrent "__unversioned__" sampleEnvSyncAFails
        ⟨"me", "b", false, none⟩).1.State.RoutingConfig =
      sampleRunnerCurrentA.State.RoutingConfig ∧
    (sampleRunnerCurrentA.handleSetCurrent "__unversioned__" sampleEnvSyncAFails
        ⟨"me", "b", false, none⟩).1.State.Versions ≠ sampleRunnerCurrentA.State.Versions := by
  decide

/-- C29, as claimed, fails: with a memo upsert that fails, `SetCurrent` of `a`
returns the error of the upsert and the routing configuration, the conflict
token and the last modifier identity have their new values. -/
theorem handleSetCurrent_not_atomic_counterexample :
    ¬ (∀ (UnversionedVersionId : String) (d : WorkflowRunner) (env : Env)
        (args : SetCurrentVersionArgs) (err : Error),
        (d.handleSetCurrent UnversionedVersionId env args).2 = .error err →
        (d.handleSetCurrent UnversionedVersionId env args).1.State.RoutingConfig =
            d.State.RoutingConfig ∧
          (d.handleSetCurrent UnversionedVersionId env args).1.State.ConflictToken =
            d.State.ConflictToken ∧
          (d.handleSetCurrent UnversionedVersionId env args).1.State.LastModifierIdentity =
            d.State.LastModifierIdentity ∧
          (d.handleSetCurrent UnversionedVersionId env args).1.State.Versions =
            d.State.Versions) := by
  intro h
  have h1 := (h "__unversioned__" sampleRunner sampleEnvMemoDown ⟨"me", "a", false, none⟩
    (.external 3) (by decide)).2.1
  revert h1
  decide

theorem lookup_map_replace_ne (m : List (String × WorkerDeploymentVersionSummary))
    (key v : String) (summary : WorkerDeploymentVersionSummary) (h : v ≠ key) :
    lookup (m.map (fun kv => if kv.1 = key then (key, summary) else kv)) v = lookup m v := by
  induction m with
  | nil => rfl
  | cons kv rest ih =>
    unfold lookup at ih ⊢
    simp only [List.map_cons, List.find?_cons]
    by_cases hk : kv.1 = key
    · have h1 : ¬ key = v := fun e => h e.symm
      have h2 : ¬ kv.1 = v := fun e => h (e.symm.trans hk)
      simp only [hk, if_true, h1, h2, decide_False]
      simpa [hk] using ih
    · simp only [hk, if_false]
      by_cases hv : kv.1 = v
      · simp [hv]
      · simp only [hv, decide_False]
        simpa using ih

theorem lookup_append_singleton_ne (m : List (String × WorkerDeploymentVersionSummary))
    (key v : String) (summary : WorkerDeploymentVersionSummary) (h : v ≠ key) :
    lookup (m ++ [(key, summary)]) v = lookup m v := by
  unfold lookup
  have h1 : ¬ key = v := fun e => h e.symm
  rw [List.find?_append]
  cases hf : m.find? (fun kv => decide (kv.1 = v)) with
  | some x => rfl
  | none => simp [List.find?_cons, h1]

theorem lookup_store_ne (m : List (String × WorkerDeploymentVersionSummary))
    (key v : String) (summary : WorkerDeploymentVersionSummary) (h : v ≠ key) :
    lookup (store m key summary) v = lookup m v := by
  unfold store
  split
  · exact lookup_map_replace_ne m key v summary h
  · exact lookup_append_singleton_ne m key v summary h

theorem kept_of_frame {d d' : WorkflowRunner} (vs : List String) (hf : Frame d d')
    (h : ∀ v, v ∉ vs → lookup d'.State.Versions v = lookup d.State.Versions v) :
    SummariesKept vs d d' := ⟨hf.1, hf.2.1, h⟩

theorem kept_refl (vs : List String) (d : WorkflowRunner) : SummariesKept vs d d :=
  ⟨rfl, rfl, fun _ _ => rfl⟩

theorem kept_of_state_eq (vs : List String) {d d' : WorkflowRunner} (h : d'.State = d.State) :
    SummariesKept vs d d' := by
  refine ⟨?_, ?_, ?_⟩
  · rw [h]
  · rw [h]
  · intro v _
    rw [h]

theorem kept_trans {vs ws us : List String} {d1 d2 d3 : WorkflowRunner}
    (h12 : SummariesKept vs d1 d2) (h23 : SummariesKept ws d2 d3)
    (hv : ∀ v, v ∉ us → v ∉ vs) (hw : ∀ v, v ∉ us → v ∉ ws) : SummariesKept us d1 d3 := by
  obtain ⟨a1, a2, a3⟩ := h12
  obtain ⟨b1, b2, b3⟩ := h23
  refine ⟨?_, b2.trans a2, fun v hvn => (b3 v (hw v hvn)).trans (a3 v (hv v hvn))⟩
  rw [b1, a1]

theorem kept_updateVersionSummary (d : WorkflowRunner)
    (summary : WorkerDeploymentVersionSummary) :
    SummariesKept [summary.Version] d (d.updateVersionSummary summary) := by
  apply kept_of_frame _ (frame_updateVersionSummary d summary)
  intro v hv
  have hne : v ≠ summary.Version := by simpa using hv
  unfold WorkflowRunner.updateVersionSummary
  cases hl : lookup d.State.Versions summary.Version with
  | none => rfl
  | some existing =>
    simp only [WorkflowRunner.withVersions]
    split_ifs <;> exact lookup_store_ne _ _ _ _ hne

theorem kept_setDrainageStatus (d : WorkflowRunner) (version : String)
    (status : VersionDrainageStatus) (t : Option Time) :
    SummariesKept [version] d (d.setDrainageStatus version status t) := by
  apply kept_of_frame _ (frame_setDrainageStatus d version status t)
  intro v hv
  have hne : v ≠ version := by simpa using hv
  unfold WorkflowRunner.setDrainageStatus
  cases hl : lookup d.State.Versions version with
  | none => rfl
  | some existing =>
    simp only [WorkflowRunner.withVersions]
    exact lookup_store_ne _ _ _ _ hne

/-- A sync that fails leaves the state as it is; one that succeeds rewrites at
most the summary of its target. -/
theorem syncVersion_cases (d : WorkflowRunner) (env : Env) (target : String)
    (args : SyncVersionStateUpdateArgs) (activated : Bool) :
    (∃ err, env.syncVersion target args activated = some err ∧
      (d.syncVersion env target args activated).2 = some err ∧
      (d.syncVersion env target args activated).1.State = d.State) ∨
    (env.syncVersion target args activated = none ∧
      (d.syncVersion env target args activated).2 = none ∧
      SummariesKept [target] d (d.syncVersion env target args activated).1) := by
  unfold WorkflowRunner.syncVersion
  cases hs : env.syncVersion target args activated with
  | some err => exact Or.inl ⟨err, rfl, rfl, rfl⟩
  | none =>
    refine Or.inr ⟨rfl, rfl, ?_⟩
    simp only
    have hrec : SummariesKept [target] d (d.record (.syncVersion target activated)) :=
      kept_of_state_eq _ rfl
    cases activated
    · exact kept_trans hrec (kept_updateVersionSummary _ _) (fun _ h => h) (fun _ h => h)
    · exact kept_trans hrec (kept_updateVersionSummary _ _) (fun _ h => h) (fun _ h => h)

theorem syncPrevCurrent_kept (unv : String) (d : WorkflowRunner) (env : Env)
    (args : SetCurrentVersionArgs) (prev : String) (t : Time) :
    (∃ err, prev ≠ unv ∧
      env.syncVersion prev
        { RoutingUpdateTime := some t, CurrentSinceTime := none,
          RampingSinceTime := none, RampPercentage := Float32.zero } false = some err ∧
      (d.syncPrevCurrent unv env args prev t).2 = .error err ∧
      (d.syncPrevCurrent unv env args prev t).1.State = d.State) ∨
    (∃ d1, SummariesKept [prev] d d1 ∧
      d.syncPrevCurrent unv env args prev t = d1.finishSetCurrent env args prev t) := by
  unfold WorkflowRunner.syncPrevCurrent
  by_cases hp : prev ≠ unv
  · rw [if_pos hp]
    rcases syncVersion_cases d env prev
      { RoutingUpdateTime := some t, CurrentSinceTime := none,
        RampingSinceTime := none, RampPercentage := Float32.zero } false with
      ⟨err, he, hr, hs⟩ | ⟨he, hr, hk⟩
    · left
      refine ⟨err, hp, he, ?_, ?_⟩
      · cases hsv : d.syncVersion env prev
          { RoutingUpdateTime := some t, CurrentSinceTime := none,
            RampingSinceTime := none, RampPercentage := Float32.zero } false with
        | mk d2 res =>
          rw [hsv] at hr
          simp only at hr
          subst hr
          rfl
      · cases hsv : d.syncVersion env prev
          { RoutingUpdateTime := some t, CurrentSinceTime := none,
            RampingSinceTime := none, RampPercentage := Float32.zero } false with
        | mk d2 res =>
          rw [hsv] at hr hs
          simp only at hr hs
          subst hr
          exact hs
    · right
      cases hsv : d.syncVersion env prev
        { RoutingUpdateTime := some t, CurrentSinceTime := none,
          RampingSinceTime := none, RampPercentage := Float32.zero } false with
      | mk d2 res =>
        rw [hsv] at hr hk
        simp only at hr hk
        subst hr
        exact ⟨_, kept_trans hk (kept_setDrainageStatus _ _ _ _) (fun _ h => h)
          (fun _ h => h), rfl⟩
  · rw [if_neg hp]
    exact Or.inr ⟨d, kept_refl _ d, rfl⟩

/-- The three ways `syncNewCurrent` runs: the first sync (of the new version,
or of the unversioned ramp) fails and the state is as before; the sync of the
previous current version fails and at most the summary of the new version is
rewritten; or the run reaches the tail of the handler with at most the
summaries of the new and the previous current version rewritten. -/
theorem syncNewCurrent_kept (unv : String) (d : WorkflowRunner) (env : Env)
    (args : SetCurrentVersionArgs) (prev : String) (t : Time) :
    (∃ err, (d.syncNewCurrent unv env args prev t).2 = .error err ∧
      (d.syncNewCurrent unv env args prev t).1.State = d.State) ∨
    (∃ err, prev ≠ unv ∧
      env.syncVersion prev
        { RoutingUpdateTime := some t, CurrentSinceTime := none,
          RampingSinceTime := none, RampPercentage := Float32.zero } false = some err ∧
      (d.syncNewCurrent unv env args prev t).2 = .error err ∧
      SummariesKept [args.Version] d (d.syncNewCurrent unv env args prev t).1) ∨
    (∃ d1, SummariesKept [args.Version, prev] d d1 ∧
      d.syncNewCurrent unv env args prev t = d1.finishSetCurrent env args prev t) := by
  have lift : ∀ d2, SummariesKept [args.Version] d d2 →
      (∃ err, prev ≠ unv ∧
        env.syncVersion prev
          { RoutingUpdateTime := some t, CurrentSinceTime := none,
            RampingSinceTime := none, RampPercentage := Float32.zero } false = some err ∧
        (d2.syncPrevCurrent unv env args prev t).2 = .error err ∧
        SummariesKept [args.Version] d (d2.syncPrevCurrent unv env args prev t).1) ∨
      (∃ d1, SummariesKept [args.Version, prev] d d1 ∧
        d2.syncPrevCurrent unv env args prev t = d1.finishSetCurrent env args prev t) := by
    intro d2 h2
    rcases syncPrevCurrent_kept unv d2 env args prev t with
      ⟨err, hp, he, hr, hs⟩ | ⟨d1, hk, he⟩
    · exact Or.inl ⟨err, hp, he, hr,
        kept_trans h2 (kept_of_state_eq [] hs) (fun _ h => h) (fun _ _ => by simp)⟩
    · refine Or.inr ⟨d1, kept_trans h2 hk ?_ ?_, he⟩
      · intro v hv
        simp only [List.mem_cons, List.mem_singleton, List.not_mem_nil, or_false,
          not_or] at hv ⊢
        exact hv.1
      · intro v hv
        simp only [List.mem_cons, List.mem_singleton, List.not_mem_nil, or_false,
          not_or] at hv ⊢
        exact hv.2
  unfold WorkflowRunner.syncNewCurrent
  simp only
  by_cases hn : args.Version ≠ unv
  · rw [if_pos hn]
    rcases syncVersion_cases d env args.Version
      { RoutingUpdateTime := some t, CurrentSinceTime := some t,
        RampingSinceTime := none, RampPercentage := Float32.zero } true with
      ⟨err, he, hr, hs⟩ | ⟨he, hr, hk⟩
    · left
      cases hsv : d.syncVersion env args.Version
        { RoutingUpdateTime := some t, CurrentSinceTime := some t,
          RampingSinceTime := none, RampPercentage := Float32.zero } true with
      | mk d2 res =>
        rw [hsv] at hr hs
        simp only at hr hs
        subst hr
        exact ⟨err, rfl, hs⟩
    · right
      cases hsv : d.syncVersion env args.Version
        { RoutingUpdateTime := some t, CurrentSinceTime := some t,
          RampingSinceTime := none, RampPercentage := Float32.zero } true with
      | mk d2 res =>
        rw [hsv] at hr hk
        simp only at hr hk
        subst hr
        exact lift _ (kept_trans hk (kept_setDrainageStatus _ _ _ _) (fun _ h => h)
          (fun _ h => h))
  · rw [if_neg hn]
    by_cases hr : d.State.RoutingConfig.RampingVersion = unv
    · rw [if_pos hr]
      unfold WorkflowRunner.syncUnversionedRamp
      cases hs : env.syncUnversionedRamp
        { RoutingUpdateTime := some t, RampingSinceTime := none,
          RampPercentage := Float32.zero } with
      | some err => exact Or.inl ⟨err, rfl, rfl⟩
      | none => exact Or.inr (lift _ (kept_of_state_eq _ rfl))
    · rw [if_neg hr]
      exact Or.inr (lift d (kept_refl _ d))

/-- When the sync of the new version, or the sync of the unversioned ramp,
fails, `syncNewCurrent` leaves the state as it is. -/
theorem syncNewCurrent_first_sync_fails (unv : String) (d : WorkflowRunner) (env : Env)
    (args : SetCurrentVersionArgs) (prev : String) (t : Time)
    (h : (args.Version ≠ unv ∧
        env.syncVersion args.Version
          { RoutingUpdateTime := some t, CurrentSinceTime := some t,
            RampingSinceTime := none, RampPercentage := Float32.zero } true ≠ none) ∨
      (args.Version = unv ∧ d.State.RoutingConfig.RampingVersion = unv ∧
        env.syncUnversionedRamp
          { RoutingUpdateTime := some t, RampingSinceTime := none,
            RampPercentage := Float32.zero } ≠ none)) :
    (d.syncNewCurrent unv env args prev t).1.State = d.State := by
  unfold WorkflowRunner.syncNewCurrent
  simp only
  rcases h with ⟨hn, hs⟩ | ⟨hn, hr, hs⟩
  · rw [if_pos hn]
    unfold WorkflowRunner.syncVersion
    obtain ⟨e, he⟩ := Option.ne_none_iff_exists'.mp hs
    simp only [he]
    rfl
  · rw [if_neg (not_not.mpr hn), if_pos hr]
    unfold WorkflowRunner.syncUnversionedRamp
    obtain ⟨e, he⟩ := Option.ne_none_iff_exists'.mp hs
    simp only [he]
    rfl

/-- The run of `handleSetCurrent`: an early failure with the state as before,
or the run of `syncNewCurrent` from a runner with the same state. -/
theorem handleSetCurrent_reaches_sync (unv : String) (d : WorkflowRunner) (env : Env)
    (args : SetCurrentVersionArgs) :
    (∃ err, (d.handleSetCurrent unv env args).2 = .error err ∧
      (d.handleSetCurrent unv env args).1.State = d.State) ∨
    (∃ d2 : WorkflowRunner, d2.State = d.State ∧
      d.handleSetCurrent unv env args =
        d2.syncNewCurrent unv env args d.State.RoutingConfig.CurrentVersion env.now) := by
  cases hl : env.lock with
  | some e =>
    rw [handleSetCurrent_lock_failed unv d env args e hl]
    exact Or.inl ⟨_, rfl, rfl⟩
  | none =>
    cases hv : d.validateStateBeforeAcceptingSetCurrent unv args with
    | some e =>
      rw [handleSetCurrent_invalid unv d env args e hl hv]
      exact Or.inl ⟨_, rfl, rfl⟩
    | none =>
      by_cases hgate : args.IgnoreMissingTaskQueues = true ∨
          d.State.RoutingConfig.CurrentVersion = unv ∨ args.Version = unv
      · exact Or.inr ⟨d.record .lock, rfl,
          handleSetCurrent_unchecked unv d env args hl hv hgate⟩
      · have hi : args.IgnoreMissingTaskQueues = false := by
          cases h : args.IgnoreMissingTaskQueues with
          | false => rfl
          | true => exact absurd (Or.inl h) hgate
        have hp : d.State.RoutingConfig.CurrentVersion ≠ unv :=
          fun h => hgate (Or.inr (Or.inl h))
        have hn : args.Version ≠ unv := fun h => hgate (Or.inr (Or.inr h))
        have hc := handleSetCurrent_checked unv d env args hl hv hi hp hn
        rcases hm : env.isVersionMissingTaskQueues d.State.RoutingConfig.CurrentVersion
          args.Version with ⟨missing, err⟩
        rw [hm] at hc
        cases err with
        | some e =>
          cases missing <;> (rw [hc]; exact Or.inl ⟨_, rfl, rfl⟩)
        | none =>
          cases missing with
          | true =>
            rw [hc]
            exact Or.inl ⟨_, rfl, rfl⟩
          | false =>
            exact Or.inr ⟨(d.record .lock).record (.isVersionMissingTaskQueues
              d.State.RoutingConfig.CurrentVersion args.Version), rfl, hc⟩

/-- C29, amended.  If `handleSetCurrent` returns an error, one of three holds.
Either the whole state, version summaries included, is unchanged.  Or the
failing step is the sync of the previous current version, and the state differs
from the state before the call at most in the summary of the new version
`args.Version`: the routing configuration, the conflict token, the last
modifier identity and the set of versions are unchanged, and so is the summary
of every other version.  Or the failing step is the memo update: the routing
configuration, the conflict token and the last modifier identity have their
new values, the set of versions is unchanged, and the summary of every version
other than the new and the previous current version is unchanged.  When the
failing step is the lock, the validation, the missing-task-queue check, the
sync of the new version or the sync of the unversioned ramp, the whole state
is unchanged. -/
theorem handleSetCurrent_failure_frame (UnversionedVersionId : String) (d : WorkflowRunner)
    (env : Env) (args : SetCurrentVersionArgs) (err : Error)
    (h : (d.handleSetCurrent UnversionedVersionId env args).2 = .error err) :
    ((d.handleSetCurrent UnversionedVersionId env args).1.State = d.State ∨
      (d.State.RoutingConfig.CurrentVersion ≠ UnversionedVersionId ∧
        env.syncVersion d.State.RoutingConfig.CurrentVersion
          { RoutingUpdateTime := some env.now, CurrentSinceTime := none,
            RampingSinceTime := none, RampPercentage := Float32.zero } false = some err ∧
        (d.handleSetCurrent UnversionedVersionId env args).1.State =
          { d.State with
            Versions := (d.handleSetCurrent UnversionedVersionId env args).1.State.Versions } ∧
        keys (d.handleSetCurrent UnversionedVersionId env args).1.State.Versions =
          keys d.State.Versions ∧
        ∀ v, v ≠ args.Version →
          lookup (d.handleSetCurrent UnversionedVersionId env args).1.State.Versions v =
            lookup d.State.Versions v) ∨
      (env.updateMemo (d.handleSetCurrent UnversionedVersionId env args).1.memo = some err ∧
        (d.handleSetCurrent UnversionedVersionId env args).1.State =
          { d.State with
            RoutingConfig := routingAfterSetCurrent d.State.RoutingConfig args.Version env.now,
            ConflictToken := env.marshalBinary env.now,
            LastModifierIdentity := args.Identity,
            Versions := (d.handleSetCurrent UnversionedVersionId env args).1.State.Versions } ∧
        keys (d.handleSetCurrent UnversionedVersionId env args).1.State.Versions =
          keys d.State.Versions ∧
        ∀ v, v ≠ args.Version → v ≠ d.State.RoutingConfig.CurrentVersion →
          lookup (d.handleSetCurrent UnversionedVersionId env args).1.State.Versions v =
            lookup d.State.Versions v)) ∧
    ((env.lock ≠ none ∨
        d.validateStateBeforeAcceptingSetCurrent UnversionedVersionId args ≠ none ∨
        (args.IgnoreMissingTaskQueues = false ∧
          d.State.RoutingConfig.CurrentVersion ≠ UnversionedVersionId ∧
          args.Version ≠ UnversionedVersionId ∧
          env.isVersionMissingTaskQueues d.State.RoutingConfig.CurrentVersion args.Version ≠
            (false, none)) ∨
        (args.Version ≠ UnversionedVersionId ∧
          env.syncVersion args.Version
            { RoutingUpdateTime := some env.now, CurrentSinceTime := some env.now,
              RampingSinceTime := none, RampPercentage := Float32.zero } true ≠ none) ∨
        (args.Version = UnversionedVersionId ∧
          d.State.RoutingConfig.RampingVersion = UnversionedVersionId ∧
          env.syncUnversionedRamp
            { RoutingUpdateTime := some env.now, RampingSinceTime := none,
              RampPercentage := Float32.zero } ≠ none)) →
      (d.handleSetCurrent UnversionedVersionId env args).1.State = d.State) := by
  constructor
  · rcases handleSetCurrent_reaches_sync UnversionedVersionId d env args with
      ⟨_, _, hs⟩ | ⟨d2, h2, he⟩
    · exact Or.inl hs
    · rw [he] at h ⊢
      rcases syncNewCurrent_kept UnversionedVersionId d2 env args
          d.State.RoutingConfig.CurrentVersion env.now with
        ⟨_, _, hs⟩ | ⟨e, hp, hse, hr, hk⟩ | ⟨d1, hk, hfin⟩
      · exact Or.inl (hs.trans h2)
      · right; left
        rw [hr] at h
        cases h
        obtain ⟨k1, k2, k3⟩ := hk
        rw [h2] at k1 k2 k3
        exact ⟨hp, hse, k1, k2, fun v hv => k3 v (by simpa using hv)⟩
      · right; right
        rw [hfin] at h ⊢
        have hm := finishSetCurrent_error d1 env args _ _ err h
        obtain ⟨hs, _, _⟩ := finishSetCurrent_spec d1 env args
          d.State.RoutingConfig.CurrentVersion env.now
        obtain ⟨k1, k2, k3⟩ := hk
        rw [h2] at k1 k2 k3
        have hvers : (d1.finishSetCurrent env args d.State.RoutingConfig.CurrentVersion
            env.now).1.State.Versions = d1.State.Versions := by rw [hs]
        refine ⟨hm, ?_, ?_, ?_⟩
        · rw [hs, k1]
        · rw [hvers]
          exact k2
        · intro v hv1 hv2
          rw [hvers]
          exact k3 v (by simp [hv1, hv2])
  · intro hcase
    by_cases hl : env.lock = none
    · by_cases hv : d.validateStateBeforeAcceptingSetCurrent UnversionedVersionId args = none
      · by_cases hchk : args.IgnoreMissingTaskQueues = false ∧
            d.State.RoutingConfig.CurrentVersion ≠ UnversionedVersionId ∧
            args.Version ≠ UnversionedVersionId ∧
            env.isVersionMissingTaskQueues d.State.RoutingConfig.CurrentVersion args.Version ≠
              (false, none)
        · obtain ⟨hi, hp, hn, hm⟩ := hchk
          rw [handleSetCurrent_checked UnversionedVersionId d env args hl hv hi hp hn]
          rcases hr : env.isVersionMissingTaskQueues d.State.RoutingConfig.CurrentVersion
            args.Version with ⟨missing, e⟩
          cases e with
          | some e => cases missing <;> rfl
          | none =>
            cases missing with
            | true => rfl
            | false => exact absurd hr hm
        · have hsync : (args.Version ≠ UnversionedVersionId ∧
              env.syncVersion args.Version
                { RoutingUpdateTime := some env.now, CurrentSinceTime := some env.now,
                  RampingSinceTime := none, RampPercentage := Float32.zero } true ≠ none) ∨
              (args.Version = UnversionedVersionId ∧
                d.State.RoutingConfig.RampingVersion = UnversionedVersionId ∧
                env.syncUnversionedRamp
                  { RoutingUpdateTime := some env.now, RampingSinceTime := none,
                    RampPercentage := Float32.zero } ≠ none) := by
            rcases hcase with h1 | h1 | h1 | h1 | h1
            · exact absurd hl h1
            · exact absurd hv h1
            · exact absurd h1 hchk
            · exact Or.inl h1
            · exact Or.inr h1
          rcases handleSetCurrent_reaches_sync UnversionedVersionId d env args with
            ⟨_, _, hs⟩ | ⟨d2, h2, he⟩
          · exact hs
          · rw [he]
            have hsync2 : (args.Version ≠ UnversionedVersionId ∧
                env.syncVersion args.Version
                  { RoutingUpdateTime := some env.now, CurrentSinceTime := some env.now,
                    RampingSinceTime := none, RampPercentage := Float32.zero } true ≠ none) ∨
                (args.Version = UnversionedVersionId ∧
                  d2.State.RoutingConfig.RampingVersion = UnversionedVersionId ∧
                  env.syncUnversionedRamp
                    { RoutingUpdateTime := some env.now, RampingSinceTime := none,
                      RampPercentage := Float32.zero } ≠ none) := by
              rw [h2]
              exact hsync
            exact (syncNewCurrent_first_sync_fails UnversionedVersionId d2 env args _ _
              hsync2).trans h2
      · obtain ⟨e, he⟩ := Option.ne_none_iff_exists'.mp hv
        rw [handleSetCurrent_invalid UnversionedVersionId d env args e hl he]
        rfl
    · obtain ⟨e, he⟩ := Option.ne_none_iff_exists'.mp hl
      rw [handleSetCurrent_lock_failed UnversionedVersionId d env args e he]
      rfl

/-- Witness for C29: with version `a` current and a sync of `a` that fails,
`SetCurrent` of `b` returns the error of the sync of `a`. -/
theorem handleSetCurrent_failure_frame_witness :
    (sampleRunnerCurrentA.handleSetCurrent "__unversioned__" sampleEnvSyncAFails
        ⟨"me", "b", false, none⟩).2 = .error (.external 4) ∧
    ((sampleRunnerCurrentA.handleSetCurrent "__unversioned__" sampleEnvSyncAFails
          ⟨"me", "b", false, none⟩).1.State = sampleRunnerCurrentA.State ∨
      (sampleRunnerCurrentA.State.RoutingConfig.CurrentVersion ≠ "__unversioned__" ∧
        sampleEnvSyncAFails.syncVersion sampleRunnerCurrentA.State.RoutingConfig.CurrentVersion
          { RoutingUpdateTime := some sampleEnvSyncAFails.now, CurrentSinceTime := none,
            RampingSinceTime := none, RampPercentage := Float32.zero } false =
          some (.external 4) ∧
        (sampleRunnerCurrentA.handleSetCurrent "__unversioned__" sampleEnvSyncAFails
            ⟨"me", "b", false, none⟩).1.State =
          { sampleRunnerCurrentA.State with
            Versions := (sampleRunnerCurrentA.handleSetCurrent "__unversioned__"
              sampleEnvSyncAFails ⟨"me", "b", false, none⟩).1.State.Versions } ∧
        keys (sampleRunnerCurrentA.handleSetCurrent "__unversioned__" sampleEnvSyncAFails
            ⟨"me", "b", false, none⟩).1.State.Versions =
          keys sampleRunnerCurrentA.State.Versions ∧
        ∀ v, v ≠ "b" →
          lookup (sampleRunnerCurrentA.handleSetCurrent "__unversioned__" sampleEnvSyncAFails
              ⟨"me", "b", false, none⟩).1.State.Versions v =
            lookup sampleRunnerCurrentA.State.Versions v) ∨
      (sampleEnvSyncAFails.updateMemo (sampleRunnerCurrentA.handleSetCurrent "__unversioned__"
          sampleEnvSyncAFails ⟨"me", "b", false, none⟩).1.memo = some (.external 4) ∧
        (sampleRunnerCurrentA.handleSetCurrent "__unversioned__" sampleEnvSyncAFails
            ⟨"me", "b", false, none⟩).1.State =
          { sampleRunnerCurrentA.State with
            RoutingConfig := routingAfterSetCurrent sampleRunnerCurrentA.State.RoutingConfig
              "b" sampleEnvSyncAFails.now,
            ConflictToken := sampleEnvSyncAFails.marshalBinary sampleEnvSyncAFails.now,
            LastModifierIdentity := "me",
            Versions := (sampleRunnerCurrentA.handleSetCurrent "__unversioned__"
              sampleEnvSyncAFails ⟨"me", "b", false, none⟩).1.State.Versions } ∧
        keys (sampleRunnerCurrentA.handleSetCurrent "__unversioned__" sampleEnvSyncAFails
            ⟨"me", "b", false, none⟩).1.State.Versions =
          keys sampleRunnerCurrentA.State.Versions ∧
        ∀ v, v ≠ "b" → v ≠ sampleRunnerCurrentA.State.RoutingConfig.CurrentVersion →
          lookup (sampleRunnerCurrentA.handleSetCurrent "__unversioned__" sampleEnvSyncAFails
              ⟨"me", "b", false, none⟩).1.State.Versions v =
            lookup sampleRunnerCurrentA.State.Versions v)) :=
  ⟨by decide,
   (handleSetCurrent_failure_frame "__unversioned__" sampleRunnerCurrentA sampleEnvSyncAFails
      ⟨"me", "b", false, none⟩ (.external 4) (by decide)).1⟩

end workerdeployment

namespace sqlplugin

/-! ## The range of history-node reads -/

/-- Forward reads, and metadata reads in forward order, stay in
`[MinNodeID, MaxNodeID)`. -/
theorem forward_where_in_range (filter : HistoryNodeSelectFilter) (row : HistoryNodeRow)
    (hf : filter.ReverseOrder = false)
    (h : whereClause (selectQuery filter) (selectArgs filter) row = true) :
    filter.MinNodeID ≤ row.NodeID ∧ row.NodeID < filter.MaxNodeID := by
  have hq : selectQuery filter = .getHistoryNodes ∨
      selectQuery filter = .getHistoryNodeMetadata := by
    unfold selectQuery
    cases filter.MetadataOnly <;> simp [hf]
  unfold selectArgs at h
  rw [hf] at h
  simp only [Bool.false_eq_true, if_false] at h
  rcases hq with hq | hq <;>
  · rw [hq] at h
    simp only [whereClause, Arg.cmpInt, Arg.eqBytes, Bool.and_eq_true, Bool.or_eq_true,
      decide_eq_true_eq] at h
    obtain ⟨⟨_, hlow⟩, hhigh⟩ := h
    rcases hlow with ⟨he, _⟩ | hgt <;> omega

/-- C21: the evaluation of `RangeSelectFromHistoryNode` where the claim fails.
For a reverse-order read of `[1, 5)` with `MaxTxnID = 7` the reverse statement
is chosen, the fifth argument, which the statement compares with `node_id`, is
`MaxTxnID`, and the stored row with node ID `7` and transaction ID `8`
satisfies the `WHERE` clause although `7 ≥ MaxNodeID`. -/
theorem reverse_read_binds_txn_bound_to_node_id :
    selectQuery sampleReverseFilter = .getHistoryNodesReverse ∧
    (selectArgs sampleReverseFilter)[4]? = some (.int sampleReverseFilter.MaxTxnID) ∧
    whereClause (selectQuery sampleReverseFilter) (selectArgs sampleReverseFilter)
      sampleRowBeyondMax = true ∧
    ¬ sampleRowBeyondMax.NodeID < sampleReverseFilter.MaxNodeID := by
  decide

end sqlplugin

namespace authorization

/-! ## The default authorizer -/

theorem authorize_no_error (api : Api) (claims : Option Claims) (target : CallTarget) :
    (Authorize api claims target).2 = none := by
  unfold Authorize
  split_ifs
  · rfl
  · cases claims with
    | none => rfl
    | some c =>
      simp only
      cases (api.GetMethodMetadata target.APIName).Scope <;> simp only <;> split_ifs <;> rfl

/-- C22: the default authorizer confines namespace roles to their namespaces.
For every API that is not a health check, `Authorize` never returns an error,
denies `nil` claims, and gives the same result for two claim sets that agree on
the system role and on the role for `target.Namespace`; when the roles
`RoleReader`, `RoleWriter` and `RoleAdmin` are positive, a caller with no
system role and no role on the target namespace is denied whatever roles it
holds on other namespaces. -/
theorem authorize_confines_namespace_roles (api : Api) (target : CallTarget)
    (hhc : api.IsHealthCheckAPI target.APIName = false) :
    (∀ claims, (Authorize api claims target).2 = none) ∧
    Authorize api none target = (resultDeny, none) ∧
    (∀ c1 c2 : Claims, c1.System = c2.System →
      lookupRole c1.Namespaces target.Namespace = lookupRole c2.Namespaces target.Namespace →
      Authorize api (some c1) target = Authorize api (some c2) target) ∧
    (0 < api.RoleReader → 0 < api.RoleWriter → 0 < api.RoleAdmin →
      ∀ c : Claims, c.System = 0 → lookupRole c.Namespaces target.Namespace = 0 →
        Authorize api (some c) target = (resultDeny, none)) := by
  refine ⟨fun claims => authorize_no_error api claims target, ?_, ?_, ?_⟩
  · unfold Authorize
    simp [hhc]
  · intro c1 c2 hs hn
    unfold Authorize
    simp only [hhc, hs, hn]
  · intro hr hw ha c hs hn
    have hreq : 0 < getRequiredRole api (api.GetMethodMetadata target.APIName).Access := by
      unfold getRequiredRole
      cases (api.GetMethodMetadata target.APIName).Access <;> assumption
    have hlor : Int.lor 0 0 = 0 := rfl
    unfold Authorize
    simp only [hhc, hs, hn, hlor, Bool.false_eq_true, if_false]
    cases (api.GetMethodMetadata target.APIName).Scope <;> simp only
    · rw [if_neg (not_le.mpr hreq)]
    · rw [if_neg (not_le.mpr hreq)]

/-- Witness for C22: a caller that is an admin of the namespace `other` only
is denied `Signal` on the namespace `ns`, as is every caller with the same
system role and the same role on `ns`. -/
theorem authorize_confines_namespace_roles_witness :
    Authorize sampleApi (some { System := 0, Namespaces := [("other", 8)] })
      { APIName := "Signal", Namespace := "ns" } = (resultDeny, none) ∧
    Authorize sampleApi (some { System := 0, Namespaces := [("other", 8)] })
      { APIName := "Signal", Namespace := "other" } = (resultAllow, none) :=
  ⟨(authorize_confines_namespace_roles sampleApi { APIName := "Signal", Namespace := "ns" }
      (by decide)).2.2.2 (by decide) (by decide) (by decide)
      { System := 0, Namespaces := [("other", 8)] } rfl (by decide),
   by decide⟩

end authorization

namespace archiver

/-! ## The history iterator of the archiver -/

/-- C28: the evaluations of `Next` where the claim fails.  Every successful
read of the sample persistence layer returns at least one batch with at least
one event.  With the target blob size `0` the loop of `readHistoryBatches` is
not entered, the look-ahead read succeeds, and an empty batch list is returned
without an error; with the state `NextEventID = 5` the first read is not found
and again an empty batch list is returned without an error.  In both cases
`Next` indexes the empty list. -/
theorem next_indexes_empty_batch_list :
    (∀ firstEventID batches, sampleEnv.readHistory firstEventID = .ok batches →
      batches ≠ [] ∧ ∀ b ∈ batches, b.Events ≠ []) ∧
    sampleIteratorZeroTarget.HasNext = true ∧
    (∀ fuel, sampleIteratorZeroTarget.readHistoryBatches sampleEnv fuel 1 =
      some (.ok ([], { NextEventID := 1, FinishedIteration := false }))) ∧
    (∀ fuel, (sampleIteratorZeroTarget.Next sampleEnv fuel).map (fun r => r.2) =
      some (.error .indexOutOfRange)) ∧
    sampleIteratorPastEnd.HasNext = true ∧
    sampleIteratorPastEnd.readHistoryBatches sampleEnv 1 5 =
      some (.ok ([], { NextEventID := 0, FinishedIteration := true })) ∧
    (sampleIteratorPastEnd.Next sampleEnv 1).map (fun r => r.2) =
      some (.error .indexOutOfRange) := by
  refine ⟨?_, by decide, ?_, ?_, by decide, by decide, by decide⟩
  · intro firstEventID batches h
    unfold sampleEnv at h
    simp only at h
    split_ifs at h <;> cases h <;> simp
  · intro fuel
    cases fuel <;> rfl
  · intro fuel
    cases fuel <;> rfl

end archiver

namespace session

/-! ## The connection attributes of the MySQL session -/

/-- C30: the evaluations of `buildDSNAttrs` where the claim fails.  For an
isolation-level attribute whose value is empty or only white space,
`sanitizeAttr` indexes the empty trimmed value and `buildDSNAttrs` panics; it
returns neither a map nor an error. -/
theorem buildDSNAttrs_panics_on_empty_isolation_level :
    sanitizeAttr "transaction_isolation" "" = .error .indexOutOfRange ∧
    sanitizeAttr " TX_Isolation" "  " = .error .indexOutOfRange ∧
    buildDSNAttrs .DbKindMain [("transaction_isolation", "")] = .error .indexOutOfRange ∧
    buildDSNAttrs .DbKindVisibility [("parseTime", "false"), (" TX_Isolation", "  ")] =
      .error .indexOutOfRange := by
  decide

end session

namespace matching

/-! ## Redirect rules -/

theorem edge_mono {rules rules' : List RedirectRule} (h : ∀ r ∈ rules, r ∈ rules')
    {a b : String} (he : Edge rules a b) : Edge rules' a b := by
  obtain ⟨r, hr, hs, ht⟩ := he
  exact ⟨r, h r hr, hs, ht⟩

theorem acyclic_mono {rules rules' : List RedirectRule} (h : ∀ r ∈ rules, r ∈ rules')
    (ha : Acyclic rules') : Acyclic rules :=
  fun v hv => ha v (Relation.TransGen.mono (fun _ _ he => edge_mono h he) hv)

/-- A search that finds nothing: the start is not on the stack and nothing
reachable from it is the start or on the stack. -/
theorem dfs_false (rules : List RedirectRule) :
    ∀ (fuel : Nat) (stack : List String) (v : String), dfs rules fuel stack v = false →
      v ∉ stack ∧ ∀ w, Relation.TransGen (Edge rules) v w → w ∉ v :: stack := by
  intro fuel
  induction fuel with
  | zero => intro stack v h; simp [dfs] at h
  | succ fuel ih =>
    intro stack v h
    unfold dfs at h
    by_cases hv : v ∈ stack
    · rw [if_pos hv] at h; cases h
    · rw [if_neg hv] at h
      refine ⟨hv, ?_⟩
      intro w hw
      obtain ⟨t, ⟨r, hr, hs, ht⟩, htw⟩ := Relation.TransGen.head'_iff.mp hw
      have hr2 : dfs rules fuel (v :: stack) r.TargetBuildId = false := by
        rw [List.any_eq_false] at h
        have := h r (List.mem_filter.mpr ⟨hr, by simpa using hs⟩)
        simpa using this
      rw [ht] at hr2
      obtain ⟨h1, h2⟩ := ih (v :: stack) t hr2
      rcases Relation.ReflTransGen.cases_head htw with heq | ⟨c, hc, hcw⟩
      · rw [← heq]; exact h1
      · have := h2 w (Relation.TransGen.head' hc hcw)
        intro hmem
        exact this (List.mem_cons_of_mem _ hmem)

/-- A search that reports a cycle has found one, when the bound leaves room
for every path without a repeated build ID. -/
theorem dfs_true (rules : List RedirectRule) :
    ∀ (fuel : Nat) (stack : List String) (v : String),
      (∀ s ∈ stack, Relation.TransGen (Edge rules) s v) → stack.Nodup →
      (∀ s ∈ stack, s ∈ rules.map (fun r => r.SourceBuildId)) →
      rules.length < stack.length + fuel →
      dfs rules fuel stack v = true → ∃ w, Relation.TransGen (Edge rules) w w := by
  intro fuel
  induction fuel with
  | zero =>
    intro stack v _ hnd hsub hlen _
    have hle : stack.length ≤ (rules.map (fun r => r.SourceBuildId)).length :=
      (List.subperm_of_subset hnd hsub).length_le
    simp only [List.length_map] at hle
    omega
  | succ fuel ih =>
    intro stack v hpath hnd hsub hlen h
    unfold dfs at h
    by_cases hv : v ∈ stack
    · exact ⟨v, hpath v hv⟩
    · rw [if_neg hv] at h
      obtain ⟨r, hr, hd⟩ := List.any_eq_true.mp h
      obtain ⟨hr1, hr2⟩ := List.mem_filter.mp hr
      have hsrc : r.SourceBuildId = v := by simpa using hr2
      have hedge : Edge rules v r.TargetBuildId := ⟨r, hr1, hsrc, rfl⟩
      apply ih (v :: stack) r.TargetBuildId _ (List.nodup_cons.mpr ⟨hv, hnd⟩) _ _ hd
      · intro s hs
        rcases List.mem_cons.mp hs with heq | hmem
        · rw [heq]; exact Relation.TransGen.single hedge
        · exact Relation.TransGen.tail (hpath s hmem) hedge
      · intro s hs
        rcases List.mem_cons.mp hs with heq | hmem
        · rw [heq]; exact List.mem_map.mpr ⟨r, hr1, hsrc⟩
        · exact hsub s hmem
      · simp only [List.length_cons]; omega

/-- The cycle detection is exact. -/
theorem isCyclic_iff (rules : List RedirectRule) : isCyclic rules = true ↔ ¬ Acyclic rules := by
  constructor
  · intro h ha
    obtain ⟨r, _, hd⟩ := List.any_eq_true.mp h
    obtain ⟨w, hw⟩ := dfs_true rules (rules.length + 1) [] r.SourceBuildId
      (fun s hs => by cases hs) List.nodup_nil (fun s hs => by cases hs)
      (by simp) hd
    exact ha w hw
  · intro hna
    by_contra hc
    have hfalse : isCyclic rules = false := by simpa using hc
    apply hna
    intro v hv
    obtain ⟨t, ⟨r, hr, hs, _⟩, _⟩ := Relation.TransGen.head'_iff.mp hv
    unfold isCyclic at hfalse
    rw [List.any_eq_false] at hfalse
    have hd : dfs rules (rules.length + 1) [] r.SourceBuildId = false := by
      simpa using hfalse r hr
    rw [hs] at hd
    exact (dfs_false rules _ _ _ hd).2 v hv (List.mem_cons_self _ _)

theorem acyclic_of_isCyclic_false (rules : List RedirectRule) (h : isCyclic rules = false) :
    Acyclic rules := by
  by_contra hna
  rw [(isCyclic_iff rules).mpr hna] at h
  cases h

theorem active_append_new (rules : List RedirectRule) (source target : String) (ts : Nat) :
    getActiveRedirectRules (rules ++
        [{ SourceBuildId := source, TargetBuildId := target, CreateTimestamp := ts }]) =
      getActiveRedirectRules rules ++
        [{ SourceBuildId := source, TargetBuildId := target, CreateTimestamp := ts }] := by
  simp [getActiveRedirectRules, List.filter_append]

theorem active_tombstone_subset (ts : Nat) (source : String) (rules : List RedirectRule) :
    ∀ r ∈ getActiveRedirectRules (tombstone ts source rules), r ∈ getActiveRedirectRules rules := by
  intro r hr
  unfold getActiveRedirectRules tombstone at hr
  obtain ⟨hmem, hact⟩ := List.mem_filter.mp hr
  obtain ⟨r0, hr0, heq⟩ := List.mem_map.mp hmem
  by_cases hc : r0.DeleteTimestamp.isNone = true ∧ r0.SourceBuildId = source
  · rw [if_pos hc] at heq
    rw [← heq] at hact
    simp at hact
  · rw [if_neg hc] at heq
    subst heq
    exact List.mem_filter.mpr ⟨hr0, hact⟩

theorem check_none (rules : List RedirectRule) (max : Nat)
    (h : checkRedirectConditions rules max = none) :
    isCyclic (getActiveRedirectRules rules) = false := by
  unfold checkRedirectConditions at h
  simp only at h
  split_ifs at h with h1
  simpa using h1

theorem check_cyclic (rules : List RedirectRule) (max : Nat)
    (h : isCyclic (getActiveRedirectRules rules) = true) :
    checkRedirectConditions rules max = some .errIsCyclic := by
  unfold checkRedirectConditions
  simp only [h, if_true]

theorem add_ok (ts : Nat) (data data' : VersioningData) (source target : String) (max : Nat)
    (h : AddCompatibleRedirectRule ts data source target max = .ok data') :
    Acyclic (getActiveRedirectRules data'.RedirectRules) := by
  unfold AddCompatibleRedirectRule at h
  simp only at h
  repeat' split at h
  all_goals first
    | (cases h; done)
    | (rename_i hc; cases h; exact acyclic_of_isCyclic_false _ (check_none _ _ hc))

theorem replace_ok (ts : Nat) (data data' : VersioningData) (source target : String)
    (max : Nat) (h : ReplaceCompatibleRedirectRule ts data source target max = .ok data') :
    Acyclic (getActiveRedirectRules data'.RedirectRules) := by
  unfold ReplaceCompatibleRedirectRule at h
  simp only at h
  repeat' split at h
  all_goals first
    | (cases h; done)
    | (rename_i hc; cases h; exact acyclic_of_isCyclic_false _ (check_none _ _ hc))

theorem delete_ok (ts : Nat) (data data' : VersioningData) (source : String)
    (ha : Acyclic (getActiveRedirectRules data.RedirectRules))
    (h : DeleteCompatibleRedirectRule ts data source = .ok data') :
    Acyclic (getActiveRedirectRules data'.RedirectRules) := by
  unfold DeleteCompatibleRedirectRule at h
  split at h
  · cases h
  · cases h
    exact acyclic_mono (active_tombstone_subset ts source data.RedirectRules) ha

theorem applyOps_acyclic (ops : List Op) :
    ∀ (data data' : VersioningData), Acyclic (getActiveRedirectRules data.RedirectRules) →
      applyOps data ops = .ok data' → Acyclic (getActiveRedirectRules data'.RedirectRules) := by
  induction ops with
  | nil => intro data data' ha h; cases h; exact ha
  | cons op ops ih =>
    intro data data' ha h
    unfold applyOps at h
    cases hop : applyOp data op with
    | error e => rw [hop] at h; cases h
    | ok d1 =>
      rw [hop] at h
      refine ih d1 data' ?_ h
      cases op with
      | add ts source target max => exact add_ok ts data d1 source target max hop
      | replace ts source target max => exact replace_ok ts data d1 source target max hop
      | delete ts source => exact delete_ok ts data d1 source ha hop

theorem add_cycle_rejected (ts : Nat) (data : VersioningData) (source target : String)
    (max : Nat)
    (hc : ¬ Acyclic (getActiveRedirectRules data.RedirectRules ++
      [{ SourceBuildId := source, TargetBuildId := target, CreateTimestamp := ts }])) :
    (∃ err, AddCompatibleRedirectRule ts data source target max = .error err) ∧
    (isInVersionSets source data.VersionSets = false →
      isInVersionSets target data.VersionSets = false →
      (getActiveRedirectRules data.RedirectRules).find?
        (fun r => decide (r.SourceBuildId = source)) = none →
      target ≠ "" →
      AddCompatibleRedirectRule ts data source target max = .error .errIsCyclic) := by
  have hcyc : checkRedirectConditions (data.RedirectRules ++
      [{ SourceBuildId := source, TargetBuildId := target, CreateTimestamp := ts }]) max =
      some .errIsCyclic := by
    apply check_cyclic
    rw [active_append_new]
    exact (isCyclic_iff _).mpr hc
  constructor
  · unfold AddCompatibleRedirectRule
    simp only [hcyc]
    repeat' split
    all_goals exact ⟨_, rfl⟩
  · intro h1 h2 h3 h4
    unfold AddCompatibleRedirectRule
    simp only [h1, h2, h3, h4, hcyc, Bool.false_eq_true, if_false]

theorem replace_cycle_rejected (ts : Nat) (data : VersioningData) (source target : String)
    (max : Nat)
    (hc : ¬ Acyclic (getActiveRedirectRules (tombstone ts source data.RedirectRules) ++
      [{ SourceBuildId := source, TargetBuildId := target, CreateTimestamp := ts }])) :
    (∃ err, ReplaceCompatibleRedirectRule ts data source target max = .error err) ∧
    (isInVersionSets target data.VersionSets = false →
      (∃ r, (getActiveRedirectRules data.RedirectRules).find?
        (fun r => decide (r.SourceBuildId = source)) = some r) →
      target ≠ "" →
      ReplaceCompatibleRedirectRule ts data source target max = .error .errIsCyclic) := by
  have hcyc : checkRedirectConditions (tombstone ts source data.RedirectRules ++
      [{ SourceBuildId := source, TargetBuildId := target, CreateTimestamp := ts }]) max =
      some .errIsCyclic := by
    apply check_cyclic
    rw [active_append_new]
    exact (isCyclic_iff _).mpr hc
  constructor
  · unfold ReplaceCompatibleRedirectRule
    simp only [hcyc]
    repeat' split
    all_goals exact ⟨_, rfl⟩
  · intro h1 h2 h3
    obtain ⟨r, hr⟩ := h2
    unfold ReplaceCompatibleRedirectRule
    simp only [h1, hr, h3, hcyc, Bool.false_eq_true, if_false]

theorem self_loop_cyclic (rules : List RedirectRule) (v : String) (ts : Nat) :
    ¬ Acyclic (rules ++ [{ SourceBuildId := v, TargetBuildId := v, CreateTimestamp := ts }]) :=
  fun ha => ha v (Relation.TransGen.single
    ⟨_, List.mem_append_right _ (List.mem_singleton_self _), rfl, rfl⟩)

/-- C23: redirect-rule acyclicity.  Starting from versioning data whose active
(undeleted) redirect rules are acyclic, after any sequence of
`AddCompatibleRedirectRule`, `ReplaceCompatibleRedirectRule` and
`DeleteCompatibleRedirectRule` calls that each return no error, the active
redirect rules (edges source -> target) still form a directed acyclic graph.
An add or replace whose candidate rule set has a cycle is rejected, with
`errIsCyclic` when the preconditions checked before the cycle check hold; in
particular a self-loop `source = target` is rejected. -/
theorem redirect_rules_stay_acyclic :
    (∀ (data data' : VersioningData) (ops : List Op),
      Acyclic (getActiveRedirectRules data.RedirectRules) →
      applyOps data ops = .ok data' →
      Acyclic (getActiveRedirectRules data'.RedirectRules)) ∧
    (∀ (ts : Nat) (data : VersioningData) (source target : String) (max : Nat),
      ¬ Acyclic (getActiveRedirectRules data.RedirectRules ++
        [{ SourceBuildId := source, TargetBuildId := target, CreateTimestamp := ts }]) →
      (∃ err, AddCompatibleRedirectRule ts data source target max = .error err) ∧
      (isInVersionSets source data.VersionSets = false →
        isInVersionSets target data.VersionSets = false →
        (getActiveRedirectRules data.RedirectRules).find?
          (fun r => decide (r.SourceBuildId = source)) = none →
        target ≠ "" →
        AddCompatibleRedirectRule ts data source target max = .error .errIsCyclic)) ∧
    (∀ (ts : Nat) (data : VersioningData) (source target : String) (max : Nat),
      ¬ Acyclic (getActiveRedirectRules (tombstone ts source data.RedirectRules) ++
        [{ SourceBuildId := source, TargetBuildId := target, CreateTimestamp := ts }]) →
      (∃ err, ReplaceCompatibleRedirectRule ts data source target max = .error err) ∧
      (isInVersionSets target data.VersionSets = false →
        (∃ r, (getActiveRedirectRules data.RedirectRules).find?
          (fun r => decide (r.SourceBuildId = source)) = some r) →
        target ≠ "" →
        ReplaceCompatibleRedirectRule ts data source target max = .error .errIsCyclic)) ∧
    (∀ (ts : Nat) (data : VersioningData) (v : String) (max : Nat),
      (∃ err, AddCompatibleRedirectRule ts data v v max = .error err) ∧
      (∃ err, ReplaceCompatibleRedirectRule ts data v v max = .error err)) := by
  refine ⟨fun data data' ops ha h => applyOps_acyclic ops data data' ha h,
    fun ts data source target max hc => add_cycle_rejected ts data source target max hc,
    fun ts data source target max hc => replace_cycle_rejected ts data source target max hc,
    fun ts data v max => ⟨?_, ?_⟩⟩
  · exact (add_cycle_rejected ts data v v max (self_loop_cyclic _ v ts)).1
  · exact (replace_cycle_rejected ts data v v max (self_loop_cyclic _ v ts)).1

/-- Witness for C23: on the chain `0 -> 1 -> 2 -> 3`, deleting the rule of `1`
and adding `3 -> 1` succeed and leave the active rules `0 -> 1`, `2 -> 3`,
`3 -> 1` acyclic; adding `3 -> 1` to the chain itself is rejected with
`errIsCyclic`. -/
theorem redirect_rules_stay_acyclic_witness :
    applyOps sampleChain [.delete 5 "1", .add 6 "3" "1" 1000] = .ok sampleChainAfter ∧
    Acyclic (getActiveRedirectRules sampleChainAfter.RedirectRules) ∧
    AddCompatibleRedirectRule 6 sampleChain "3" "1" 1000 = .error .errIsCyclic :=
  ⟨by decide,
   redirect_rules_stay_acyclic.1 sampleChain sampleChainAfter
     [.delete 5 "1", .add 6 "3" "1" 1000]
     (acyclic_of_isCyclic_false _ (by decide)) (by decide),
   (redirect_rules_stay_acyclic.2.1 6 sampleChain "3" "1" 1000
     ((isCyclic_iff _).mp (by decide))).2 (by decide) (by decide) (by decide) (by decide)⟩

end matching
